import Mathlib

/-!
# tbls: Markdown output (`output/md/md.go`)

A shallow embedding of the Markdown renderer and diff engine of tbls.

Go strings are modelled by Lean `String` (valid UTF-8 text, one `Char` per
rune).  Go slices are lists.  A Go function returning `(T, error)` returns
`Except Error T`; every error return of `md.go` carries the empty string as
its text, so nothing is lost.  An index out of range (a Go panic) is `none`.

External libraries (`go-runewidth`, `go-difflib`, `text/template`, `packr`,
`os`, `io/ioutil`, `path/filepath`) are not part of the repository: the
functions used from them are parameters (`rw`, the fields of `Env`, and for the
operations that change the file system the fields of `World`).
-/

set_option autoImplicit false

namespace Tbls

/-! ## Strings -/

/-- The replacement text `"<br>"` as runes. -/
def brChars : List Char := ['<', 'b', 'r', '>']

/-- The replacer `r` of `adjustTable` on runes:
`strings.NewReplacer("\r\n", "<br>", "\n", "<br>", "\r", "<br>")`.  At each
position the first matching pattern (in argument order) is replaced and the
scan resumes after it. -/
def r_ReplaceChars : List Char → List Char
  | [] => []
  | [c] => if c = '\r' ∨ c = '\n' then brChars else [c]
  | c :: d :: rest =>
    if c = '\r' ∧ d = '\n' then brChars ++ r_ReplaceChars rest
    else if c = '\n' then brChars ++ r_ReplaceChars (d :: rest)
    else if c = '\r' then brChars ++ r_ReplaceChars (d :: rest)
    else c :: r_ReplaceChars (d :: rest)

/-- The method `r.Replace(s)` for the replacer `r` of `adjustTable`. -/
def r_Replace (s : String) : String := String.mk (r_ReplaceChars s.data)

/-- The function `runewidth.StringWidth`: the sum of the display widths of the
runes of `s`, for the rune width table `rw` of go-runewidth. -/
def StringWidth (rw : Char → Nat) (s : String) : Nat := (s.data.map rw).sum

/-- Modelled from the spec: the rune width table of go-runewidth is not in the
repository; "counts wide (e.g. CJK) characters as width 2, narrow as width 1".
Wide here are the Hiragana, Katakana, CJK unified ideograph, Hangul syllable
and fullwidth form blocks. -/
def RuneWidth (c : Char) : Nat :=
  let n := c.toNat
  if (0x3040 ≤ n ∧ n ≤ 0x30FF) ∨ (0x4E00 ≤ n ∧ n ≤ 0x9FFF) ∨
     (0xAC00 ≤ n ∧ n ≤ 0xD7A3) ∨ (0xFF01 ≤ n ∧ n ≤ 0xFF60) then 2 else 1

/-- The call `strings.Repeat("-", n)`. -/
def RepeatDash (n : Nat) : String := String.mk (List.replicate n '-')

/-- The call `fmt.Sprintf(fmt.Sprintf("%%-%ds", w), s)`: `s` left-justified and
padded on the right with spaces up to `w` runes.  Package fmt measures the
padding in runes (`utf8.RuneCountInString`), not in display columns.  (Widths
above fmt's parsing limit of several million are outside this model.) -/
def SprintfLeft (w : Nat) (s : String) : String :=
  s ++ String.mk (List.replicate (w - s.length) ' ')

/-! ## adjustTable -/

/-- The first loop body of `adjustTable` for one row: `w[j]` becomes the maximum
of itself and the width of `r.Replace(row[j])`, for every `j` in range of `w`;
`row[j]` out of range panics. -/
def updateWidths (rw : Char → Nat) : List Nat → List String → Option (List Nat)
  | [], _ => some []
  | _ :: _, [] => none
  | wj :: w, cell :: row =>
    let l := StringWidth rw (r_Replace cell)
    (updateWidths rw w row).map (fun w' => (if l > wj then l else wj) :: w')

/-- The first loop of `adjustTable`: the column widths. -/
def columnWidths (rw : Char → Nat) (data : List (List String)) : Option (List Nat) :=
  match data with
  | [] => none
  | first :: _ => data.foldlM (updateWidths rw) (List.replicate first.length 0)

/-- The second loop body of `adjustTable` for row `i`: cells in range of `w` are
rewritten, cells beyond stay. -/
def adjustRow (i : Nat) : List Nat → List String → List String
  | [], row => row
  | _ :: _, [] => []
  | wj :: w, cell :: row =>
    (if i = 1 then RepeatDash wj else SprintfLeft wj (r_Replace cell)) :: adjustRow i w row

/-- The function `adjustTable`; `none` is the index-out-of-range panic (empty
matrix, or a row shorter than the first). -/
def adjustTable (rw : Char → Nat) (data : List (List String)) : Option (List (List String)) :=
  (columnWidths rw data).map (fun w => data.mapIdx (fun i row => adjustRow i w row))

/-! ## The schema (package `schema`): the fields `md.go` reads -/

/-- A `*schema.Table` reached through a relation or through
`Table.ReferencedTables`; `md.go` reads its `Name` and `External` only. -/
structure TableRef where
  Name : String
  External : Bool := false
  deriving DecidableEq, Repr

/-- The struct `schema.Relation`. -/
structure Relation where
  Table : TableRef
  ParentTable : TableRef
  deriving DecidableEq, Repr

/-- The struct `schema.Column`; `Default` is `Default.String`. -/
structure Column where
  Name : String
  Type_ : String
  Nullable : Bool
  Default : String
  Comment : String
  ExtraDef : String
  ParentRelations : List Relation
  ChildRelations : List Relation
  deriving DecidableEq, Repr

/-- The struct `schema.Index`. -/
structure Index where
  Name : String
  Def : String
  Comment : String
  deriving DecidableEq, Repr

/-- The struct `schema.Constraint`. -/
structure Constraint where
  Name : String
  Type_ : String
  Def : String
  Comment : String
  deriving DecidableEq, Repr

/-- The struct `schema.Trigger`. -/
structure Trigger where
  Name : String
  Def : String
  Comment : String
  deriving DecidableEq, Repr

/-- The struct `schema.Table`. -/
structure Table where
  Name : String
  Type_ : String
  Comment : String
  Columns : List Column
  Indexes : List Index
  Constraints : List Constraint
  Triggers : List Trigger
  ReferencedTables : List TableRef
  deriving DecidableEq, Repr

/-- The struct `schema.Schema`. -/
structure Schema where
  Name : String
  Desc : String
  Tables : List Table
  deriving DecidableEq, Repr

/-- Errors: a missing file, any other failure, and a Go panic that unwinds
through the caller.  `errors.WithStack` only attaches a stack trace and is the
identity here. -/
inductive Error where
  | notExist (path : String)
  | other (msg : String)
  | panic (msg : String)
  deriving DecidableEq, Repr

/-- Modelled from the spec: `Table.HasColumnWithExtraDef` is in package `schema`,
outside `output/md`; "at least one column of that table has a non-empty
extra-definition value". -/
def Table.HasColumnWithExtraDef (t : Table) : Bool :=
  t.Columns.any (fun c => c.ExtraDef != "")

/-- Modelled from the spec: `Schema.FindTableByName` is in package `schema`,
outside `output/md`; "a Table is looked up by name ... and must fail cleanly (not found)".
The first table of that name is returned. -/
def Schema.FindTableByName (s : Schema) (name : String) : Except Error Table :=
  match s.Tables.find? (fun t => t.Name == name) with
  | some t => .ok t
  | none => .error (.other ("not found table '" ++ name ++ "'"))

/-! ## Configuration (package `config`): the fields `md.go` reads -/

/-- The dictionary `config.MergedDict`, through its method `Lookup`. -/
structure Dict where
  Lookup : String → String

/-- The struct `config.Format`. -/
structure Format where
  Adjust : Bool

/-- The struct `config.ER`. -/
structure ER where
  Format : String

/-- The template paths `config.Templates.MD`. -/
structure MDTemplates where
  Index : String
  Table : String

/-- The struct `config.Templates`. -/
structure Templates where
  MD : MDTemplates

/-- The struct `config.Config`.  `MaskedDSN` is the result of the method
`c.MaskedDSN()`, which depends on the configuration only. -/
structure Config where
  MergedDict : Dict
  BaseUrl : String
  Format : Format
  ER : ER
  Templates : Templates
  DocPath : String
  MaskedDSN : Except Error String

/-- The struct `Md` (its `box` is in `Env`). -/
structure Md where
  config : Config
  er : Bool

/-- The constructor `New`. -/
def New (c : Config) (er : Bool) : Md := { config := c, er := er }

/-! ## Template data -/

/-- The replacer `mdEscRep` on runes: every backtick (U+0060) becomes a
backslash followed by a backtick. -/
def mdEscRepChars : List Char → List Char
  | [] => []
  | c :: cs => if c = Char.ofNat 96 then '\\' :: c :: mdEscRepChars cs else c :: mdEscRepChars cs

/-- The method `mdEscRep.Replace`. -/
def mdEscRep_Replace (s : String) : String := String.mk (mdEscRepChars s.data)

/-- The call `fmt.Sprintf("[%s](%s%s.md)", name, baseUrl, name)`. -/
def link (baseUrl name : String) : String :=
  "[" ++ name ++ "](" ++ baseUrl ++ name ++ ".md)"

/-- The call `strings.Join(xs, " ")`. -/
def JoinSpace (xs : List String) : String := " ".intercalate xs

/-- The map keyed by string of the template data, `map[string]interface{}`; a
key that is not set has its default here. -/
structure TemplateData where
  Schema : Option Schema := none
  Table : Option Table := none
  Tables : List (List String) := []
  Columns : List (List String) := []
  Constraints : List (List String) := []
  Indexes : List (List String) := []
  Triggers : List (List String) := []
  ReferencedTables : List String := []
  er : Bool := false
  erFormat : String := ""
  baseUrl : String := ""

/-- The matrix `tablesData` of `makeSchemaTemplateData`, before alignment. -/
def tablesData (m : Md) (s : Schema) : List (List String) :=
  s.Tables.foldl
    (fun tablesData t =>
      let data := [link m.config.BaseUrl t.Name, toString t.Columns.length, t.Comment, t.Type_]
      tablesData ++ [data])
    [[m.config.MergedDict.Lookup "Name", m.config.MergedDict.Lookup "Columns",
      m.config.MergedDict.Lookup "Comment", m.config.MergedDict.Lookup "Type"],
     ["----", "-------", "-------", "----"]]

/-- The method `makeSchemaTemplateData`; `none` is a panic of `adjustTable`. -/
def Md.makeSchemaTemplateData (rw : Char → Nat) (m : Md) (s : Schema) (adjust : Bool) :
    Option TemplateData :=
  if adjust then
    (adjustTable rw (tablesData m s)).map (fun tables => { Schema := some s, Tables := tables })
  else
    some { Schema := some s, Tables := tablesData m s }

/-- The loop over `c.ChildRelations` (and over `c.ParentRelations`) of
`makeTableTemplateData`: `names` are the table names of the relations in order;
the state is the list of links and the keys of the map of encountered names. -/
def relationLinks (baseUrl : String) (names : List String) : List String :=
  (names.foldl
    (fun (st : List String × List String) name =>
      if name ∈ st.2 then st
      else (st.1 ++ [link baseUrl name], name :: st.2))
    ([], [])).1

/-- The slice `childRelations` of `makeTableTemplateData` for column `c`. -/
def childRelations (m : Md) (c : Column) : List String :=
  relationLinks m.config.BaseUrl (c.ChildRelations.map (fun r => r.Table.Name))

/-- The slice `parentRelations` of `makeTableTemplateData` for column `c`. -/
def parentRelations (m : Md) (c : Column) : List String :=
  relationLinks m.config.BaseUrl (c.ParentRelations.map (fun r => r.ParentTable.Name))

/-- The call `fmt.Sprintf("%v", b)` for a bool. -/
def fmtBool (b : Bool) : String := if b then "true" else "false"

/-- The matrix `columnsData` of `makeTableTemplateData`, before alignment. -/
def columnsData (m : Md) (t : Table) : List (List String) :=
  let d := m.config.MergedDict
  let columnsData : List (List String) :=
    if t.HasColumnWithExtraDef then
      [[d.Lookup "Name", d.Lookup "Type", d.Lookup "Default", d.Lookup "Nullable",
        d.Lookup "Extra Definition", d.Lookup "Children", d.Lookup "Parents", d.Lookup "Comment"],
       ["----", "----", "-------", "--------", "---------------", "--------", "-------", "-------"]]
    else
      [[d.Lookup "Name", d.Lookup "Type", d.Lookup "Default", d.Lookup "Nullable",
        d.Lookup "Children", d.Lookup "Parents", d.Lookup "Comment"],
       ["----", "----", "-------", "--------", "--------", "-------", "-------"]]
  t.Columns.foldl
    (fun columnsData c =>
      if t.HasColumnWithExtraDef then
        columnsData ++ [[c.Name, c.Type_, c.Default, fmtBool c.Nullable, mdEscRep_Replace c.ExtraDef,
          JoinSpace (childRelations m c), JoinSpace (parentRelations m c), c.Comment]]
      else
        columnsData ++ [[c.Name, c.Type_, c.Default, fmtBool c.Nullable,
          JoinSpace (childRelations m c), JoinSpace (parentRelations m c), c.Comment]])
    columnsData

/-- The flag loops `cComment`, `iComment`, `tComment`: set once an entry has a
non-empty comment. -/
def hasComment (comments : List String) : Bool :=
  comments.foldl (fun flag comment => if comment != "" then true else flag) false

/-- The shared shape of the Constraints, Indexes and Triggers sections: the
header and separator get a trailing cell when the flag is set, and one row per
entry follows, with the comment appended when the flag is set. -/
def commentedMatrix (m : Md) (header seps : List String) (rows : List (List String × String)) :
    List (List String) :=
  let flag := hasComment (rows.map (fun r => r.2))
  let head : List (List String) :=
    if flag then [header ++ [m.config.MergedDict.Lookup "Comment"], seps ++ ["-------"]]
    else [header, seps]
  rows.foldl
    (fun data r => data ++ [if flag then r.1 ++ [r.2] else r.1])
    head

/-- The matrix `constraintsData` of `makeTableTemplateData`, before alignment. -/
def constraintsData (m : Md) (t : Table) : List (List String) :=
  let d := m.config.MergedDict
  commentedMatrix m [d.Lookup "Name", d.Lookup "Type", d.Lookup "Definition"]
    ["----", "----", "----------"]
    (t.Constraints.map (fun c => ([c.Name, c.Type_, c.Def], c.Comment)))

/-- The matrix `indexesData` of `makeTableTemplateData`, before alignment. -/
def indexesData (m : Md) (t : Table) : List (List String) :=
  let d := m.config.MergedDict
  commentedMatrix m [d.Lookup "Name", d.Lookup "Definition"] ["----", "----------"]
    (t.Indexes.map (fun i => ([i.Name, i.Def], i.Comment)))

/-- The matrix `triggersData` of `makeTableTemplateData`, before alignment. -/
def triggersData (m : Md) (t : Table) : List (List String) :=
  let d := m.config.MergedDict
  commentedMatrix m [d.Lookup "Name", d.Lookup "Definition"] ["----", "----------"]
    (t.Triggers.map (fun tr => ([tr.Name, tr.Def], tr.Comment)))

/-- The slice `referencedTables` of `makeTableTemplateData`. -/
def referencedTables (m : Md) (t : Table) : List String :=
  t.ReferencedTables.foldl
    (fun referencedTables rt =>
      if rt.External then referencedTables ++ [rt.Name]
      else referencedTables ++ [link m.config.BaseUrl rt.Name])
    []

/-- The method `makeTableTemplateData`; `none` is a panic of `adjustTable`. -/
def Md.makeTableTemplateData (rw : Char → Nat) (m : Md) (t : Table) (adjust : Bool) :
    Option TemplateData :=
  if adjust then do
    let columns ← adjustTable rw (columnsData m t)
    let constraints ← adjustTable rw (constraintsData m t)
    let indexes ← adjustTable rw (indexesData m t)
    let triggers ← adjustTable rw (triggersData m t)
    pure { Table := some t, Columns := columns, Constraints := constraints, Indexes := indexes,
           Triggers := triggers, ReferencedTables := referencedTables m t }
  else
    some { Table := some t, Columns := columnsData m t, Constraints := constraintsData m t,
           Indexes := indexesData m t, Triggers := triggersData m t,
           ReferencedTables := referencedTables m t }

/-! ## Rendering -/

/-- The struct `difflib.UnifiedDiff` (the fields `md.go` sets). -/
structure UnifiedDiff where
  A : List String
  B : List String
  FromFile : String
  ToFile : String
  Context : Nat

/-- The external collaborators of `md.go`: the file system (`os`, `io/ioutil`,
`path/filepath`), the template box and engine (`packr`, `text/template`) and the
diff library (`go-difflib`).
* `ReadFile p` is `ioutil.ReadFile(p)`.
* `Lstat p` is true when `os.Lstat(p)` returns no error.
* `ReadDir p` are the names of the entries `ioutil.ReadDir(p)` returns, in its
  order; its error is discarded by the caller.
* `FindString name` is `box.FindString(name)`.
* `Execute name dict ts data` parses the template text `ts` under the name
  `name` with the functions of `dict` and executes it on `data`; a parse failure
  (`template.Must` panics) is an `Error.panic`.
* `GetUnifiedDiffString d` is the text `difflib.GetUnifiedDiffString(d)`
  returns; its error is discarded by the caller. -/
structure Env where
  rw : Char → Nat
  Abs : String → Except Error String
  Join : String → String → String
  Clean : String → String
  ReadFile : String → Except Error String
  Lstat : String → Bool
  ReadDir : String → List String
  FindString : String → Except Error String
  Execute : String → Dict → String → TemplateData → Except Error String
  GetUnifiedDiffString : UnifiedDiff → String

/-- The method `indexTemplate`. -/
def Md.indexTemplate (env : Env) (m : Md) : Except Error String :=
  if m.config.Templates.MD.Index.length > 0 then
    env.ReadFile m.config.Templates.MD.Index
  else
    env.FindString "index.md.tmpl"

/-- The method `tableTemplate`. -/
def Md.tableTemplate (env : Env) (m : Md) : Except Error String :=
  if m.config.Templates.MD.Table.length > 0 then
    env.ReadFile m.config.Templates.MD.Table
  else
    env.FindString "table.md.tmpl"

/-- The method `OutputSchema`, returning the text written to `wr`. -/
def Md.OutputSchema (env : Env) (m : Md) (s : Schema) : Except Error String := do
  let ts ← m.indexTemplate env
  match m.makeSchemaTemplateData env.rw s m.config.Format.Adjust with
  | none => .error (.panic "index out of range")
  | some templateData =>
    env.Execute "index" m.config.MergedDict ts
      { templateData with er := m.er, erFormat := m.config.ER.Format, baseUrl := m.config.BaseUrl }

/-- The method `OutputTable`, returning the text written to `wr`. -/
def Md.OutputTable (env : Env) (m : Md) (t : Table) : Except Error String := do
  let ts ← m.tableTemplate env
  match m.makeTableTemplateData env.rw t m.config.Format.Adjust with
  | none => .error (.panic "index out of range")
  | some templateData =>
    env.Execute t.Name m.config.MergedDict ts
      { templateData with er := m.er, erFormat := m.config.ER.Format, baseUrl := m.config.BaseUrl }

/-! ## Diff -/

/-- The call `strings.SplitAfter(s, "\n")` on runes. -/
def splitAfterNewline : List Char → List (List Char)
  | [] => [[]]
  | c :: cs =>
    match splitAfterNewline cs with
    | [] => [[c]]
    | l :: ls => if c = '\n' then [c] :: l :: ls else (c :: l) :: ls

/-- The statement `lines[len(lines)-1] += "\n"`. -/
def appendNewlineToLast : List (List Char) → List (List Char)
  | [] => []
  | [l] => [l ++ ['\n']]
  | l :: ls => l :: appendNewlineToLast ls

/-- The function `difflib.SplitLines`. -/
def SplitLines (s : String) : List String :=
  (appendNewlineToLast (splitAfterNewline s.data)).map String.mk

/-- One comparison of `DiffSchemas` and `DiffSchemaAndDocs` (the statements from
`d := difflib.UnifiedDiff` to the end of `if text != ""`, written out six times
in `md.go`): the text appended to `diff` for the texts `a` and `b` under the
labels `from_` and `to_`. -/
def diffEntry (env : Env) (a b from_ to_ : String) : String :=
  let d : UnifiedDiff :=
    { A := SplitLines a, B := SplitLines b, FromFile := from_, ToFile := to_, Context := 3 }
  let text := env.GetUnifiedDiffString d
  if text ≠ "" then "diff '" ++ from_ ++ "' '" ++ to_ ++ "'\n" ++ text else ""

/-- The first table loop of `DiffSchemas`, one iteration: the state is `diff`
and the keys of the map `diffed`. -/
def diffSchemasTable (env : Env) (md : Md) (s2 : Schema) (mdsnA mdsnB : String)
    (st : String × List String) (t : Table) : Except Error (String × List String) := do
  let tName := t.Name
  let diffed := tName :: st.2
  let a ← md.OutputTable env t
  let from_ := mdsnA ++ " " ++ tName
  let b ←
    match s2.FindTableByName tName with
    | .ok t2 => md.OutputTable env t2
    | .error _ => pure ""
  let to_ := mdsnB ++ " " ++ tName
  pure (st.1 ++ diffEntry env a b from_ to_, diffed)

/-- The second table loop of `DiffSchemas`, one iteration. -/
def diffSchemasAdded (env : Env) (md : Md) (mdsnA mdsnB : String) (diffed : List String)
    (diff : String) (t : Table) : Except Error String :=
  let tName := t.Name
  if tName ∈ diffed then pure diff
  else do
    let a := ""
    let from_ := mdsnA ++ " " ++ tName
    let b ← md.OutputTable env t
    let to_ := mdsnB ++ " " ++ tName
    pure (diff ++ diffEntry env a b from_ to_)

/-- The function `DiffSchemas`. -/
def DiffSchemas (env : Env) (s s2 : Schema) (c _c2 : Config) : Except Error String := do
  let diff := ""
  let md := New c false
  let a ← md.OutputSchema env s
  let b ← md.OutputSchema env s2
  let mdsnA ← c.MaskedDSN
  let from_ := "tbls doc " ++ mdsnA
  let mdsnB ← c.MaskedDSN
  let to_ := "tbls doc " ++ mdsnB
  let diff := diff ++ diffEntry env a b from_ to_
  let (diff, diffed) ← s.Tables.foldlM (diffSchemasTable env md s2 mdsnA mdsnB) (diff, [])
  let diff ← s2.Tables.foldlM (diffSchemasAdded env md mdsnA mdsnB diffed) diff
  pure diff

/-- The scan of `filepath.Ext` from the end of the path: `rev` is what is left
of the reversed path, `acc` the runes passed so far. -/
def extScan : List Char → List Char → List Char
  | [], _ => []
  | c :: rev, acc =>
    if c = '/' then [] else if c = '.' then c :: acc else extScan rev (c :: acc)

/-- The function `filepath.Ext` (separator `/`). -/
def Ext (path : String) : String := String.mk (extScan path.data.reverse [])

/-- The function `filepath.Base` (separator `/`, no volume name). -/
def Base (path : String) : String :=
  if path = "" then "."
  else
    let stripped := (path.data.reverse.dropWhile (fun c => c = '/')).reverse
    let last := (stripped.reverse.takeWhile (fun c => c ≠ '/')).reverse
    if last = [] then "/" else String.mk last

/-- The expression `fname[:len(fname)-len(filepath.Ext(fname))]`. -/
def trimExt (fname : String) : String :=
  String.mk (fname.data.take (fname.length - (Ext fname).length))

/-- The statements `a, err := ioutil.ReadFile(filepath.Clean(targetPath))`,
`if err != nil { a = []byte{} }` of `DiffSchemaAndDocs`. -/
def readOrEmpty (env : Env) (targetPath : String) : String :=
  match env.ReadFile (env.Clean targetPath) with
  | .ok a => a
  | .error _ => ""

/-- The table loop of `DiffSchemaAndDocs`, one iteration: the state is `diff`
and the keys of the map `diffed`. -/
def diffDocsTable (env : Env) (c : Config) (docPath fullPath mdsn : String)
    (st : String × List String) (t : Table) : Except Error (String × List String) := do
  let er := env.Lstat (env.Join fullPath (t.Name ++ "." ++ c.ER.Format))
  let to_ := mdsn ++ " " ++ t.Name
  let md := New c er
  let b ← md.OutputTable env t
  let targetPath := env.Join fullPath (t.Name ++ ".md")
  let diffed := (t.Name ++ ".md") :: st.2
  let a := readOrEmpty env targetPath
  let from_ := env.Join docPath (t.Name ++ ".md")
  pure (st.1 ++ diffEntry env a b from_ to_, diffed)

/-- The loop of `DiffSchemaAndDocs` over the directory entries, one iteration. -/
def diffDocsFile (env : Env) (docPath fullPath mdsn : String) (diffed : List String)
    (diff : String) (f : String) : Except Error String :=
  if f ∈ diffed then pure diff
  else if Ext f ≠ ".md" then pure diff
  else do
    let fname := f
    let targetPath := env.Join fullPath fname
    let a ← env.ReadFile (env.Clean targetPath)
    let from_ := env.Join docPath f
    let b := ""
    let to_ := mdsn ++ " " ++ Base (trimExt fname)
    pure (diff ++ diffEntry env a b from_ to_)

/-- The function `DiffSchemaAndDocs`. -/
def DiffSchemaAndDocs (env : Env) (docPath : String) (s : Schema) (c : Config) :
    Except Error String := do
  let diff := ""
  let fullPath ← env.Abs docPath
  let er := env.Lstat (env.Join fullPath ("schema." ++ c.ER.Format))
  let md := New c er
  let b ← md.OutputSchema env s
  let targetPath := env.Join fullPath "README.md"
  let a := readOrEmpty env targetPath
  let mdsn ← c.MaskedDSN
  let to_ := "tbls doc " ++ mdsn
  let from_ := env.Join docPath "README.md"
  let diff := diff ++ diffEntry env a b from_ to_
  let (diff, diffed) ← s.Tables.foldlM (diffDocsTable env c docPath fullPath mdsn) (diff, ["README.md"])
  let files := env.ReadDir fullPath
  let diff ← files.foldlM (diffDocsFile env docPath fullPath mdsn diffed) diff
  pure diff

/-! ## Writing the documents -/

/-- The operations of `Output` that change the world (file system and standard
output), on states `σ`; each returns the state after it and, where the Go
function returns an error, that error.
* `env w` are the reading functions in state `w`.
* `MkdirAll w path` is `os.MkdirAll(path, 0755)`.
* `Create w path` is `os.Create(path)`; with an error the file is nil.
* `WriteOutput w path r` is the state after the renderer wrote to the open file
  `path` with the result `r` (the text, or what it wrote before it failed).
* `Close w path` is `Close` on the open file `path`.
* `Print w text` is `fmt.Printf` or `fmt.Println` of `text`. -/
structure World (σ : Type) where
  env : σ → Env
  MkdirAll : σ → String → σ × Option Error
  Create : σ → String → σ × Option Error
  WriteOutput : σ → String → Except Error String → σ
  Close : σ → String → σ × Option Error
  Print : σ → String → σ

/-- The loop of `outputExists` over the tables. -/
def outputExistsTables (env : Env) (path : String) : List Table → Bool
  | [] => false
  | t :: ts =>
    if env.Lstat (env.Join path (t.Name ++ ".md")) then true
    else outputExistsTables env path ts

/-- The function `outputExists`. -/
def outputExists (env : Env) (s : Schema) (path : String) : Bool :=
  if env.Lstat (env.Join path "README.md") then true
  else outputExistsTables env path s.Tables

/-- The loop of `Output` over the tables. -/
def outputTables {σ : Type} (os : World σ) (c : Config) (docPath fullPath : String) :
    σ → List Table → σ × Option Error
  | w, [] => (w, none)
  | w, t :: ts =>
    let path := (os.env w).Join fullPath (t.Name ++ ".md")
    match os.Create w path with
    | (w1, some err) => (w1, some err)
    | (w1, none) =>
      let er := (os.env w1).Lstat ((os.env w1).Join fullPath (t.Name ++ "." ++ c.ER.Format))
      let md := New c er
      let r := md.OutputTable (os.env w1) t
      let w2 := os.WriteOutput w1 path r
      match r with
      | .error err => ((os.Close w2 path).1, some err)
      | .ok _ =>
        let w3 := os.Print w2 ((os.env w2).Join docPath (t.Name ++ ".md") ++ "\n")
        match os.Close w3 path with
        | (w4, some err) => (w4, some err)
        | (w4, none) => outputTables os c docPath fullPath w4 ts

/-- The statements of `Output` after the deferred close is registered, for an
open `README.md`: the schema document, the table documents and the call of
`OutputProcedure`, which prints a line and returns nil. -/
def outputDocs {σ : Type} (os : World σ) (w : σ) (s : Schema) (c : Config)
    (docPath fullPath : String) : σ × Option Error :=
  let er := (os.env w).Lstat ((os.env w).Join fullPath ("schema." ++ c.ER.Format))
  let md := New c er
  let r := md.OutputSchema (os.env w) s
  let w1 := os.WriteOutput w ((os.env w).Join fullPath "README.md") r
  match r with
  | .error err => (w1, some err)
  | .ok _ =>
    let w2 := os.Print w1 ((os.env w1).Join docPath "README.md" ++ "\n")
    match outputTables os c docPath fullPath w2 s.Tables with
    | (w3, some err) => (w3, some err)
    | (w3, none) => (os.Print w3 "in Md.OutputProcedure method!!\n", none)

/-- The statements of `Output` from `os.MkdirAll` on.  The deferred function
closes `README.md` when `Output` returns and replaces the result by the error of
`Close` if there is one; on a nil file (`os.Create` failed) `Close` returns
`os.ErrInvalid`. -/
def outputWrite {σ : Type} (os : World σ) (w : σ) (s : Schema) (c : Config)
    (docPath fullPath : String) : σ × Option Error :=
  match os.MkdirAll w fullPath with
  | (w1, some err) => (w1, some err)
  | (w1, none) =>
    let readme := (os.env w1).Join fullPath "README.md"
    match os.Create w1 readme with
    | (w2, some _) => (w2, some (.other "invalid argument"))
    | (w2, none) =>
      match outputDocs os w2 s c docPath fullPath with
      | (w3, e) =>
        match os.Close w3 readme with
        | (w4, some err) => (w4, some err)
        | (w4, none) => (w4, e)

/-- The function `Output`: the state after it and the error it returns. -/
def Output {σ : Type} (os : World σ) (w : σ) (s : Schema) (c : Config) (force : Bool) :
    σ × Option Error :=
  let docPath := c.DocPath
  match (os.env w).Abs docPath with
  | .error err => (w, some err)
  | .ok fullPath =>
    if !force && outputExists (os.env w) s fullPath then
      (w, some (.other "output files already exists"))
    else outputWrite os w s c docPath fullPath

/-! ## A small concrete environment

Used to evaluate the functions above on concrete inputs. -/

/-- A dictionary without translations: `Lookup` returns its key. -/
def plainDict : Dict := { Lookup := fun k => k }

/-- A configuration with the built-in templates, alignment off, documents in
`doc` and the given result of `MaskedDSN`. -/
def plainConfig (mdsn : Except Error String) : Config :=
  { MergedDict := plainDict, BaseUrl := "", Format := { Adjust := false }, ER := { Format := "png" },
    Templates := { MD := { Index := "", Table := "" } }, DocPath := "doc", MaskedDSN := mdsn }

/-- One table row as Markdown: the cells between bars. -/
def rowLine (row : List String) : String := "|" ++ "|".intercalate row ++ "|\n"

/-- A template engine for evaluation: the template text, then the name of the
schema or the name and comment of the table, then the rows of the Tables or
Columns matrix. -/
def plainExecute (_name : String) (_dict : Dict) (ts : String) (data : TemplateData) :
    Except Error String :=
  match data.Schema, data.Table with
  | some s, _ => .ok (ts ++ s.Name ++ "\n" ++ String.join (data.Tables.map rowLine))
  | none, some t =>
    .ok (ts ++ t.Name ++ "\n" ++ t.Comment ++ "\n" ++ String.join (data.Columns.map rowLine))
  | none, none => .error (.other "no data")

/-- A line diff for evaluation: nothing for equal line sequences, otherwise the
two file lines, the lines of `A` marked `-` and the lines of `B` marked `+`. -/
def plainDiff (d : UnifiedDiff) : String :=
  if d.A = d.B then ""
  else "--- " ++ d.FromFile ++ "\n+++ " ++ d.ToFile ++ "\n" ++
    String.join (d.A.map (fun l => "-" ++ l)) ++ String.join (d.B.map (fun l => "+" ++ l))

/-- A file system for evaluation: `files` maps a path to the result of reading
it (a path that is not listed does not exist), `dir` is the listing of every
directory.  Paths are joined with `/`; the built-in templates are `# `. -/
def plainEnv (files : List (String × Except Error String)) (dir : List String) : Env :=
  { rw := RuneWidth
    Abs := fun p => .ok ("/" ++ p)
    Join := fun a b => a ++ "/" ++ b
    Clean := fun p => p
    ReadFile := fun p =>
      match files.lookup p with
      | some r => r
      | none => .error (.notExist p)
    Lstat := fun p => (files.lookup p).isSome
    ReadDir := fun _ => dir
    FindString := fun _ => .ok "# "
    Execute := plainExecute
    GetUnifiedDiffString := plainDiff }

/-- A table with the given name and comment and nothing else. -/
def plainTable (name comment : String) : Table :=
  { Name := name, Type_ := "BASE TABLE", Comment := comment, Columns := [], Indexes := [],
    Constraints := [], Triggers := [], ReferencedTables := [] }

/-- A column with the given name, extra definition and relations. -/
def plainColumn (name extraDef : String) (children parents : List String) : Column :=
  { Name := name, Type_ := "int", Nullable := false, Default := "", Comment := "",
    ExtraDef := extraDef,
    ParentRelations := parents.map (fun n => { Table := { Name := name }, ParentTable := { Name := n } }),
    ChildRelations := children.map (fun n => { Table := { Name := n }, ParentTable := { Name := name } }) }

/-! ## Definitions that follow the specification -/

/-- The names of `names` that are not in `seen`, each once, in the order of
their first occurrence: the "de-duplicated set ... preserving first-seen order"
of the specification. -/
def firstSeen : List String → List String → List String
  | _, [] => []
  | seen, name :: names =>
    if name ∈ seen then firstSeen seen names else name :: firstSeen (name :: seen) names

/-- The text a renderer produced, the empty text when it failed. -/
def textOf (r : Except Error String) : String :=
  match r with
  | .ok text => text
  | .error _ => ""

/-- A compared pair of documents of a diff report: the two labels and the two
texts. -/
structure Compared where
  fromLabel : String
  toLabel : String
  fromText : String
  toText : String

/-- The block of a compared pair in the report text: nothing when the unified
diff (3 lines of context) of the two texts is empty, otherwise the header line
`diff '<fromLabel>' '<toLabel>'` and the unified diff. -/
def reportBlock (env : Env) (p : Compared) : String :=
  let text := env.GetUnifiedDiffString
    { A := SplitLines p.fromText, B := SplitLines p.toText, FromFile := p.fromLabel,
      ToFile := p.toLabel, Context := 3 }
  if text = "" then "" else "diff '" ++ p.fromLabel ++ "' '" ++ p.toLabel ++ "'\n" ++ text

/-- The concatenation of a list of texts. -/
def concat : List String → String
  | [] => ""
  | x :: xs => x ++ concat xs

/-- The report text of a list of compared pairs: the concatenation of their
blocks, in order. -/
def reportText (env : Env) (ps : List Compared) : String :=
  concat (ps.map (reportBlock env))

/-- The compared pairs of `CompareSchemas(a, b)` in the order of the
specification: the whole-schema documents, then each table of `a` against the
table of `b` of the same name (the empty text when there is none), then each
table of `b` whose name is the name of no table of `a` against the empty text.
The documents are rendered by `md`; `fromDsn` and `toDsn` are the identifiers
the labels are built from. -/
def schemasCompared (env : Env) (md : Md) (a b : Schema) (fromDsn toDsn : String) :
    List Compared :=
  [{ fromLabel := "tbls doc " ++ fromDsn, toLabel := "tbls doc " ++ toDsn,
     fromText := textOf (md.OutputSchema env a), toText := textOf (md.OutputSchema env b) }] ++
  a.Tables.map (fun t =>
    { fromLabel := fromDsn ++ " " ++ t.Name, toLabel := toDsn ++ " " ++ t.Name,
      fromText := textOf (md.OutputTable env t),
      toText :=
        match b.Tables.find? (fun t2 => t2.Name == t.Name) with
        | some t2 => textOf (md.OutputTable env t2)
        | none => "" }) ++
  (b.Tables.filter (fun t => decide (t.Name ∉ a.Tables.map (fun ta => ta.Name)))).map (fun t =>
    { fromLabel := fromDsn ++ " " ++ t.Name, toLabel := toDsn ++ " " ++ t.Name,
      fromText := "", toText := textOf (md.OutputTable env t) })

/-- The orphan documents of the target directory, in directory-listing order:
the entries whose name ends in `.md` and is neither `README.md` nor `<name>.md`
for a table of the schema. -/
def orphanNames (env : Env) (fullPath : String) (s : Schema) : List String :=
  (env.ReadDir fullPath).filter (fun f =>
    decide (f ≠ "README.md" ∧ (∀ t ∈ s.Tables, f ≠ t.Name ++ ".md") ∧ ".md".data <:+ f.data))

/-- The compared pairs of `CompareSchemaToDocuments` in the order of the
specification: `README.md` against the whole-schema document, then for each
table `<name>.md` against the table document, then each orphan document against
the empty text.  The text of a file that cannot be read is empty. -/
def docsCompared (env : Env) (docPath fullPath : String) (s : Schema) (c : Config)
    (mdsn : String) : List Compared :=
  [{ fromLabel := env.Join docPath "README.md", toLabel := "tbls doc " ++ mdsn,
     fromText := textOf (env.ReadFile (env.Clean (env.Join fullPath "README.md"))),
     toText := textOf ((New c (env.Lstat (env.Join fullPath ("schema." ++ c.ER.Format)))).OutputSchema
       env s) }] ++
  s.Tables.map (fun t =>
    { fromLabel := env.Join docPath (t.Name ++ ".md"), toLabel := mdsn ++ " " ++ t.Name,
      fromText := textOf (env.ReadFile (env.Clean (env.Join fullPath (t.Name ++ ".md")))),
      toText := textOf ((New c (env.Lstat (env.Join fullPath (t.Name ++ "." ++ c.ER.Format)))).OutputTable
        env t) }) ++
  (orphanNames env fullPath s).map (fun f =>
    { fromLabel := env.Join docPath f, toLabel := mdsn ++ " " ++ Base (trimExt f),
      fromText := textOf (env.ReadFile (env.Clean (env.Join fullPath f))), toText := "" })

/-! ## Example inputs -/

/-- A schema with the single table `users`. -/
def exampleA : Schema :=
  { Name := "db", Desc := "", Tables := [plainTable "users" ""] }

/-- A schema with the table `users` (commented) and the table `posts`. -/
def exampleB : Schema :=
  { Name := "db", Desc := "", Tables := [plainTable "users" "accounts", plainTable "posts" ""] }

/-- A directory `/doc` with documents for the tables `users` and `posts`, a
`README.md` and an image. -/
def exampleDocs : Env :=
  plainEnv
    [("/doc/README.md", .ok "# db\n|Name|Columns|Comment|Type|\n|----|-------|-------|----|\n|[users](users.md)|0||BASE TABLE|\n"),
     ("/doc/users.md", .ok "# users\n\n|Name|Type|Default|Nullable|Children|Parents|Comment|\n|----|----|-------|--------|--------|-------|-------|\n"),
     ("/doc/posts.md", .ok "# posts\n"),
     ("/doc/schema.svg", .ok "")]
    ["README.md", "posts.md", "schema.svg", "users.md"]

/-- A directory `/doc` whose `README.md` exists but cannot be read. -/
def exampleUnreadable : Env :=
  plainEnv [("/doc/README.md", .error (.other "permission denied"))] ["README.md"]

/-- The width of column `j` as the specification has it: the maximum, over all
rows of the matrix, of the display width of the cell in column `j` once its line
breaks are replaced by `<br>`. -/
def columnMax (rw : Char → Nat) (data : List (List String)) (j : Nat) : Nat :=
  (data.map (fun row => StringWidth rw (r_Replace (row.getD j "")))).foldl max 0

/-- A matrix with a header, a separator and one row with line breaks. -/
def exampleMatrix : List (List String) :=
  [["Name", "Comment"], ["----", "-------"], ["a\r\nb", "x\ny\rz"]]

/-- A matrix that is not empty and whose rows all have as many cells as its
first row. -/
def Rectangular (data : List (List String)) : Prop :=
  data ≠ [] ∧ ∀ row ∈ data, row.length = (data.headD []).length

instance (data : List (List String)) : Decidable (Rectangular data) := by
  unfold Rectangular; infer_instance

/-- A primary key constraint without comment. -/
def exampleKey : Constraint :=
  { Name := "users_pkey", Type_ := "PRIMARY KEY", Def := "PRIMARY KEY (id)", Comment := "" }

/-- A check constraint with a comment. -/
def exampleCheck : Constraint :=
  { Name := "users_name_check", Type_ := "CHECK", Def := "CHECK (name <> '')",
    Comment := "no empty names" }

/-- A table with two constraints, the second commented, one index and no
trigger; its second column has an extra definition with backticks and its
referenced tables are one internal and one external table. -/
def exampleTable : Table :=
  { Name := "users", Type_ := "BASE TABLE", Comment := "",
    Columns := [plainColumn "id" "" ["posts"] [],
      plainColumn "name" ("DEFAULT " ++ String.mk [Char.ofNat 96, 'x', Char.ofNat 96]) [] []],
    Indexes := [{ Name := "users_pkey", Def := "CREATE UNIQUE INDEX", Comment := "" }],
    Constraints := [exampleKey, exampleCheck],
    Triggers := [],
    ReferencedTables := [{ Name := "posts", External := false }, { Name := "logs", External := true }] }

/-- A world for evaluation: the state is the list of the files with their
texts; directories need no creation, every operation succeeds, a written file
replaces the file of that path and printing leaves no trace. -/
def plainWorld : World (List (String × String)) :=
  { env := fun w => plainEnv (w.map (fun f => (f.1, .ok f.2))) (w.map (fun f => f.1))
    MkdirAll := fun w _ => (w, none)
    Create := fun w path => ((path, "") :: w.filter (fun f => f.1 != path), none)
    WriteOutput := fun w path r => (path, textOf r) :: w.filter (fun f => f.1 != path)
    Close := fun w _ => (w, none)
    Print := fun w _ => w }

/-- A schema with two tables of the same name `t` and different comments. -/
def exampleDuplicate : Schema :=
  { Name := "db", Desc := "", Tables := [plainTable "t" "first", plainTable "t" "second"] }

/-- A directory `/doc` with an up-to-date `README.md` and `users.md` and an empty
`posts.md`. -/
def exampleEmptyOrphan : Env :=
  plainEnv
    [("/doc/README.md", .ok "# db\n|Name|Columns|Comment|Type|\n|----|-------|-------|----|\n|[users](users.md)|0||BASE TABLE|\n"),
     ("/doc/users.md", .ok "# users\n\n|Name|Type|Default|Nullable|Children|Parents|Comment|\n|----|----|-------|--------|--------|-------|-------|\n"),
     ("/doc/posts.md", .ok "")]
    ["README.md", "posts.md", "users.md"]

/-! ## General lemmas on loops -/

theorem foldl_append_singleton {α β : Type} (f : α → β) (l : List α) (init : List β) :
    l.foldl (fun acc x => acc ++ [f x]) init = init ++ l.map f := by
  induction l generalizing init with
  | nil => simp
  | cons x xs ih => simp [ih]

theorem foldlM_except_ok {σ α ε : Type} (f : σ → α → Except ε σ) (g : σ → α → σ)
    (l : List α) (init : σ) (h : ∀ st, ∀ x ∈ l, f st x = .ok (g st x)) :
    l.foldlM f init = .ok (l.foldl g init) := by
  induction l generalizing init with
  | nil => rfl
  | cons x xs ih =>
    have hx := h init x (List.mem_cons_self _ _)
    have ih' := ih (g init x) (fun st y hy => h st y (List.mem_cons_of_mem _ hy))
    simp only [List.foldlM, List.foldl, hx]
    exact ih'

/-! ## adjustTable: shape -/

theorem adjustRow_length (i : Nat) (w : List Nat) (row : List String) :
    (adjustRow i w row).length = row.length := by
  induction w generalizing row with
  | nil => cases row <;> simp [adjustRow]
  | cons wj w ih =>
    cases row with
    | nil => simp [adjustRow]
    | cons cell row => simp [adjustRow, ih]

theorem updateWidths_some (rw : Char → Nat) (w : List Nat) (row : List String)
    (h : w.length ≤ row.length) :
    ∃ w', updateWidths rw w row = some w' ∧ w'.length = w.length := by
  induction w generalizing row with
  | nil => exact ⟨[], by simp [updateWidths], rfl⟩
  | cons wj w ih =>
    cases row with
    | nil => simp at h
    | cons cell row =>
      obtain ⟨w', hw', hlen⟩ := ih row (by simpa using h)
      refine ⟨(if StringWidth rw (r_Replace cell) > wj then StringWidth rw (r_Replace cell) else wj)
        :: w', ?_, by simp [hlen]⟩
      simp [updateWidths, hw']

theorem foldlM_updateWidths_some (rw : Char → Nat) (rows : List (List String)) (w : List Nat)
    (h : ∀ row ∈ rows, w.length ≤ row.length) :
    ∃ w', rows.foldlM (updateWidths rw) w = some w' ∧ w'.length = w.length := by
  induction rows generalizing w with
  | nil => exact ⟨w, rfl, rfl⟩
  | cons row rows ih =>
    obtain ⟨w1, hw1, hlen1⟩ := updateWidths_some rw w row (h row (List.mem_cons_self _ _))
    obtain ⟨w2, hw2, hlen2⟩ := ih w1 (fun r hr => by
      rw [hlen1]; exact h r (List.mem_cons_of_mem _ hr))
    exact ⟨w2, by simp [List.foldlM, hw1, hw2], by rw [hlen2, hlen1]⟩

/-- On a non-empty matrix whose rows are at least as long as the first,
`adjustTable` does not panic: it maps `adjustRow` over the rows with widths `w`,
one per cell of the first row. -/
theorem adjustTable_some (rw : Char → Nat) (data : List (List String)) (n : Nat)
    (hne : data ≠ []) (h : ∀ row ∈ data, row.length = n) :
    ∃ w, w.length = n ∧ columnWidths rw data = some w ∧
      adjustTable rw data = some (data.mapIdx (fun i row => adjustRow i w row)) := by
  cases data with
  | nil => exact absurd rfl hne
  | cons first rest =>
    have hfirst : first.length = n := h first (List.mem_cons_self _ _)
    obtain ⟨w, hw, hlen⟩ := foldlM_updateWidths_some rw (first :: rest)
      (List.replicate first.length 0) (fun row hrow => by simp [h row hrow, hfirst])
    refine ⟨w, by simpa [hfirst] using hlen, ?_, ?_⟩
    · simpa [columnWidths] using hw
    · have hc : columnWidths rw (first :: rest) = some w := by simpa [columnWidths] using hw
      simp [adjustTable, hc]

/-- C1: on the matrix with header "名前", separator "----" and one row "id" the
column width is 4 (the display width of "名前"), yet `adjustTable` pads the header
to four runes, "名前" and two spaces, whose display width is 6. -/
theorem adjustTable_wide_cell_overpadded :
    columnWidths RuneWidth [["名前"], ["----"], ["id"]] = some [4] ∧
    adjustTable RuneWidth [["名前"], ["----"], ["id"]] = some [["名前  "], ["----"], ["id  "]] ∧
    StringWidth RuneWidth "名前  " = 6 := by
  decide


/-! ## The matrices of `makeTableTemplateData`: closed forms -/

theorem columnsData_eq (m : Md) (t : Table) :
    columnsData m t =
      (if t.HasColumnWithExtraDef then
        [[m.config.MergedDict.Lookup "Name", m.config.MergedDict.Lookup "Type",
          m.config.MergedDict.Lookup "Default", m.config.MergedDict.Lookup "Nullable",
          m.config.MergedDict.Lookup "Extra Definition", m.config.MergedDict.Lookup "Children",
          m.config.MergedDict.Lookup "Parents", m.config.MergedDict.Lookup "Comment"],
         ["----", "----", "-------", "--------", "---------------", "--------", "-------", "-------"]]
      else
        [[m.config.MergedDict.Lookup "Name", m.config.MergedDict.Lookup "Type",
          m.config.MergedDict.Lookup "Default", m.config.MergedDict.Lookup "Nullable",
          m.config.MergedDict.Lookup "Children", m.config.MergedDict.Lookup "Parents",
          m.config.MergedDict.Lookup "Comment"],
         ["----", "----", "-------", "--------", "--------", "-------", "-------"]]) ++
      t.Columns.map (fun c =>
        if t.HasColumnWithExtraDef then
          [c.Name, c.Type_, c.Default, fmtBool c.Nullable, mdEscRep_Replace c.ExtraDef,
            JoinSpace (childRelations m c), JoinSpace (parentRelations m c), c.Comment]
        else
          [c.Name, c.Type_, c.Default, fmtBool c.Nullable,
            JoinSpace (childRelations m c), JoinSpace (parentRelations m c), c.Comment]) := by
  cases h : t.HasColumnWithExtraDef <;> simp [columnsData, h, foldl_append_singleton]

theorem columnsData_rect (m : Md) (t : Table) :
    ∀ row ∈ columnsData m t, row.length = if t.HasColumnWithExtraDef then 8 else 7 := by
  intro row hrow
  rw [columnsData_eq] at hrow
  cases h : t.HasColumnWithExtraDef <;> simp [h] at hrow ⊢ <;>
    rcases hrow with rfl | rfl | ⟨c, _, rfl⟩ <;> rfl

theorem commentedMatrix_eq (m : Md) (header seps : List String) (rows : List (List String × String)) :
    commentedMatrix m header seps rows =
      (if hasComment (rows.map (fun r => r.2)) then
        [header ++ [m.config.MergedDict.Lookup "Comment"], seps ++ ["-------"]]
      else [header, seps]) ++
      rows.map (fun r => if hasComment (rows.map (fun r => r.2)) then r.1 ++ [r.2] else r.1) := by
  simp [commentedMatrix, foldl_append_singleton]

theorem commentedMatrix_rect (m : Md) (header seps : List String) (rows : List (List String × String))
    (n : Nat) (hh : header.length = n) (hs : seps.length = n) (hr : ∀ r ∈ rows, r.1.length = n) :
    ∀ row ∈ commentedMatrix m header seps rows,
      row.length = if hasComment (rows.map (fun r => r.2)) then n + 1 else n := by
  intro row hrow
  rw [commentedMatrix_eq] at hrow
  rcases List.mem_append.1 hrow with hhead | hbody
  · cases h : hasComment (rows.map (fun r => r.2)) <;> simp [h] at hhead ⊢ <;>
      rcases hhead with rfl | rfl <;> simp [hh, hs]
  · obtain ⟨r, hmem, rfl⟩ := List.mem_map.1 hbody
    cases h : hasComment (rows.map (fun r => r.2)) <;> simp [hr r hmem]

theorem columnsData_ne_nil (m : Md) (t : Table) : columnsData m t ≠ [] := by
  rw [columnsData_eq]; cases t.HasColumnWithExtraDef <;> simp

theorem commentedMatrix_ne_nil (m : Md) (header seps : List String)
    (rows : List (List String × String)) : commentedMatrix m header seps rows ≠ [] := by
  rw [commentedMatrix_eq]; cases hasComment (rows.map (fun r => r.2)) <;> simp

/-- With alignment on, `makeTableTemplateData` does not panic: each matrix is
its unaligned form with `adjustRow` mapped over the rows. -/
theorem makeTableTemplateData_adjust (rw : Char → Nat) (m : Md) (t : Table) :
    ∃ wc wk wi wt : List Nat,
      wc.length = (if t.HasColumnWithExtraDef then 8 else 7) ∧
      columnWidths rw (columnsData m t) = some wc ∧
      columnWidths rw (constraintsData m t) = some wk ∧
      columnWidths rw (indexesData m t) = some wi ∧
      columnWidths rw (triggersData m t) = some wt ∧
      m.makeTableTemplateData rw t true = some
        { Table := some t,
          Columns := (columnsData m t).mapIdx (fun i row => adjustRow i wc row),
          Constraints := (constraintsData m t).mapIdx (fun i row => adjustRow i wk row),
          Indexes := (indexesData m t).mapIdx (fun i row => adjustRow i wi row),
          Triggers := (triggersData m t).mapIdx (fun i row => adjustRow i wt row),
          ReferencedTables := referencedTables m t } := by
  obtain ⟨wc, hlc, hwc, hc⟩ := adjustTable_some rw (columnsData m t) _ (columnsData_ne_nil m t)
    (columnsData_rect m t)
  obtain ⟨wk, -, hwk, hk⟩ := adjustTable_some rw (constraintsData m t) _
    (commentedMatrix_ne_nil _ _ _ _)
    (commentedMatrix_rect m _ _ _ 3 rfl rfl (by simp))
  obtain ⟨wi, -, hwi, hi⟩ := adjustTable_some rw (indexesData m t) _
    (commentedMatrix_ne_nil _ _ _ _)
    (commentedMatrix_rect m _ _ _ 2 rfl rfl (by simp))
  obtain ⟨wt, -, hwt, ht⟩ := adjustTable_some rw (triggersData m t) _
    (commentedMatrix_ne_nil _ _ _ _)
    (commentedMatrix_rect m _ _ _ 2 rfl rfl (by simp))
  refine ⟨wc, wk, wi, wt, hlc, hwc, hwk, hwi, hwt, ?_⟩
  simp [Md.makeTableTemplateData, hc, hk, hi, ht]

/-! ## Relation links -/

theorem relationLinks_foldl (baseUrl : String) (names : List String) (st : List String × List String) :
    (names.foldl
      (fun (st : List String × List String) name =>
        if name ∈ st.2 then st else (st.1 ++ [link baseUrl name], name :: st.2)) st).1 =
      st.1 ++ (firstSeen st.2 names).map (link baseUrl) := by
  induction names generalizing st with
  | nil => simp [firstSeen]
  | cons name names ih =>
    by_cases h : name ∈ st.2
    · simp [List.foldl, firstSeen, h, ih]
    · simp [List.foldl, firstSeen, h, ih]

theorem relationLinks_eq (baseUrl : String) (names : List String) :
    relationLinks baseUrl names = (firstSeen [] names).map (link baseUrl) := by
  simp [relationLinks, relationLinks_foldl]

theorem mem_firstSeen (seen names : List String) (x : String) :
    x ∈ firstSeen seen names ↔ x ∈ names ∧ x ∉ seen := by
  induction names generalizing seen with
  | nil => simp [firstSeen]
  | cons name names ih =>
    by_cases h : name ∈ seen
    · simp only [firstSeen, h, if_true, ih, List.mem_cons]
      constructor
      · rintro ⟨h1, h2⟩; exact ⟨Or.inr h1, h2⟩
      · rintro ⟨h1 | h1, h2⟩
        · exact absurd (h1 ▸ h) h2
        · exact ⟨h1, h2⟩
    · simp only [firstSeen, h, if_false, List.mem_cons, ih]
      constructor
      · rintro (h1 | ⟨h1, h2⟩)
        · exact ⟨Or.inl h1, h1 ▸ h⟩
        · exact ⟨Or.inr h1, fun hx => h2 (Or.inr hx)⟩
      · rintro ⟨h1 | h1, h2⟩
        · exact Or.inl h1
        · by_cases hx : x = name
          · exact Or.inl hx
          · exact Or.inr ⟨h1, fun hc => hc.elim hx h2⟩

theorem firstSeen_order (seen names : List String) :
    (firstSeen seen names).Pairwise (fun x y => names.indexOf x < names.indexOf y) := by
  induction names generalizing seen with
  | nil => simp [firstSeen]
  | cons name names ih =>
    have shift : ∀ s, (firstSeen s names).Pairwise (fun x y => names.indexOf x < names.indexOf y) →
        (∀ x ∈ firstSeen s names, x ≠ name) →
        (firstSeen s names).Pairwise
          (fun x y => (name :: names).indexOf x < (name :: names).indexOf y) := by
      intro s hp hne
      refine hp.imp_of_mem ?_
      intro a b ha hb hab
      rw [List.indexOf_cons_ne _ (Ne.symm (hne a ha)), List.indexOf_cons_ne _ (Ne.symm (hne b hb))]
      exact Nat.succ_lt_succ hab
    by_cases h : name ∈ seen
    · simp only [firstSeen, h, if_true]
      refine shift seen (ih seen) ?_
      intro x hx hxn
      exact ((mem_firstSeen seen names x).1 hx).2 (hxn ▸ h)
    · simp only [firstSeen, h, if_false]
      have hne : ∀ x ∈ firstSeen (name :: seen) names, x ≠ name := by
        intro x hx hxn
        exact ((mem_firstSeen (name :: seen) names x).1 hx).2 (by simp [hxn])
      refine List.Pairwise.cons ?_ (shift (name :: seen) (ih (name :: seen)) hne)
      intro y hy
      rw [List.indexOf_cons_self, List.indexOf_cons_ne _ (Ne.symm (hne y hy))]
      exact Nat.succ_pos _

theorem firstSeen_nodup (seen names : List String) : (firstSeen seen names).Nodup := by
  refine (firstSeen_order seen names).imp ?_
  intro a b hab heq
  rw [heq] at hab
  exact Nat.lt_irrefl _ hab

theorem firstSeen_same (n : String) (names : List String) (hne : names ≠ [])
    (h : ∀ x ∈ names, x = n) : firstSeen [] names = [n] := by
  cases names with
  | nil => exact absurd rfl hne
  | cons x xs =>
    have hx : x = n := h x (List.mem_cons_self _ _)
    subst hx
    have hrest : firstSeen [x] xs = [] := by
      apply List.eq_nil_iff_forall_not_mem.2
      intro y hy
      have := (mem_firstSeen [x] xs y).1 hy
      exact this.2 (by simp [h y (List.mem_cons_of_mem _ this.1)])
    simp [firstSeen, hrest]

/-! ## The Columns matrix -/

theorem length_eight {α : Type} (l : List α) (h : l.length = 8) :
    ∃ a0 a1 a2 a3 a4 a5 a6 a7, l = [a0, a1, a2, a3, a4, a5, a6, a7] := by
  match l, h with
  | [a0, a1, a2, a3, a4, a5, a6, a7], _ => exact ⟨a0, a1, a2, a3, a4, a5, a6, a7, rfl⟩

/-- The Columns matrix of the template data, alignment on or off. -/
theorem makeTableTemplateData_columns (rw : Char → Nat) (m : Md) (t : Table) (adjust : Bool) :
    ∃ td wc, wc.length = (if t.HasColumnWithExtraDef then 8 else 7) ∧
      m.makeTableTemplateData rw t adjust = some td ∧
      td.Columns = if adjust then (columnsData m t).mapIdx (fun i row => adjustRow i wc row)
        else columnsData m t := by
  obtain ⟨wc, wk, wi, wt, hlc, -, -, -, -, htd⟩ := makeTableTemplateData_adjust rw m t
  cases adjust with
  | false => exact ⟨_, wc, hlc, by simp only [Md.makeTableTemplateData]; rfl, rfl⟩
  | true => exact ⟨_, wc, hlc, htd, rfl⟩

/-- C6: the Columns matrix `makeTableTemplateData` returns (alignment on or off)
has a header of 8 cells when some column of the table has a non-empty
extra-definition and of 7 cells otherwise; every row (separator and data rows)
has as many cells as the header and there are 2 + n rows for n columns; in the
8-cell case the header is Name, Type, Default, Nullable, Extra Definition,
Children, Parents, Comment (dictionary labels; padded by `adjustTable` when
alignment is on), so "Extra Definition" is at index 4 between "Nullable" and
"Children". -/
theorem columns_matrix_arity (rw : Char → Nat) (m : Md) (t : Table) (adjust : Bool) :
    ∃ td header rest,
      m.makeTableTemplateData rw t adjust = some td ∧
      td.Columns = header :: rest ∧
      header.length = (if t.Columns.any (fun c => c.ExtraDef != "") then 8 else 7) ∧
      (∀ row ∈ td.Columns, row.length = header.length) ∧
      td.Columns.length = 2 + t.Columns.length ∧
      (t.Columns.any (fun c => c.ExtraDef != "") = true →
        ∃ pad : Nat → String → String,
          (adjust = false → ∀ j s, pad j s = s) ∧
          (adjust = true → ∃ w : List Nat, ∀ j s, pad j s = SprintfLeft (w.getD j 0) (r_Replace s)) ∧
          header =
            [pad 0 (m.config.MergedDict.Lookup "Name"), pad 1 (m.config.MergedDict.Lookup "Type"),
             pad 2 (m.config.MergedDict.Lookup "Default"),
             pad 3 (m.config.MergedDict.Lookup "Nullable"),
             pad 4 (m.config.MergedDict.Lookup "Extra Definition"),
             pad 5 (m.config.MergedDict.Lookup "Children"),
             pad 6 (m.config.MergedDict.Lookup "Parents"),
             pad 7 (m.config.MergedDict.Lookup "Comment")]) := by
  have hX : t.Columns.any (fun c => c.ExtraDef != "") = t.HasColumnWithExtraDef := rfl
  rw [hX]
  obtain ⟨td, wc, hlc, hmk, hcols⟩ := makeTableTemplateData_columns rw m t adjust
  have hrect := columnsData_rect m t
  have hrows : ∀ row ∈ td.Columns, row.length = if t.HasColumnWithExtraDef then 8 else 7 := by
    intro row hrow
    rw [hcols] at hrow
    cases adjust with
    | false => exact hrect row (by simpa using hrow)
    | true =>
      simp only [if_true] at hrow
      obtain ⟨i, hi, rfl⟩ := List.mem_mapIdx.1 hrow
      rw [adjustRow_length]
      exact hrect _ (List.getElem_mem _)
  have hlen : td.Columns.length = 2 + t.Columns.length := by
    have : (columnsData m t).length = 2 + t.Columns.length := by
      rw [columnsData_eq]; cases t.HasColumnWithExtraDef <;> simp <;> omega
    rw [hcols]; cases adjust <;> simp [this]
  obtain ⟨header, rest, hhr⟩ : ∃ header rest, td.Columns = header :: rest := by
    cases hc : td.Columns with
    | nil => rw [hc] at hlen; simp at hlen; omega
    | cons a b => exact ⟨a, b, rfl⟩
  have hhead : header.length = if t.HasColumnWithExtraDef then 8 else 7 :=
    hrows header (by rw [hhr]; exact List.mem_cons_self _ _)
  refine ⟨td, header, rest, hmk, hhr, hhead, fun row hrow => by rw [hhead]; exact hrows row hrow,
    hlen, ?_⟩
  intro hx
  have hraw : (columnsData m t).head? = some
      [m.config.MergedDict.Lookup "Name", m.config.MergedDict.Lookup "Type",
       m.config.MergedDict.Lookup "Default", m.config.MergedDict.Lookup "Nullable",
       m.config.MergedDict.Lookup "Extra Definition", m.config.MergedDict.Lookup "Children",
       m.config.MergedDict.Lookup "Parents", m.config.MergedDict.Lookup "Comment"] := by
    rw [columnsData_eq]; simp [hx]
  have hh : td.Columns.head? = some header := by rw [hhr]; rfl
  rw [hcols] at hh
  cases adjust with
  | false =>
    simp only [Bool.false_eq_true, if_false] at hh
    rw [hraw] at hh
    refine ⟨fun _ s => s, fun _ _ _ => rfl, fun h => by simp at h, ?_⟩
    exact (Option.some.inj hh).symm
  | true =>
    simp only [if_true, List.head?_mapIdx, hraw, Option.map_some'] at hh
    rw [hx] at hlc
    obtain ⟨w0, w1, w2, w3, w4, w5, w6, w7, rfl⟩ := length_eight wc hlc
    refine ⟨fun j s => SprintfLeft ([w0, w1, w2, w3, w4, w5, w6, w7].getD j 0) (r_Replace s),
      fun h => by simp at h, fun _ => ⟨_, fun _ _ => rfl⟩, ?_⟩
    rw [← Option.some.inj hh]
    simp [adjustRow]

theorem columnsData_row (m : Md) (t : Table) (i : Nat) :
    (columnsData m t)[i + 2]? = t.Columns[i]?.map (fun c =>
      if t.HasColumnWithExtraDef then
        [c.Name, c.Type_, c.Default, fmtBool c.Nullable, mdEscRep_Replace c.ExtraDef,
          JoinSpace (childRelations m c), JoinSpace (parentRelations m c), c.Comment]
      else
        [c.Name, c.Type_, c.Default, fmtBool c.Nullable,
          JoinSpace (childRelations m c), JoinSpace (parentRelations m c), c.Comment]) := by
  rw [columnsData_eq]
  cases t.HasColumnWithExtraDef <;> simp

/-- C7: in the Columns matrix `makeTableTemplateData` builds (before alignment),
the row of column `c` (row i + 2 for the i-th column) has as Children cell
(index 5 with the extra-definition column, 4 without) the links
"[name](baseUrl+name.md)" joined by spaces over the table names of
`c.ChildRelations`, each name once and in the order of first occurrence; the
Parents cell (the next index) is built the same way from the `ParentTable` names
of `c.ParentRelations`.  The list of distinct names has no duplicates, has the
same members as the names, and lists them by first occurrence; relations that
all come from one table give exactly one link. -/
theorem children_parents_cells (rw : Char → Nat) (m : Md) (t : Table) (i : Nat) (c : Column)
    (hc : t.Columns[i]? = some c) :
    (∃ td row, m.makeTableTemplateData rw t false = some td ∧
      td.Columns[i + 2]? = some row ∧
      row[if t.HasColumnWithExtraDef then 5 else 4]? = some (JoinSpace
        ((firstSeen [] (c.ChildRelations.map (fun r => r.Table.Name))).map
          (link m.config.BaseUrl))) ∧
      row[if t.HasColumnWithExtraDef then 6 else 5]? = some (JoinSpace
        ((firstSeen [] (c.ParentRelations.map (fun r => r.ParentTable.Name))).map
          (link m.config.BaseUrl)))) ∧
    (∀ names : List String,
      (firstSeen [] names).Nodup ∧ (∀ n, n ∈ firstSeen [] names ↔ n ∈ names) ∧
      (firstSeen [] names).Pairwise (fun x y => names.indexOf x < names.indexOf y)) ∧
    (∀ n, c.ChildRelations ≠ [] → (∀ r ∈ c.ChildRelations, r.Table.Name = n) →
      JoinSpace ((firstSeen [] (c.ChildRelations.map (fun r => r.Table.Name))).map
        (link m.config.BaseUrl)) = "[" ++ n ++ "](" ++ m.config.BaseUrl ++ n ++ ".md)") ∧
    (∀ n, c.ParentRelations ≠ [] → (∀ r ∈ c.ParentRelations, r.ParentTable.Name = n) →
      JoinSpace ((firstSeen [] (c.ParentRelations.map (fun r => r.ParentTable.Name))).map
        (link m.config.BaseUrl)) = "[" ++ n ++ "](" ++ m.config.BaseUrl ++ n ++ ".md)") := by
  refine ⟨?_, ?_, ?_, ?_⟩
  · have hrow := columnsData_row m t i
    rw [hc] at hrow
    refine ⟨_, _, by simp only [Md.makeTableTemplateData]; rfl, hrow, ?_, ?_⟩ <;>
      cases t.HasColumnWithExtraDef <;>
      simp [childRelations, parentRelations, relationLinks_eq]
  · intro names
    exact ⟨firstSeen_nodup [] names, fun n => by simp [mem_firstSeen], firstSeen_order [] names⟩
  · intro n hne hall
    rw [firstSeen_same n _ (by simpa using hne) (by simpa using hall)]
    rfl
  · intro n hne hall
    rw [firstSeen_same n _ (by simpa using hne) (by simpa using hall)]
    rfl

/-- A column with three child relations from table "orders" and parents "a", "b",
"a" has the Children cell "[orders](orders.md)" and the Parents cell
"[a](a.md) [b](b.md)". -/
theorem children_parents_cells_witness :
    ∃ td row,
      (New (plainConfig (.ok "")) false).makeTableTemplateData RuneWidth
        { plainTable "users" "" with
          Columns := [plainColumn "id" "" ["orders", "orders", "orders"] ["a", "b", "a"]] } false
        = some td ∧
      td.Columns[2]? = some row ∧
      row[4]? = some "[orders](orders.md)" ∧ row[5]? = some "[a](a.md) [b](b.md)" :=
  (children_parents_cells RuneWidth (New (plainConfig (.ok "")) false)
    { plainTable "users" "" with
      Columns := [plainColumn "id" "" ["orders", "orders", "orders"] ["a", "b", "a"]] } 0
    (plainColumn "id" "" ["orders", "orders", "orders"] ["a", "b", "a"]) rfl).1

/-! ## Lines -/

theorem splitAfterNewline_ne_nil (cs : List Char) : splitAfterNewline cs ≠ [] := by
  cases cs with
  | nil => simp [splitAfterNewline]
  | cons c cs =>
    simp only [splitAfterNewline]
    split
    · simp
    · split <;> simp

theorem splitAfterNewline_join (cs : List Char) : (splitAfterNewline cs).flatten = cs := by
  induction cs with
  | nil => simp [splitAfterNewline]
  | cons c cs ih =>
    simp only [splitAfterNewline]
    split
    · next h => exact absurd h (splitAfterNewline_ne_nil cs)
    · next l ls h =>
      rw [h] at ih
      split <;> simp_all

theorem appendNewlineToLast_join (ls : List (List Char)) (h : ls ≠ []) :
    (appendNewlineToLast ls).flatten = ls.flatten ++ ['\n'] := by
  induction ls with
  | nil => exact absurd rfl h
  | cons l ls ih =>
    cases ls with
    | nil => simp [appendNewlineToLast]
    | cons l2 ls => simp [appendNewlineToLast, ih (by simp)]

theorem SplitLines_injective (a b : String) (h : SplitLines a = SplitLines b) : a = b := by
  have hinj : Function.Injective String.mk := fun x y hxy => by injection hxy
  have h1 := List.map_injective_iff.2 hinj h
  have h2 := congrArg List.flatten h1
  rw [appendNewlineToLast_join _ (splitAfterNewline_ne_nil _),
    appendNewlineToLast_join _ (splitAfterNewline_ne_nil _),
    splitAfterNewline_join, splitAfterNewline_join] at h2
  exact String.ext (List.append_cancel_right h2)

/-! ## Report blocks -/

theorem concat_nil : concat [] = "" := rfl

theorem concat_cons (x : String) (xs : List String) : concat (x :: xs) = x ++ concat xs := rfl

theorem concat_append (xs ys : List String) : concat (xs ++ ys) = concat xs ++ concat ys := by
  induction xs with
  | nil => simp [concat]
  | cons x xs ih => simp [concat, ih, String.append_assoc]

theorem diffEntry_eq_reportBlock (env : Env) (a b from_ to_ : String) :
    diffEntry env a b from_ to_ =
      reportBlock env { fromLabel := from_, toLabel := to_, fromText := a, toText := b } := by
  simp only [diffEntry, reportBlock]
  split <;> simp_all

theorem reportBlock_same (env : Env)
    (hsame : ∀ d : UnifiedDiff, d.A = d.B → env.GetUnifiedDiffString d = "")
    (p : Compared) (h : p.fromText = p.toText) : reportBlock env p = "" := by
  have := hsame
    { A := SplitLines p.fromText, B := SplitLines p.toText, FromFile := p.fromLabel,
      ToFile := p.toLabel, Context := 3 } (congrArg SplitLines h)
  simp [reportBlock, this]

theorem header_append_ne_empty (x y text : String) :
    "diff '" ++ x ++ "' '" ++ y ++ "'\n" ++ text ≠ "" := by
  intro h
  have := congrArg String.length h
  simp only [String.length_append] at this
  have h6 : "diff '".length = 6 := by decide
  have h0 : "".length = 0 := by decide
  omega

theorem reportBlock_differ (env : Env)
    (hdiff : ∀ d : UnifiedDiff, d.A ≠ d.B → env.GetUnifiedDiffString d ≠ "")
    (p : Compared) (h : p.fromText ≠ p.toText) :
    reportBlock env p ≠ "" ∧
    reportBlock env p = "diff '" ++ p.fromLabel ++ "' '" ++ p.toLabel ++ "'\n" ++
      env.GetUnifiedDiffString
        { A := SplitLines p.fromText, B := SplitLines p.toText, FromFile := p.fromLabel,
          ToFile := p.toLabel, Context := 3 } := by
  have hne := hdiff
    { A := SplitLines p.fromText, B := SplitLines p.toText, FromFile := p.fromLabel,
      ToFile := p.toLabel, Context := 3 } (fun hab => h (SplitLines_injective _ _ hab))
  have heq : reportBlock env p = "diff '" ++ p.fromLabel ++ "' '" ++ p.toLabel ++ "'\n" ++
      env.GetUnifiedDiffString
        { A := SplitLines p.fromText, B := SplitLines p.toText, FromFile := p.fromLabel,
          ToFile := p.toLabel, Context := 3 } := by
    simp only [reportBlock, hne, if_false]
  exact ⟨by rw [heq]; exact header_append_ne_empty _ _ _, heq⟩

/-! ## Loops with a report state -/

theorem foldl_report_state {α : Type} (e : α → String) (k : α → String) (l : List α)
    (init : String × List String) :
    l.foldl (fun st x => (st.1 ++ e x, k x :: st.2)) init =
      (init.1 ++ concat (l.map e), (l.map k).reverse ++ init.2) := by
  induction l generalizing init with
  | nil => simp [concat]
  | cons x xs ih => simp [ih, concat, String.append_assoc]

theorem foldl_report_filter {α : Type} (e : α → String) (p : α → Prop) [DecidablePred p]
    (l : List α) (init : String) :
    l.foldl (fun d x => if p x then d else d ++ e x) init =
      init ++ concat ((l.filter (fun x => decide (¬ p x))).map e) := by
  induction l generalizing init with
  | nil => simp [concat]
  | cons x xs ih =>
    by_cases h : p x
    · simp [h, ih]
    · simp [h, ih, concat, String.append_assoc]

/-! ## DiffSchemas -/

theorem textOf_ok (r : Except Error String) (text : String) (h : r = .ok text) :
    textOf r = text := by
  subst h; rfl

theorem diffSchemasTable_ok (env : Env) (md : Md) (s2 : Schema) (mdsnA mdsnB : String)
    (st : String × List String) (t : Table)
    (ht : ∃ r, md.OutputTable env t = .ok r)
    (hT2 : ∀ t2 ∈ s2.Tables, ∃ r, md.OutputTable env t2 = .ok r) :
    diffSchemasTable env md s2 mdsnA mdsnB st t = .ok
      (st.1 ++ reportBlock env
        { fromLabel := mdsnA ++ " " ++ t.Name, toLabel := mdsnB ++ " " ++ t.Name,
          fromText := textOf (md.OutputTable env t),
          toText :=
            match s2.Tables.find? (fun t2 => t2.Name == t.Name) with
            | some t2 => textOf (md.OutputTable env t2)
            | none => "" },
       t.Name :: st.2) := by
  obtain ⟨r, hr⟩ := ht
  simp only [diffSchemasTable, Schema.FindTableByName, hr, diffEntry_eq_reportBlock]
  cases hf : s2.Tables.find? (fun t2 => t2.Name == t.Name) with
  | none => rfl
  | some t2 =>
    obtain ⟨r2, hr2⟩ := hT2 t2 (List.mem_of_find?_eq_some hf)
    simp only [hr2]
    rfl

theorem diffSchemasAdded_ok (env : Env) (md : Md) (mdsnA mdsnB : String) (diffed : List String)
    (diff : String) (t : Table) (ht : ∃ r, md.OutputTable env t = .ok r) :
    diffSchemasAdded env md mdsnA mdsnB diffed diff t = .ok
      (if t.Name ∈ diffed then diff
       else diff ++ reportBlock env
        { fromLabel := mdsnA ++ " " ++ t.Name, toLabel := mdsnB ++ " " ++ t.Name,
          fromText := "", toText := textOf (md.OutputTable env t) }) := by
  obtain ⟨r, hr⟩ := ht
  simp only [diffSchemasAdded, hr, diffEntry_eq_reportBlock]
  split <;> rfl

/-- When the documents render and `MaskedDSN` succeeds, `DiffSchemas` returns the
report text of the compared pairs of the specification, both labels built from
the masked DSN of the first configuration. -/
theorem DiffSchemas_ok (env : Env) (s s2 : Schema) (c c2 : Config) (mdsn : String)
    (hS : ∃ r, (New c false).OutputSchema env s = .ok r)
    (hS2 : ∃ r, (New c false).OutputSchema env s2 = .ok r)
    (hT : ∀ t ∈ s.Tables, ∃ r, (New c false).OutputTable env t = .ok r)
    (hT2 : ∀ t ∈ s2.Tables, ∃ r, (New c false).OutputTable env t = .ok r)
    (hdsn : c.MaskedDSN = .ok mdsn) :
    DiffSchemas env s s2 c c2 =
      .ok (reportText env (schemasCompared env (New c false) s s2 mdsn mdsn)) := by
  obtain ⟨ra, hra⟩ := hS
  obtain ⟨rb, hrb⟩ := hS2
  have h1 := foldlM_except_ok (diffSchemasTable env (New c false) s2 mdsn mdsn)
    (fun st t => (st.1 ++ reportBlock env
        { fromLabel := mdsn ++ " " ++ t.Name, toLabel := mdsn ++ " " ++ t.Name,
          fromText := textOf ((New c false).OutputTable env t),
          toText :=
            match s2.Tables.find? (fun t2 => t2.Name == t.Name) with
            | some t2 => textOf ((New c false).OutputTable env t2)
            | none => "" },
       t.Name :: st.2))
    s.Tables
    ("" ++ reportBlock env
      { fromLabel := "tbls doc " ++ mdsn, toLabel := "tbls doc " ++ mdsn, fromText := ra,
        toText := rb }, [])
    (fun st t ht => diffSchemasTable_ok env _ s2 mdsn mdsn st t (hT t ht) hT2)
  rw [foldl_report_state] at h1
  have h2 := fun init => foldlM_except_ok
    (diffSchemasAdded env (New c false) mdsn mdsn ((s.Tables.map (fun t => t.Name)).reverse ++ []))
    (fun diff t => if t.Name ∈ (s.Tables.map (fun t => t.Name)).reverse ++ [] then diff
       else diff ++ reportBlock env
        { fromLabel := mdsn ++ " " ++ t.Name, toLabel := mdsn ++ " " ++ t.Name,
          fromText := "", toText := textOf ((New c false).OutputTable env t) })
    s2.Tables init
    (fun st t ht => diffSchemasAdded_ok env _ mdsn mdsn _ st t (hT2 t ht))
  simp only [DiffSchemas, hra, hrb, hdsn, diffEntry_eq_reportBlock]
  show (do
    let r ← s.Tables.foldlM (diffSchemasTable env (New c false) s2 mdsn mdsn) _
    let diff ← s2.Tables.foldlM (diffSchemasAdded env (New c false) mdsn mdsn r.2) r.1
    pure diff : Except Error String) = _
  rw [h1]
  show (do
    let diff ← s2.Tables.foldlM (diffSchemasAdded env (New c false) mdsn mdsn _) _
    pure diff : Except Error String) = _
  rw [h2, foldl_report_filter]
  have hfilter : s2.Tables.filter
      (fun t => decide (¬ t.Name ∈ (s.Tables.map (fun t => t.Name)).reverse ++ [])) =
      s2.Tables.filter (fun t => decide (t.Name ∉ s.Tables.map (fun ta => ta.Name))) := by
    congr 1; funext t; simp
  rw [hfilter]
  show Except.ok _ = Except.ok _
  congr 1
  simp only [reportText, schemasCompared, List.singleton_append, List.cons_append,
    List.map_append, List.map_cons, concat_append, concat_cons, List.map_map,
    textOf_ok _ _ hra, textOf_ok _ _ hrb, String.append_assoc, String.empty_append]
  rfl

theorem plainDiff_same (d : UnifiedDiff) (h : d.A = d.B) : plainDiff d = "" := by
  simp [plainDiff, h]

theorem plainDiff_differ (d : UnifiedDiff) (h : d.A ≠ d.B) : plainDiff d ≠ "" := by
  intro hd
  simp only [plainDiff, h, if_false] at hd
  have := congrArg String.length hd
  simp only [String.length_append] at this
  have h4 : "--- ".length = 4 := by decide
  have h0 : "".length = 0 := by decide
  omega

theorem find?_name_of_nodup (tables : List Table) (t : Table)
    (hnames : (tables.map (fun t => t.Name)).Nodup) (ht : t ∈ tables) :
    tables.find? (fun t2 => t2.Name == t.Name) = some t := by
  induction tables with
  | nil => simp at ht
  | cons x xs ih =>
    simp only [List.map_cons, List.nodup_cons] at hnames
    rcases List.mem_cons.1 ht with rfl | hmem
    · simp
    · have hne : x.Name ≠ t.Name := fun h => hnames.1 (h ▸ List.mem_map_of_mem _ hmem)
      simp [List.find?_cons, hne, ih hnames.2 hmem]

theorem concat_eq_empty (xs : List String) (h : ∀ x ∈ xs, x = "") : concat xs = "" := by
  induction xs with
  | nil => rfl
  | cons x xs ih =>
    rw [concat_cons, h x (List.mem_cons_self _ _), ih (fun y hy => h y (List.mem_cons_of_mem _ hy))]
    rfl

/-- C2 (as the code has it): for a schema `s` whose table names are pairwise
distinct each table of `s` is its own `FindTableByName` result, and
`DiffSchemas(s, s, c, c)` returns the empty report whenever the documents render
and `MaskedDSN` succeeds (the unified diff of equal line sequences being
empty). -/
theorem DiffSchemas_self_empty (env : Env) (s : Schema) (c : Config) (mdsn : String)
    (hnames : (s.Tables.map (fun t => t.Name)).Nodup)
    (hsame : ∀ d : UnifiedDiff, d.A = d.B → env.GetUnifiedDiffString d = "")
    (hS : ∃ r, (New c false).OutputSchema env s = .ok r)
    (hT : ∀ t ∈ s.Tables, ∃ r, (New c false).OutputTable env t = .ok r)
    (hdsn : c.MaskedDSN = .ok mdsn) :
    DiffSchemas env s s c c = .ok "" ∧
    ∀ t ∈ s.Tables, s.FindTableByName t.Name = .ok t := by
  constructor
  · rw [DiffSchemas_ok env s s c c mdsn hS hS hT hT hdsn]
    congr 1
    apply concat_eq_empty
    intro x hx
    obtain ⟨p, hp, rfl⟩ := List.mem_map.1 hx
    apply reportBlock_same env hsame
    simp only [schemasCompared, List.mem_append, List.mem_singleton, List.mem_map,
      List.mem_filter] at hp
    rcases hp with (rfl | ⟨t, ht, rfl⟩) | ⟨t, ⟨ht, hnot⟩, rfl⟩
    · rfl
    · simp only [find?_name_of_nodup s.Tables t hnames ht]
    · exact absurd (List.mem_map_of_mem (fun ta => ta.Name) ht) (by simpa using hnot)
  · intro t ht
    simp only [Schema.FindTableByName, find?_name_of_nodup s.Tables t hnames ht]

/-- The schema with the tables `users` and `posts` compared with itself gives the
empty report. -/
theorem DiffSchemas_self_empty_witness :
    DiffSchemas (plainEnv [] []) exampleB exampleB (plainConfig (.ok "pg://first"))
      (plainConfig (.ok "pg://first")) = .ok "" :=
  (DiffSchemas_self_empty (plainEnv [] []) exampleB (plainConfig (.ok "pg://first")) "pg://first"
    (by decide) plainDiff_same ⟨_, rfl⟩
    (fun t ht => by
      simp only [exampleB, List.mem_cons, List.mem_singleton, List.not_mem_nil, or_false] at ht
      rcases ht with rfl | rfl <;> exact ⟨_, rfl⟩)
    rfl).1

set_option maxRecDepth 100000

/-- C2, counterexample: the schema with two tables named `t`, commented `first`
and `second`, compared with itself: the second table is compared with the table
`FindTableByName` returns for `t`, the first one, and the report has an entry. -/
theorem DiffSchemas_self_duplicate_names_not_empty :
    exampleDuplicate.FindTableByName "t" = .ok (plainTable "t" "first") ∧
    DiffSchemas (plainEnv [] []) exampleDuplicate exampleDuplicate (plainConfig (.ok "pg://first"))
      (plainConfig (.ok "pg://first")) = .ok
      ("diff 'pg://first t' 'pg://first t'\n--- pg://first t\n+++ pg://first t\n" ++
       "-# t\n-second\n-|Name|Type|Default|Nullable|Children|Parents|Comment|\n" ++
       "-|----|----|-------|--------|--------|-------|-------|\n-\n" ++
       "+# t\n+first\n+|Name|Type|Default|Nullable|Children|Parents|Comment|\n" ++
       "+|----|----|-------|--------|--------|-------|-------|\n+\n") ∧
    DiffSchemas (plainEnv [] []) exampleDuplicate exampleDuplicate (plainConfig (.ok "pg://first"))
      (plainConfig (.ok "pg://first")) ≠ .ok "" := by
  refine ⟨rfl, rfl, ?_⟩
  intro h
  have h2 : DiffSchemas (plainEnv [] []) exampleDuplicate exampleDuplicate
      (plainConfig (.ok "pg://first")) (plainConfig (.ok "pg://first")) = .ok
      ("diff 'pg://first t' 'pg://first t'\n--- pg://first t\n+++ pg://first t\n" ++
       "-# t\n-second\n-|Name|Type|Default|Nullable|Children|Parents|Comment|\n" ++
       "-|----|----|-------|--------|--------|-------|-------|\n-\n" ++
       "+# t\n+first\n+|Name|Type|Default|Nullable|Children|Parents|Comment|\n" ++
       "+|----|----|-------|--------|--------|-------|-------|\n+\n") := rfl
  rw [h2] at h
  injection h with h
  exact absurd h (by decide)

/-- C3: `DiffSchemas` never reads its second configuration: both labels are
built from `c.MaskedDSN()`.  With masked DSN `pg://first` for `c` and
`pg://second` for `c2`, every header and file line of the report names
`pg://first` on both sides and `pg://second` nowhere. -/
theorem DiffSchemas_labels_from_first_config :
    (∀ (env : Env) (s s2 : Schema) (c c2 c3 : Config),
      DiffSchemas env s s2 c c2 = DiffSchemas env s s2 c c3) ∧
    DiffSchemas (plainEnv [] []) exampleA exampleB (plainConfig (.ok "pg://first"))
      (plainConfig (.ok "pg://second")) = .ok
      ("diff 'tbls doc pg://first' 'tbls doc pg://first'\n" ++
       "--- tbls doc pg://first\n+++ tbls doc pg://first\n" ++
       "-# db\n-|Name|Columns|Comment|Type|\n-|----|-------|-------|----|\n" ++
       "-|[users](users.md)|0||BASE TABLE|\n-\n" ++
       "+# db\n+|Name|Columns|Comment|Type|\n+|----|-------|-------|----|\n" ++
       "+|[users](users.md)|0|accounts|BASE TABLE|\n+|[posts](posts.md)|0||BASE TABLE|\n+\n" ++
       "diff 'pg://first users' 'pg://first users'\n" ++
       "--- pg://first users\n+++ pg://first users\n" ++
       "-# users\n-\n-|Name|Type|Default|Nullable|Children|Parents|Comment|\n" ++
       "-|----|----|-------|--------|--------|-------|-------|\n-\n" ++
       "+# users\n+accounts\n+|Name|Type|Default|Nullable|Children|Parents|Comment|\n" ++
       "+|----|----|-------|--------|--------|-------|-------|\n+\n" ++
       "diff 'pg://first posts' 'pg://first posts'\n" ++
       "--- pg://first posts\n+++ pg://first posts\n" ++
       "-\n+# posts\n+\n+|Name|Type|Default|Nullable|Children|Parents|Comment|\n" ++
       "+|----|----|-------|--------|--------|-------|-------|\n+\n") :=
  ⟨fun _ _ _ _ _ _ => rfl, rfl⟩

theorem reportText_schemasCompared (env : Env) (md : Md) (a b : Schema) (fromDsn toDsn : String) :
    reportText env (schemasCompared env md a b fromDsn toDsn) =
      reportBlock env
        { fromLabel := "tbls doc " ++ fromDsn, toLabel := "tbls doc " ++ toDsn,
          fromText := textOf (md.OutputSchema env a), toText := textOf (md.OutputSchema env b) } ++
      concat (a.Tables.map (fun t => reportBlock env
        { fromLabel := fromDsn ++ " " ++ t.Name, toLabel := toDsn ++ " " ++ t.Name,
          fromText := textOf (md.OutputTable env t),
          toText :=
            match b.FindTableByName t.Name with
            | .ok t2 => textOf (md.OutputTable env t2)
            | .error _ => "" })) ++
      concat ((b.Tables.filter
          (fun t => decide (t.Name ∉ a.Tables.map (fun ta => ta.Name)))).map (fun t =>
        reportBlock env
          { fromLabel := fromDsn ++ " " ++ t.Name, toLabel := toDsn ++ " " ++ t.Name,
            fromText := "", toText := textOf (md.OutputTable env t) })) := by
  have hfun : (fun t : Table => reportBlock env
        { fromLabel := fromDsn ++ " " ++ t.Name, toLabel := toDsn ++ " " ++ t.Name,
          fromText := textOf (md.OutputTable env t),
          toText :=
            match b.FindTableByName t.Name with
            | .ok t2 => textOf (md.OutputTable env t2)
            | .error _ => "" }) =
      (fun t : Table => reportBlock env
        { fromLabel := fromDsn ++ " " ++ t.Name, toLabel := toDsn ++ " " ++ t.Name,
          fromText := textOf (md.OutputTable env t),
          toText :=
            match b.Tables.find? (fun t2 => t2.Name == t.Name) with
            | some t2 => textOf (md.OutputTable env t2)
            | none => "" }) := by
    funext t
    simp only [Schema.FindTableByName]
    cases b.Tables.find? (fun t2 => t2.Name == t.Name) <;> rfl
  rw [hfun]
  simp only [reportText, schemasCompared, List.singleton_append, List.cons_append,
    List.map_append, List.map_cons, concat_append, concat_cons, List.map_map,
    String.append_assoc]
  rfl

theorem FindTableByName_ok (b : Schema) (name : String) (t2 : Table)
    (h : b.FindTableByName name = .ok t2) : t2 ∈ b.Tables ∧ t2.Name = name := by
  simp only [Schema.FindTableByName] at h
  cases hf : b.Tables.find? (fun t => t.Name == name) with
  | none => rw [hf] at h; cases h
  | some t =>
    rw [hf] at h
    injection h with h
    subst h
    exact ⟨List.mem_of_find?_eq_some hf, by simpa using List.find?_some hf⟩

theorem FindTableByName_error (b : Schema) (name : String)
    (h : ∀ t2 ∈ b.Tables, t2.Name ≠ name) : ∃ e, b.FindTableByName name = .error e := by
  have hf : b.Tables.find? (fun t => t.Name == name) = none := by
    rw [List.find?_eq_none]
    intro t ht
    simpa using h t ht
  exact ⟨.other ("not found table '" ++ name ++ "'"), by simp only [Schema.FindTableByName, hf]⟩

/-- C4: when the documents render and `MaskedDSN` succeeds, `DiffSchemas(a, b)`
returns a report (no error) made of the whole-schema block, then for every table
`t` of `a` the block comparing `t`'s rendering with the rendering of the table
`FindTableByName` finds in `b` under `t`'s name, or with the empty text when the
lookup fails (it fails exactly when `b` has no table of that name), then for
every table of `b` whose name is the name of no table of `a` the block comparing
the empty text with that table's rendering; such a block is exactly one header
line and a non-empty unified diff when the rendering is non-empty. -/
theorem DiffSchemas_table_pairs (env : Env) (a b : Schema) (c c2 : Config) (mdsn : String)
    (hdiff : ∀ d : UnifiedDiff, d.A ≠ d.B → env.GetUnifiedDiffString d ≠ "")
    (hS : ∃ r, (New c false).OutputSchema env a = .ok r)
    (hS2 : ∃ r, (New c false).OutputSchema env b = .ok r)
    (hT : ∀ t ∈ a.Tables, ∃ r, (New c false).OutputTable env t = .ok r)
    (hT2 : ∀ t ∈ b.Tables, ∃ r, (New c false).OutputTable env t = .ok r)
    (hdsn : c.MaskedDSN = .ok mdsn) :
    (∃ head, DiffSchemas env a b c c2 = .ok (head ++
      concat (a.Tables.map (fun t => reportBlock env
        { fromLabel := mdsn ++ " " ++ t.Name, toLabel := mdsn ++ " " ++ t.Name,
          fromText := textOf ((New c false).OutputTable env t),
          toText :=
            match b.FindTableByName t.Name with
            | .ok t2 => textOf ((New c false).OutputTable env t2)
            | .error _ => "" })) ++
      concat ((b.Tables.filter
          (fun t => decide (t.Name ∉ a.Tables.map (fun ta => ta.Name)))).map (fun t =>
        reportBlock env
          { fromLabel := mdsn ++ " " ++ t.Name, toLabel := mdsn ++ " " ++ t.Name,
            fromText := "", toText := textOf ((New c false).OutputTable env t) })))) ∧
    (∀ name t2, b.FindTableByName name = .ok t2 → t2 ∈ b.Tables ∧ t2.Name = name) ∧
    (∀ name, (∀ t2 ∈ b.Tables, t2.Name ≠ name) → ∃ e, b.FindTableByName name = .error e) ∧
    (∀ t ∈ b.Tables, t.Name ∉ a.Tables.map (fun ta => ta.Name) →
      textOf ((New c false).OutputTable env t) ≠ "" →
      reportBlock env
          { fromLabel := mdsn ++ " " ++ t.Name, toLabel := mdsn ++ " " ++ t.Name,
            fromText := "", toText := textOf ((New c false).OutputTable env t) } =
        "diff '" ++ (mdsn ++ " " ++ t.Name) ++ "' '" ++ (mdsn ++ " " ++ t.Name) ++ "'\n" ++
          env.GetUnifiedDiffString
            { A := SplitLines "", B := SplitLines (textOf ((New c false).OutputTable env t)),
              FromFile := mdsn ++ " " ++ t.Name, ToFile := mdsn ++ " " ++ t.Name, Context := 3 } ∧
      env.GetUnifiedDiffString
            { A := SplitLines "", B := SplitLines (textOf ((New c false).OutputTable env t)),
              FromFile := mdsn ++ " " ++ t.Name, ToFile := mdsn ++ " " ++ t.Name, Context := 3 }
        ≠ "") := by
  refine ⟨⟨reportBlock env
      { fromLabel := "tbls doc " ++ mdsn, toLabel := "tbls doc " ++ mdsn,
        fromText := textOf ((New c false).OutputSchema env a),
        toText := textOf ((New c false).OutputSchema env b) }, ?_⟩,
    FindTableByName_ok b, FindTableByName_error b, ?_⟩
  · rw [DiffSchemas_ok env a b c c2 mdsn hS hS2 hT hT2 hdsn, reportText_schemasCompared]
  · intro t _ _ hne
    refine ⟨(reportBlock_differ env hdiff _ (fun h => hne h.symm)).2, ?_⟩
    exact hdiff _ (fun hab => hne (SplitLines_injective _ _ hab).symm)

/-- The table `posts`, which only the second schema has, yields one block: its
header line and the diff of its rendering against the empty text. -/
theorem DiffSchemas_table_pairs_witness :
    reportBlock (plainEnv [] [])
      { fromLabel := "pg://first posts", toLabel := "pg://first posts", fromText := "",
        toText := "# posts\n\n|Name|Type|Default|Nullable|Children|Parents|Comment|\n" ++
          "|----|----|-------|--------|--------|-------|-------|\n" } =
      "diff 'pg://first posts' 'pg://first posts'\n" ++
        "--- pg://first posts\n+++ pg://first posts\n" ++
        "-\n+# posts\n+\n+|Name|Type|Default|Nullable|Children|Parents|Comment|\n" ++
        "+|----|----|-------|--------|--------|-------|-------|\n+\n" :=
  ((DiffSchemas_table_pairs (plainEnv [] []) exampleA exampleB (plainConfig (.ok "pg://first"))
    (plainConfig (.ok "pg://second")) "pg://first" plainDiff_differ ⟨_, rfl⟩ ⟨_, rfl⟩
    (fun t ht => by
      simp only [exampleA, List.mem_singleton] at ht
      subst ht; exact ⟨_, rfl⟩)
    (fun t ht => by
      simp only [exampleB, List.mem_cons, List.mem_singleton, List.not_mem_nil, or_false] at ht
      rcases ht with rfl | rfl <;> exact ⟨_, rfl⟩)
    rfl).2.2.2 (plainTable "posts" "") (by decide) (by decide) (by decide)).1

/-- C5: when the documents render and `MaskedDSN` succeeds, the text `DiffSchemas`
returns is the concatenation of the blocks of the compared pairs in the order
whole-schema document, tables of `a` in declaration order, tables of `b` absent
from `a` in `b`'s declaration order; the block of a pair is empty when its
unified diff (3 lines of context) is empty and otherwise the header line
`diff '<fromLabel>' '<toLabel>'` followed by the unified diff; a pair of
identical texts contributes nothing. -/
theorem DiffSchemas_report_text (env : Env) (a b : Schema) (c c2 : Config) (mdsn : String)
    (hsame : ∀ d : UnifiedDiff, d.A = d.B → env.GetUnifiedDiffString d = "")
    (hS : ∃ r, (New c false).OutputSchema env a = .ok r)
    (hS2 : ∃ r, (New c false).OutputSchema env b = .ok r)
    (hT : ∀ t ∈ a.Tables, ∃ r, (New c false).OutputTable env t = .ok r)
    (hT2 : ∀ t ∈ b.Tables, ∃ r, (New c false).OutputTable env t = .ok r)
    (hdsn : c.MaskedDSN = .ok mdsn) :
    DiffSchemas env a b c c2 =
      .ok (concat ((schemasCompared env (New c false) a b mdsn mdsn).map (fun p =>
        if env.GetUnifiedDiffString
            { A := SplitLines p.fromText, B := SplitLines p.toText, FromFile := p.fromLabel,
              ToFile := p.toLabel, Context := 3 } = "" then ""
        else "diff '" ++ p.fromLabel ++ "' '" ++ p.toLabel ++ "'\n" ++
          env.GetUnifiedDiffString
            { A := SplitLines p.fromText, B := SplitLines p.toText, FromFile := p.fromLabel,
              ToFile := p.toLabel, Context := 3 }))) ∧
    (∀ fromLabel toLabel text, env.GetUnifiedDiffString
        { A := SplitLines text, B := SplitLines text, FromFile := fromLabel,
          ToFile := toLabel, Context := 3 } = "") := by
  refine ⟨?_, fun _ _ _ => hsame _ rfl⟩
  rw [DiffSchemas_ok env a b c c2 mdsn hS hS2 hT hT2 hdsn]
  rfl

/-- The report for the schemas `exampleA` and `exampleB` is the concatenation of
the blocks of its compared pairs. -/
theorem DiffSchemas_report_text_witness :
    DiffSchemas (plainEnv [] []) exampleA exampleB (plainConfig (.ok "pg://first"))
        (plainConfig (.ok "pg://second")) =
      .ok (reportText (plainEnv [] [])
        (schemasCompared (plainEnv [] []) (New (plainConfig (.ok "pg://first")) false)
          exampleA exampleB "pg://first" "pg://first")) :=
  (DiffSchemas_report_text (plainEnv [] []) exampleA exampleB (plainConfig (.ok "pg://first"))
    (plainConfig (.ok "pg://second")) "pg://first" plainDiff_same ⟨_, rfl⟩ ⟨_, rfl⟩
    (fun t ht => by
      simp only [exampleA, List.mem_singleton] at ht
      subst ht; exact ⟨_, rfl⟩)
    (fun t ht => by
      simp only [exampleB, List.mem_cons, List.mem_singleton, List.not_mem_nil, or_false] at ht
      rcases ht with rfl | rfl <;> exact ⟨_, rfl⟩)
    rfl).1

/-! ## File names -/

theorem extScan_eq (rev acc res : List Char) (h : extScan rev acc = res) (hne : res ≠ []) :
    ∃ pre rest, rev = pre ++ '.' :: rest ∧ res = '.' :: (pre.reverse ++ acc) := by
  induction rev generalizing acc with
  | nil => simp [extScan] at h; exact absurd h hne
  | cons c rev ih =>
    simp only [extScan] at h
    by_cases h1 : c = '/'
    · simp [h1] at h; exact absurd h hne
    · by_cases h2 : c = '.'
      · subst h2
        simp only [h1, if_false, if_true] at h
        exact ⟨[], rev, rfl, by simp [← h]⟩
      · simp only [h1, h2, if_false] at h
        obtain ⟨pre, rest, hrev, hres⟩ := ih (c :: acc) h
        exact ⟨c :: pre, rest, by simp [hrev], by simp [hres]⟩

theorem Ext_md_iff (f : String) : Ext f = ".md" ↔ ".md".data <:+ f.data := by
  constructor
  · intro h
    have h1 : extScan f.data.reverse [] = ['.', 'm', 'd'] := by
      have := congrArg String.data h
      simpa [Ext] using this
    obtain ⟨pre, rest, hrev, hres⟩ := extScan_eq _ _ _ h1 (by simp)
    simp only [List.append_nil, List.cons.injEq, true_and] at hres
    have hpre : pre = ['d', 'm'] := by
      have := congrArg List.reverse hres
      simpa using this.symm
    subst hpre
    refine ⟨rest.reverse, ?_⟩
    have := congrArg List.reverse hrev
    simp only [List.reverse_reverse] at this
    rw [this]
    simp
  · rintro ⟨p, hp⟩
    have hd : f.data.reverse = 'd' :: 'm' :: '.' :: p.reverse := by
      rw [← hp]
      show (p ++ ['.', 'm', 'd']).reverse = _
      simp
    apply String.ext
    show extScan f.data.reverse [] = ['.', 'm', 'd']
    rw [hd]
    simp [extScan]

/-! ## DiffSchemaAndDocs -/

theorem readOrEmpty_eq (env : Env) (p : String) :
    readOrEmpty env p = textOf (env.ReadFile (env.Clean p)) := by
  unfold readOrEmpty textOf
  cases env.ReadFile (env.Clean p) <;> rfl

theorem diffDocsTable_ok (env : Env) (c : Config) (docPath fullPath mdsn : String)
    (st : String × List String) (t : Table)
    (ht : ∃ r, (New c (env.Lstat (env.Join fullPath (t.Name ++ "." ++ c.ER.Format)))).OutputTable
      env t = .ok r) :
    diffDocsTable env c docPath fullPath mdsn st t = .ok
      (st.1 ++ reportBlock env
        { fromLabel := env.Join docPath (t.Name ++ ".md"), toLabel := mdsn ++ " " ++ t.Name,
          fromText := textOf (env.ReadFile (env.Clean (env.Join fullPath (t.Name ++ ".md")))),
          toText := textOf ((New c (env.Lstat (env.Join fullPath
            (t.Name ++ "." ++ c.ER.Format)))).OutputTable env t) },
       (t.Name ++ ".md") :: st.2) := by
  obtain ⟨r, hr⟩ := ht
  simp only [diffDocsTable, hr, diffEntry_eq_reportBlock, readOrEmpty_eq]
  rfl

theorem diffDocsFile_ok (env : Env) (docPath fullPath mdsn : String) (diffed : List String)
    (diff f : String)
    (hf : f ∉ diffed → Ext f = ".md" →
      ∃ a, env.ReadFile (env.Clean (env.Join fullPath f)) = .ok a) :
    diffDocsFile env docPath fullPath mdsn diffed diff f = .ok
      (if f ∈ diffed ∨ Ext f ≠ ".md" then diff
       else diff ++ reportBlock env
        { fromLabel := env.Join docPath f, toLabel := mdsn ++ " " ++ Base (trimExt f),
          fromText := textOf (env.ReadFile (env.Clean (env.Join fullPath f))), toText := "" }) := by
  by_cases h1 : f ∈ diffed
  · simp only [diffDocsFile, h1, if_true, true_or]; rfl
  · by_cases h2 : Ext f = ".md"
    · obtain ⟨a, ha⟩ := hf h1 h2
      simp only [diffDocsFile, h1, h2, ha, if_false, ne_eq, not_true_eq_false, or_self,
        diffEntry_eq_reportBlock]
      rfl
    · simp only [diffDocsFile, h1, h2, if_false, if_true, ne_eq, not_false_eq_true, or_true]; rfl

theorem mem_orphanNames (env : Env) (fullPath : String) (s : Schema) (f : String) :
    f ∈ orphanNames env fullPath s ↔
      f ∈ env.ReadDir fullPath ∧ f ≠ "README.md" ∧ (∀ t ∈ s.Tables, f ≠ t.Name ++ ".md") ∧
        ".md".data <:+ f.data := by
  simp [orphanNames, List.mem_filter]

/-- When the target path resolves, the documents render, `MaskedDSN` succeeds and
the orphan documents can be read, `DiffSchemaAndDocs` returns the report text of
the compared pairs of the specification. -/
theorem DiffSchemaAndDocs_ok (env : Env) (docPath : String) (s : Schema) (c : Config)
    (fullPath mdsn : String)
    (hAbs : env.Abs docPath = .ok fullPath)
    (hS : ∃ r, (New c (env.Lstat (env.Join fullPath ("schema." ++ c.ER.Format)))).OutputSchema
      env s = .ok r)
    (hT : ∀ t ∈ s.Tables, ∃ r,
      (New c (env.Lstat (env.Join fullPath (t.Name ++ "." ++ c.ER.Format)))).OutputTable env t
        = .ok r)
    (hdsn : c.MaskedDSN = .ok mdsn)
    (hO : ∀ f ∈ orphanNames env fullPath s,
      ∃ a, env.ReadFile (env.Clean (env.Join fullPath f)) = .ok a) :
    DiffSchemaAndDocs env docPath s c =
      .ok (reportText env (docsCompared env docPath fullPath s c mdsn)) := by
  obtain ⟨r, hr⟩ := hS
  have hmem : ∀ f, f ∈ (s.Tables.map (fun t => t.Name ++ ".md")).reverse ++ ["README.md"] ↔
      ¬ (f ≠ "README.md" ∧ ∀ t ∈ s.Tables, f ≠ t.Name ++ ".md") := by
    intro f
    simp only [List.mem_append, List.mem_reverse, List.mem_map, List.mem_singleton, ne_eq,
      not_and, not_forall, Classical.not_not]
    constructor
    · rintro (⟨t, ht, rfl⟩ | rfl)
      · intro _; exact ⟨t, ht, rfl⟩
      · intro h; exact absurd rfl h
    · intro h
      by_cases hR : f = "README.md"
      · exact Or.inr hR
      · obtain ⟨t, ht, hft⟩ := h hR
        exact Or.inl ⟨t, ht, hft.symm⟩
  have h1 := foldlM_except_ok (diffDocsTable env c docPath fullPath mdsn)
    (fun st t => (st.1 ++ reportBlock env
        { fromLabel := env.Join docPath (t.Name ++ ".md"), toLabel := mdsn ++ " " ++ t.Name,
          fromText := textOf (env.ReadFile (env.Clean (env.Join fullPath (t.Name ++ ".md")))),
          toText := textOf ((New c (env.Lstat (env.Join fullPath
            (t.Name ++ "." ++ c.ER.Format)))).OutputTable env t) },
       (t.Name ++ ".md") :: st.2))
    s.Tables
    ("" ++ reportBlock env
      { fromLabel := env.Join docPath "README.md", toLabel := "tbls doc " ++ mdsn,
        fromText := textOf (env.ReadFile (env.Clean (env.Join fullPath "README.md"))),
        toText := r }, ["README.md"])
    (fun st t ht => diffDocsTable_ok env c docPath fullPath mdsn st t (hT t ht))
  rw [foldl_report_state] at h1
  have h2 := fun init => foldlM_except_ok
    (diffDocsFile env docPath fullPath mdsn
      ((s.Tables.map (fun t => t.Name ++ ".md")).reverse ++ ["README.md"]))
    (fun diff f =>
      if f ∈ (s.Tables.map (fun t => t.Name ++ ".md")).reverse ++ ["README.md"] ∨ Ext f ≠ ".md"
      then diff
      else diff ++ reportBlock env
        { fromLabel := env.Join docPath f, toLabel := mdsn ++ " " ++ Base (trimExt f),
          fromText := textOf (env.ReadFile (env.Clean (env.Join fullPath f))), toText := "" })
    (env.ReadDir fullPath) init
    (fun st f hfmem => diffDocsFile_ok env docPath fullPath mdsn _ st f (fun hnot hext =>
      hO f ((mem_orphanNames env fullPath s f).2
        ⟨hfmem, (Classical.not_not.1 (fun hc => hnot ((hmem f).2 hc))).1,
          (Classical.not_not.1 (fun hc => hnot ((hmem f).2 hc))).2, (Ext_md_iff f).1 hext⟩)))
  simp only [DiffSchemaAndDocs, hAbs, bind, Except.bind, hr, hdsn, diffEntry_eq_reportBlock,
    readOrEmpty_eq]
  show (do
    let st ← s.Tables.foldlM (diffDocsTable env c docPath fullPath mdsn) _
    let diff ← (env.ReadDir fullPath).foldlM (diffDocsFile env docPath fullPath mdsn st.2) st.1
    pure diff : Except Error String) = _
  rw [h1]
  show (do
    let diff ← (env.ReadDir fullPath).foldlM (diffDocsFile env docPath fullPath mdsn _) _
    pure diff : Except Error String) = _
  rw [h2, foldl_report_filter]
  have hfilter : (env.ReadDir fullPath).filter (fun f => decide (¬ (f ∈
      (s.Tables.map (fun t => t.Name ++ ".md")).reverse ++ ["README.md"] ∨ Ext f ≠ ".md"))) =
      orphanNames env fullPath s := by
    unfold orphanNames
    congr 1; funext f
    apply decide_eq_decide.2
    constructor
    · intro h
      have hA : f ≠ "README.md" ∧ ∀ t ∈ s.Tables, f ≠ t.Name ++ ".md" :=
        Classical.not_not.1 (fun hc => h (Or.inl ((hmem f).2 hc)))
      have hE : Ext f = ".md" := Classical.not_not.1 (fun hc => h (Or.inr hc))
      exact ⟨hA.1, hA.2, (Ext_md_iff f).1 hE⟩
    · rintro ⟨h1, h2, h3⟩ (hA | hE)
      · exact (hmem f).1 hA ⟨h1, h2⟩
      · exact hE ((Ext_md_iff f).2 h3)
  rw [hfilter]
  show Except.ok _ = Except.ok _
  congr 1
  simp only [reportText, docsCompared, List.singleton_append, List.cons_append,
    List.map_append, List.map_cons, concat_append, concat_cons, List.map_map,
    textOf_ok _ _ hr, String.append_assoc, String.empty_append]
  rfl

theorem reportText_docsCompared (env : Env) (docPath fullPath : String) (s : Schema) (c : Config)
    (mdsn : String) :
    reportText env (docsCompared env docPath fullPath s c mdsn) =
      reportBlock env
        { fromLabel := env.Join docPath "README.md", toLabel := "tbls doc " ++ mdsn,
          fromText := textOf (env.ReadFile (env.Clean (env.Join fullPath "README.md"))),
          toText := textOf ((New c (env.Lstat (env.Join fullPath
            ("schema." ++ c.ER.Format)))).OutputSchema env s) } ++
      concat (s.Tables.map (fun t => reportBlock env
        { fromLabel := env.Join docPath (t.Name ++ ".md"), toLabel := mdsn ++ " " ++ t.Name,
          fromText := textOf (env.ReadFile (env.Clean (env.Join fullPath (t.Name ++ ".md")))),
          toText := textOf ((New c (env.Lstat (env.Join fullPath
            (t.Name ++ "." ++ c.ER.Format)))).OutputTable env t) })) ++
      concat ((orphanNames env fullPath s).map (fun f => reportBlock env
        { fromLabel := env.Join docPath f, toLabel := mdsn ++ " " ++ Base (trimExt f),
          fromText := textOf (env.ReadFile (env.Clean (env.Join fullPath f))), toText := "" })) := by
  simp only [reportText, docsCompared, List.singleton_append, List.cons_append,
    List.map_append, List.map_cons, concat_append, concat_cons, List.map_map,
    String.append_assoc]
  rfl

/-- C8 (as the code has it): a failed read of `README.md` or of a table's
`<name>.md` is treated as the empty text whatever the failure is, a missing file
or a file that cannot be read; `DiffSchemaAndDocs` then still returns a report:
when the target path resolves, the documents render, `MaskedDSN` succeeds and the
orphan documents can be read, the result is the report whose from sides are the
texts read, the empty text for every failed read. -/
theorem DiffSchemaAndDocs_failed_read_is_empty (env : Env) (docPath : String) (s : Schema)
    (c : Config) (fullPath mdsn : String)
    (hAbs : env.Abs docPath = .ok fullPath)
    (hS : ∃ r, (New c (env.Lstat (env.Join fullPath ("schema." ++ c.ER.Format)))).OutputSchema
      env s = .ok r)
    (hT : ∀ t ∈ s.Tables, ∃ r,
      (New c (env.Lstat (env.Join fullPath (t.Name ++ "." ++ c.ER.Format)))).OutputTable env t
        = .ok r)
    (hdsn : c.MaskedDSN = .ok mdsn)
    (hO : ∀ f ∈ orphanNames env fullPath s,
      ∃ a, env.ReadFile (env.Clean (env.Join fullPath f)) = .ok a) :
    DiffSchemaAndDocs env docPath s c = .ok
      (reportBlock env
        { fromLabel := env.Join docPath "README.md", toLabel := "tbls doc " ++ mdsn,
          fromText := textOf (env.ReadFile (env.Clean (env.Join fullPath "README.md"))),
          toText := textOf ((New c (env.Lstat (env.Join fullPath
            ("schema." ++ c.ER.Format)))).OutputSchema env s) } ++
      concat (s.Tables.map (fun t => reportBlock env
        { fromLabel := env.Join docPath (t.Name ++ ".md"), toLabel := mdsn ++ " " ++ t.Name,
          fromText := textOf (env.ReadFile (env.Clean (env.Join fullPath (t.Name ++ ".md")))),
          toText := textOf ((New c (env.Lstat (env.Join fullPath
            (t.Name ++ "." ++ c.ER.Format)))).OutputTable env t) })) ++
      concat ((orphanNames env fullPath s).map (fun f => reportBlock env
        { fromLabel := env.Join docPath f, toLabel := mdsn ++ " " ++ Base (trimExt f),
          fromText := textOf (env.ReadFile (env.Clean (env.Join fullPath f))),
          toText := "" }))) ∧
    (∀ (path : String) (e : Error), env.ReadFile path = .error e →
      textOf (env.ReadFile path) = "") := by
  refine ⟨?_, fun path e h => by rw [h]; rfl⟩
  rw [DiffSchemaAndDocs_ok env docPath s c fullPath mdsn hAbs hS hT hdsn hO,
    reportText_docsCompared]

/-- With a `README.md` that exists and cannot be read and no `users.md`, both
documents are compared as the empty text and a report is returned. -/
theorem DiffSchemaAndDocs_failed_read_is_empty_witness :
    DiffSchemaAndDocs exampleUnreadable "doc" exampleA (plainConfig (.ok "pg://first")) = .ok
      (reportBlock exampleUnreadable
        { fromLabel := "doc/README.md", toLabel := "tbls doc pg://first", fromText := "",
          toText := "# db\n|Name|Columns|Comment|Type|\n|----|-------|-------|----|\n" ++
            "|[users](users.md)|0||BASE TABLE|\n" } ++
       reportBlock exampleUnreadable
        { fromLabel := "doc/users.md", toLabel := "pg://first users", fromText := "",
          toText := "# users\n\n|Name|Type|Default|Nullable|Children|Parents|Comment|\n" ++
            "|----|----|-------|--------|--------|-------|-------|\n" }) :=
  (DiffSchemaAndDocs_failed_read_is_empty exampleUnreadable "doc" exampleA
    (plainConfig (.ok "pg://first")) "/doc" "pg://first" rfl ⟨_, rfl⟩
    (fun t ht => by
      simp only [exampleA, List.mem_singleton] at ht
      subst ht; exact ⟨_, rfl⟩)
    rfl
    (fun f hf => by
      have : orphanNames exampleUnreadable "/doc" exampleA = [] := by decide
      rw [this] at hf; cases hf)).1.trans rfl

/-- C8, counterexample: `/doc/README.md` exists and reading it fails with
"permission denied", not with a missing file; `DiffSchemaAndDocs` returns no
error but the report that compares the empty text with the rendered document. -/
theorem DiffSchemaAndDocs_unreadable_readme_no_error :
    exampleUnreadable.Lstat "/doc/README.md" = true ∧
    exampleUnreadable.ReadFile "/doc/README.md" = .error (.other "permission denied") ∧
    DiffSchemaAndDocs exampleUnreadable "doc" exampleA (plainConfig (.ok "pg://first")) = .ok
      ("diff 'doc/README.md' 'tbls doc pg://first'\n" ++
       "--- doc/README.md\n+++ tbls doc pg://first\n" ++
       "-\n+# db\n+|Name|Columns|Comment|Type|\n+|----|-------|-------|----|\n" ++
       "+|[users](users.md)|0||BASE TABLE|\n+\n" ++
       "diff 'doc/users.md' 'pg://first users'\n" ++
       "--- doc/users.md\n+++ pg://first users\n" ++
       "-\n+# users\n+\n+|Name|Type|Default|Nullable|Children|Parents|Comment|\n" ++
       "+|----|----|-------|--------|--------|-------|-------|\n+\n") :=
  ⟨rfl, rfl, rfl⟩

theorem append_md_cancel (x y : String) (h : x ++ ".md" = y ++ ".md") : x = y := by
  have := congrArg String.data h
  simp only [String.data_append] at this
  exact String.ext (List.append_cancel_right this)

theorem suffix_md_iff (f : String) : ".md".data <:+ f.data ↔ ∃ p : String, f = p ++ ".md" := by
  constructor
  · rintro ⟨t, ht⟩
    exact ⟨String.mk t, String.ext (by simp [String.data_append, ← ht])⟩
  · rintro ⟨p, rfl⟩
    exact ⟨p.data, by simp [String.data_append]⟩

/-- C9 (as the code has it): when the target path resolves, the documents
render, `MaskedDSN` succeeds and the orphan documents can be read, the report of
`DiffSchemaAndDocs` is the whole-schema block, then the table blocks in schema
order, then one block per orphan, in directory-listing order, comparing the
file's content with the empty text.  The orphans are the directory entries whose
name ends in `.md` and is neither `README.md` nor `<name>.md` for a table of the
schema; an entry with another extension is no orphan.  The block of an orphan
whose content is not empty is an entry: the header line with its labels and a
non-empty unified diff; the block of an orphan whose content is empty is empty.
With `README.md`, `<A>.md` and `<B>.md` in the directory and a schema with the
single table A, the only orphan is `<B>.md`, and when its content is not empty
the orphan part of the report is exactly the entry for it. -/
theorem DiffSchemaAndDocs_orphans (env : Env) (docPath : String) (s : Schema)
    (c : Config) (fullPath mdsn : String)
    (hsame : ∀ d : UnifiedDiff, d.A = d.B → env.GetUnifiedDiffString d = "")
    (hdiff : ∀ d : UnifiedDiff, d.A ≠ d.B → env.GetUnifiedDiffString d ≠ "")
    (hAbs : env.Abs docPath = .ok fullPath)
    (hS : ∃ r, (New c (env.Lstat (env.Join fullPath ("schema." ++ c.ER.Format)))).OutputSchema
      env s = .ok r)
    (hT : ∀ t ∈ s.Tables, ∃ r,
      (New c (env.Lstat (env.Join fullPath (t.Name ++ "." ++ c.ER.Format)))).OutputTable env t
        = .ok r)
    (hdsn : c.MaskedDSN = .ok mdsn)
    (hO : ∀ f ∈ orphanNames env fullPath s,
      ∃ a, env.ReadFile (env.Clean (env.Join fullPath f)) = .ok a) :
    DiffSchemaAndDocs env docPath s c = .ok
      (reportText env
        ({ fromLabel := env.Join docPath "README.md", toLabel := "tbls doc " ++ mdsn,
           fromText := textOf (env.ReadFile (env.Clean (env.Join fullPath "README.md"))),
           toText := textOf ((New c (env.Lstat (env.Join fullPath
             ("schema." ++ c.ER.Format)))).OutputSchema env s) } ::
         s.Tables.map (fun t =>
          { fromLabel := env.Join docPath (t.Name ++ ".md"), toLabel := mdsn ++ " " ++ t.Name,
            fromText := textOf (env.ReadFile (env.Clean (env.Join fullPath (t.Name ++ ".md")))),
            toText := textOf ((New c (env.Lstat (env.Join fullPath
              (t.Name ++ "." ++ c.ER.Format)))).OutputTable env t) })) ++
       concat ((orphanNames env fullPath s).map (fun f => reportBlock env
          { fromLabel := env.Join docPath f, toLabel := mdsn ++ " " ++ Base (trimExt f),
            fromText := textOf (env.ReadFile (env.Clean (env.Join fullPath f))),
            toText := "" }))) ∧
    (∀ f, f ∈ orphanNames env fullPath s ↔
      f ∈ env.ReadDir fullPath ∧ f ≠ "README.md" ∧ (∀ t ∈ s.Tables, f ≠ t.Name ++ ".md") ∧
        ∃ p : String, f = p ++ ".md") ∧
    (orphanNames env fullPath s).Sublist (env.ReadDir fullPath) ∧
    (∀ f ∈ orphanNames env fullPath s,
      textOf (env.ReadFile (env.Clean (env.Join fullPath f))) ≠ "" →
      reportBlock env
          { fromLabel := env.Join docPath f, toLabel := mdsn ++ " " ++ Base (trimExt f),
            fromText := textOf (env.ReadFile (env.Clean (env.Join fullPath f))),
            toText := "" } =
        "diff '" ++ env.Join docPath f ++ "' '" ++ (mdsn ++ " " ++ Base (trimExt f)) ++ "'\n" ++
          env.GetUnifiedDiffString
            { A := SplitLines (textOf (env.ReadFile (env.Clean (env.Join fullPath f)))),
              B := SplitLines "", FromFile := env.Join docPath f,
              ToFile := mdsn ++ " " ++ Base (trimExt f), Context := 3 } ∧
      env.GetUnifiedDiffString
            { A := SplitLines (textOf (env.ReadFile (env.Clean (env.Join fullPath f)))),
              B := SplitLines "", FromFile := env.Join docPath f,
              ToFile := mdsn ++ " " ++ Base (trimExt f), Context := 3 } ≠ "") ∧
    (∀ f ∈ orphanNames env fullPath s,
      textOf (env.ReadFile (env.Clean (env.Join fullPath f))) = "" →
      reportBlock env
          { fromLabel := env.Join docPath f, toLabel := mdsn ++ " " ++ Base (trimExt f),
            fromText := textOf (env.ReadFile (env.Clean (env.Join fullPath f))),
            toText := "" } = "") ∧
    (∀ (tA : Table) (nB : String), s.Tables = [tA] →
      env.ReadDir fullPath = ["README.md", tA.Name ++ ".md", nB ++ ".md"] →
      nB ≠ tA.Name → nB ≠ "README" →
      orphanNames env fullPath s = [nB ++ ".md"] ∧
      (textOf (env.ReadFile (env.Clean (env.Join fullPath (nB ++ ".md")))) ≠ "" →
        concat ((orphanNames env fullPath s).map (fun f => reportBlock env
          { fromLabel := env.Join docPath f, toLabel := mdsn ++ " " ++ Base (trimExt f),
            fromText := textOf (env.ReadFile (env.Clean (env.Join fullPath f))),
            toText := "" })) =
          "diff '" ++ env.Join docPath (nB ++ ".md") ++ "' '" ++
            (mdsn ++ " " ++ Base (trimExt (nB ++ ".md"))) ++ "'\n" ++
            env.GetUnifiedDiffString
              { A := SplitLines
                  (textOf (env.ReadFile (env.Clean (env.Join fullPath (nB ++ ".md"))))),
                B := SplitLines "", FromFile := env.Join docPath (nB ++ ".md"),
                ToFile := mdsn ++ " " ++ Base (trimExt (nB ++ ".md")), Context := 3 } ∧
        concat ((orphanNames env fullPath s).map (fun f => reportBlock env
          { fromLabel := env.Join docPath f, toLabel := mdsn ++ " " ++ Base (trimExt f),
            fromText := textOf (env.ReadFile (env.Clean (env.Join fullPath f))),
            toText := "" })) ≠ "")) := by
  have hone : ∀ (tA : Table) (nB : String), s.Tables = [tA] →
      env.ReadDir fullPath = ["README.md", tA.Name ++ ".md", nB ++ ".md"] →
      nB ≠ tA.Name → nB ≠ "README" → orphanNames env fullPath s = [nB ++ ".md"] := by
    intro tA nB hs hdir hAB hR
    have h3 : nB ++ ".md" ≠ "README.md" ∧
        (∀ t ∈ [tA], nB ++ ".md" ≠ t.Name ++ ".md") ∧
        ".md".data <:+ (nB ++ ".md").data := by
      refine ⟨fun h => hR (append_md_cancel nB "README" h), ?_, (suffix_md_iff _).2 ⟨nB, rfl⟩⟩
      intro t ht h
      rw [List.mem_singleton.1 ht] at h
      exact hAB (append_md_cancel _ _ h)
    unfold orphanNames
    rw [hdir, hs]
    rw [List.filter_cons_of_neg (by simp), List.filter_cons_of_neg (by simp),
      List.filter_cons_of_pos (by simpa using h3)]
    rfl
  refine ⟨?_, ?_, ?_, ?_, ?_, ?_⟩
  · rw [DiffSchemaAndDocs_ok env docPath s c fullPath mdsn hAbs hS hT hdsn hO,
      reportText_docsCompared]
    simp only [reportText, List.map_cons, concat_cons, List.map_map, String.append_assoc]
    rfl
  · intro f
    rw [mem_orphanNames, suffix_md_iff]
  · exact List.filter_sublist _
  · intro f _ hne
    exact ⟨(reportBlock_differ env hdiff _ hne).2,
      hdiff _ (fun hab => hne (SplitLines_injective _ _ hab))⟩
  · intro f _ he
    exact reportBlock_same env hsame _ he
  · intro tA nB hs hdir hAB hR
    refine ⟨hone tA nB hs hdir hAB hR, fun hne => ?_⟩
    rw [hone tA nB hs hdir hAB hR]
    simp only [List.map_cons, List.map_nil, concat_cons, concat_nil, String.append_empty]
    exact ⟨(reportBlock_differ env hdiff _ hne).2, (reportBlock_differ env hdiff _ hne).1⟩

/-- On disk are `README.md`, `users.md`, `posts.md` and an image, all up to date,
and the schema has the table `users` only: the report is one block, for the
orphan `posts.md`, from its content to the empty text. -/
theorem DiffSchemaAndDocs_orphans_witness :
    DiffSchemaAndDocs exampleDocs "doc" exampleA (plainConfig (.ok "pg://first")) = .ok
      ("diff 'doc/posts.md' 'pg://first posts'\n" ++
       "--- doc/posts.md\n+++ pg://first posts\n-# posts\n-\n+\n") :=
  (DiffSchemaAndDocs_orphans exampleDocs "doc" exampleA (plainConfig (.ok "pg://first")) "/doc"
    "pg://first" plainDiff_same plainDiff_differ rfl ⟨_, rfl⟩
    (fun t ht => by
      simp only [exampleA, List.mem_singleton] at ht
      subst ht; exact ⟨_, rfl⟩)
    rfl
    (fun f hf => by
      have : orphanNames exampleDocs "/doc" exampleA = ["posts.md"] := by decide
      rw [this, List.mem_singleton] at hf
      subst hf; exact ⟨_, rfl⟩)).1.trans rfl

/-- C9, counterexample: `posts.md` is in the directory, ends in `.md` and is
neither `README.md` nor the document of a table of the schema, so it is an
orphan; it is empty, and with `README.md` and `users.md` up to date the report
has no entry at all. -/
theorem DiffSchemaAndDocs_empty_orphan_no_entry :
    orphanNames exampleEmptyOrphan "/doc" exampleA = ["posts.md"] ∧
    exampleEmptyOrphan.ReadFile "/doc/posts.md" = .ok "" ∧
    DiffSchemaAndDocs exampleEmptyOrphan "doc" exampleA (plainConfig (.ok "pg://first")) =
      .ok "" :=
  ⟨by decide, rfl, rfl⟩

/-- C10: when `README.md` is missing from the target directory (and the target
path resolves, the documents render, `MaskedDSN` succeeds and the orphan
documents can be read), `DiffSchemaAndDocs` returns a report that begins with the
block of the whole-schema document, from the empty text to the freshly rendered
schema document `r`; that block is a header line and a non-empty unified diff
when `r` is not empty.  The table blocks and orphan blocks follow, and a missing
`<name>.md` is compared as the empty text in the same way. -/
theorem DiffSchemaAndDocs_missing_readme (env : Env) (docPath : String) (s : Schema)
    (c : Config) (fullPath mdsn r p : String)
    (hdiff : ∀ d : UnifiedDiff, d.A ≠ d.B → env.GetUnifiedDiffString d ≠ "")
    (hmissing : env.ReadFile (env.Clean (env.Join fullPath "README.md")) = .error (.notExist p))
    (hAbs : env.Abs docPath = .ok fullPath)
    (hS : (New c (env.Lstat (env.Join fullPath ("schema." ++ c.ER.Format)))).OutputSchema
      env s = .ok r)
    (hT : ∀ t ∈ s.Tables, ∃ r,
      (New c (env.Lstat (env.Join fullPath (t.Name ++ "." ++ c.ER.Format)))).OutputTable env t
        = .ok r)
    (hdsn : c.MaskedDSN = .ok mdsn)
    (hO : ∀ f ∈ orphanNames env fullPath s,
      ∃ a, env.ReadFile (env.Clean (env.Join fullPath f)) = .ok a) :
    DiffSchemaAndDocs env docPath s c = .ok
      (reportBlock env
        { fromLabel := env.Join docPath "README.md", toLabel := "tbls doc " ++ mdsn,
          fromText := "", toText := r } ++
      concat (s.Tables.map (fun t => reportBlock env
        { fromLabel := env.Join docPath (t.Name ++ ".md"), toLabel := mdsn ++ " " ++ t.Name,
          fromText := textOf (env.ReadFile (env.Clean (env.Join fullPath (t.Name ++ ".md")))),
          toText := textOf ((New c (env.Lstat (env.Join fullPath
            (t.Name ++ "." ++ c.ER.Format)))).OutputTable env t) })) ++
      concat ((orphanNames env fullPath s).map (fun f => reportBlock env
        { fromLabel := env.Join docPath f, toLabel := mdsn ++ " " ++ Base (trimExt f),
          fromText := textOf (env.ReadFile (env.Clean (env.Join fullPath f))),
          toText := "" }))) ∧
    (r ≠ "" →
      reportBlock env
        { fromLabel := env.Join docPath "README.md", toLabel := "tbls doc " ++ mdsn,
          fromText := "", toText := r } =
        "diff '" ++ env.Join docPath "README.md" ++ "' '" ++ ("tbls doc " ++ mdsn) ++ "'\n" ++
          env.GetUnifiedDiffString
            { A := SplitLines "", B := SplitLines r, FromFile := env.Join docPath "README.md",
              ToFile := "tbls doc " ++ mdsn, Context := 3 } ∧
      env.GetUnifiedDiffString
            { A := SplitLines "", B := SplitLines r, FromFile := env.Join docPath "README.md",
              ToFile := "tbls doc " ++ mdsn, Context := 3 } ≠ "") ∧
    (∀ (t : Table) (q : String),
      env.ReadFile (env.Clean (env.Join fullPath (t.Name ++ ".md"))) = .error (.notExist q) →
      textOf (env.ReadFile (env.Clean (env.Join fullPath (t.Name ++ ".md")))) = "") := by
  refine ⟨?_, ?_, fun t q h => by rw [h]; rfl⟩
  · rw [DiffSchemaAndDocs_ok env docPath s c fullPath mdsn hAbs ⟨r, hS⟩ hT hdsn hO,
      reportText_docsCompared, hmissing, hS]
    rfl
  · intro hr
    exact ⟨(reportBlock_differ env hdiff _ (fun h => hr h.symm)).2,
      hdiff _ (fun hab => hr (SplitLines_injective _ _ hab).symm)⟩

/-- In an empty directory the report begins with the block from the empty text
to the rendered schema document. -/
theorem DiffSchemaAndDocs_missing_readme_witness :
    DiffSchemaAndDocs (plainEnv [] []) "doc" exampleA (plainConfig (.ok "pg://first")) = .ok
      ("diff 'doc/README.md' 'tbls doc pg://first'\n" ++
       "--- doc/README.md\n+++ tbls doc pg://first\n" ++
       "-\n+# db\n+|Name|Columns|Comment|Type|\n+|----|-------|-------|----|\n" ++
       "+|[users](users.md)|0||BASE TABLE|\n+\n" ++
       "diff 'doc/users.md' 'pg://first users'\n" ++
       "--- doc/users.md\n+++ pg://first users\n" ++
       "-\n+# users\n+\n+|Name|Type|Default|Nullable|Children|Parents|Comment|\n" ++
       "+|----|----|-------|--------|--------|-------|-------|\n+\n") :=
  (DiffSchemaAndDocs_missing_readme (plainEnv [] []) "doc" exampleA
    (plainConfig (.ok "pg://first")) "/doc" "pg://first"
    ("# db\n|Name|Columns|Comment|Type|\n|----|-------|-------|----|\n" ++
      "|[users](users.md)|0||BASE TABLE|\n") "/doc/README.md"
    plainDiff_differ rfl rfl rfl
    (fun t ht => by
      simp only [exampleA, List.mem_singleton] at ht
      subst ht; exact ⟨_, rfl⟩)
    rfl
    (fun f hf => by
      have : orphanNames (plainEnv [] []) "/doc" exampleA = [] := by decide
      rw [this] at hf; cases hf)).1.trans rfl

/-! ## adjustTable: widths and cells -/

theorem updateWidths_eq (rw : Char → Nat) (w : List Nat) (row : List String)
    (h : w.length ≤ row.length) :
    updateWidths rw w row =
      some (List.zipWith (fun wj cell => max wj (StringWidth rw (r_Replace cell))) w row) := by
  induction w generalizing row with
  | nil => simp [updateWidths]
  | cons wj w ih =>
    cases row with
    | nil => simp at h
    | cons cell row =>
      have hmax : (if StringWidth rw (r_Replace cell) > wj then StringWidth rw (r_Replace cell)
          else wj) = max wj (StringWidth rw (r_Replace cell)) := by
        rw [Nat.max_def]; split_ifs <;> omega
      simp [updateWidths, ih row (by simpa using h), hmax]

theorem foldlM_updateWidths_eq (rw : Char → Nat) (rows : List (List String)) (w : List Nat)
    (n : Nat) (hw : w.length = n) (h : ∀ row ∈ rows, row.length = n) :
    rows.foldlM (updateWidths rw) w = some (rows.foldl
      (fun w row => List.zipWith (fun wj cell => max wj (StringWidth rw (r_Replace cell))) w row)
      w) := by
  induction rows generalizing w with
  | nil => rfl
  | cons row rows ih =>
    have hrow : row.length = n := h row (List.mem_cons_self _ _)
    have h1 := updateWidths_eq rw w row (by omega)
    simp only [List.foldlM, List.foldl, h1]
    exact ih _ (by simp [hw, hrow]) (fun r hr => h r (List.mem_cons_of_mem _ hr))

theorem foldl_zipWith_max_getElem? (rw : Char → Nat) (rows : List (List String)) (w : List Nat)
    (n j : Nat) (hw : w.length = n) (h : ∀ row ∈ rows, row.length = n) (hj : j < n) :
    (rows.foldl
      (fun w row => List.zipWith (fun wj cell => max wj (StringWidth rw (r_Replace cell))) w row)
      w)[j]? =
      some ((rows.map (fun row => StringWidth rw (r_Replace (row.getD j "")))).foldl max
        (w.getD j 0)) := by
  induction rows generalizing w with
  | nil =>
    simp only [List.foldl, List.map_nil]
    rw [List.getD_eq_getElem?_getD, List.getElem?_eq_getElem (by omega)]
    rfl
  | cons row rows ih =>
    have hrow : row.length = n := h row (List.mem_cons_self _ _)
    simp only [List.foldl, List.map_cons]
    rw [ih _ (by simp [hw, hrow]) (fun r hr => h r (List.mem_cons_of_mem _ hr))]
    congr 2
    simp only [List.getD_eq_getElem?_getD, List.getElem?_zipWith,
      List.getElem?_eq_getElem (show j < w.length by omega),
      List.getElem?_eq_getElem (show j < row.length by omega)]
    rfl

/-- On a rectangular matrix the first loop of `adjustTable` computes, for every
column, the maximum of the specification. -/
theorem columnWidths_eq (rw : Char → Nat) (data : List (List String)) (n : Nat)
    (hne : data ≠ []) (h : ∀ row ∈ data, row.length = n) :
    columnWidths rw data = some ((List.range n).map (columnMax rw data)) := by
  cases data with
  | nil => exact absurd rfl hne
  | cons first rest =>
    have hfirst : first.length = n := h first (List.mem_cons_self _ _)
    simp only [columnWidths]
    rw [foldlM_updateWidths_eq rw (first :: rest) _ n (by simp [hfirst]) h]
    congr 1
    apply List.ext_getElem?
    intro j
    by_cases hj : j < n
    · rw [foldl_zipWith_max_getElem? rw (first :: rest) _ n j (by simp [hfirst]) h hj]
      simp [columnMax, hj, List.getD_eq_getElem?_getD, hfirst]
    · have hlen : ((first :: rest).foldl
          (fun w row => List.zipWith (fun wj cell => max wj (StringWidth rw (r_Replace cell))) w row)
          (List.replicate first.length 0)).length = n := by
        obtain ⟨w', hw', hl⟩ := foldlM_updateWidths_some rw (first :: rest)
          (List.replicate first.length 0) (fun row hrow => by simp [h row hrow, hfirst])
        rw [foldlM_updateWidths_eq rw (first :: rest) _ n (by simp [hfirst]) h] at hw'
        rw [Option.some.inj hw', hl]; simp [hfirst]
      rw [List.getElem?_eq_none (by omega), List.getElem?_eq_none (by simp; omega)]

theorem adjustRow_eq (i : Nat) (w : List Nat) (row : List String) (h : w.length = row.length) :
    adjustRow i w row =
      List.zipWith (fun wj cell => if i = 1 then RepeatDash wj else SprintfLeft wj (r_Replace cell))
        w row := by
  induction w generalizing row with
  | nil => cases row with
    | nil => rfl
    | cons _ _ => simp at h
  | cons wj w ih =>
    cases row with
    | nil => simp at h
    | cons cell row => simp [adjustRow, ih row (by simpa using h)]

/-- On a rectangular matrix `adjustTable` returns the matrix whose cell in row
`i` and column `j` is the run of dashes of the column's width for `i = 1` and the
cell with its line breaks replaced, padded to the column's width, otherwise. -/
theorem adjustTable_eq (rw : Char → Nat) (data : List (List String)) (n : Nat)
    (hne : data ≠ []) (h : ∀ row ∈ data, row.length = n) :
    adjustTable rw data = some (data.mapIdx (fun i row =>
      List.zipWith (fun wj cell => if i = 1 then RepeatDash wj else SprintfLeft wj (r_Replace cell))
        ((List.range n).map (columnMax rw data)) row)) := by
  simp only [adjustTable, columnWidths_eq rw data n hne h, Option.map_some']
  congr 1
  apply List.ext_getElem?
  intro i
  simp only [List.getElem?_mapIdx]
  cases hi : data[i]? with
  | none => rfl
  | some row =>
    have hrow : row.length = n := h row (List.getElem?_mem hi)
    simp only [Option.map_some']
    rw [adjustRow_eq i _ row (by simp [hrow])]

/-! ## The line-break replacer -/

theorem r_ReplaceChars_crlf (rest : List Char) :
    r_ReplaceChars ('\r' :: '\n' :: rest) = brChars ++ r_ReplaceChars rest := by
  simp [r_ReplaceChars]

theorem r_ReplaceChars_lf (rest : List Char) :
    r_ReplaceChars ('\n' :: rest) = brChars ++ r_ReplaceChars rest := by
  cases rest with
  | nil => simp [r_ReplaceChars]
  | cons d rest => simp [r_ReplaceChars]

theorem r_ReplaceChars_cr (rest : List Char) (h : rest.head? ≠ some '\n') :
    r_ReplaceChars ('\r' :: rest) = brChars ++ r_ReplaceChars rest := by
  cases rest with
  | nil => simp [r_ReplaceChars]
  | cons d rest =>
    have hd : d ≠ '\n' := fun hd => h (by simp [hd])
    simp [r_ReplaceChars, hd]

theorem r_ReplaceChars_other (c : Char) (rest : List Char) (h1 : c ≠ '\r') (h2 : c ≠ '\n') :
    r_ReplaceChars (c :: rest) = c :: r_ReplaceChars rest := by
  cases rest with
  | nil => simp [r_ReplaceChars, h1, h2]
  | cons d rest => simp [r_ReplaceChars, h1, h2]

theorem r_ReplaceChars_no_break (cs : List Char) :
    '\r' ∉ r_ReplaceChars cs ∧ '\n' ∉ r_ReplaceChars cs := by
  have key : ∀ n (cs : List Char), cs.length ≤ n →
      '\r' ∉ r_ReplaceChars cs ∧ '\n' ∉ r_ReplaceChars cs := by
    intro n
    induction n with
    | zero =>
      intro cs h
      have : cs = [] := List.eq_nil_of_length_eq_zero (by omega)
      subst this; simp [r_ReplaceChars]
    | succ n ih =>
      intro cs h
      cases cs with
      | nil => simp [r_ReplaceChars]
      | cons c rest =>
        have hrest := ih rest (by simp at h; omega)
        have hbr : '\r' ∉ brChars ∧ '\n' ∉ brChars := by decide
        by_cases h2 : c = '\n'
        · subst h2
          rw [r_ReplaceChars_lf]
          simp only [List.mem_append, not_or]
          exact ⟨⟨hbr.1, hrest.1⟩, ⟨hbr.2, hrest.2⟩⟩
        · by_cases h1 : c = '\r'
          · subst h1
            cases rest with
            | nil =>
              rw [r_ReplaceChars_cr _ (by simp)]
              simp only [List.mem_append, not_or]
              exact ⟨⟨hbr.1, hrest.1⟩, ⟨hbr.2, hrest.2⟩⟩
            | cons d rest2 =>
              by_cases hd : d = '\n'
              · subst hd
                have hrest2 := ih rest2 (by simp at h; omega)
                rw [r_ReplaceChars_crlf]
                simp only [List.mem_append, not_or]
                exact ⟨⟨hbr.1, hrest2.1⟩, ⟨hbr.2, hrest2.2⟩⟩
              · rw [r_ReplaceChars_cr _ (by simp [hd])]
                simp only [List.mem_append, not_or]
                exact ⟨⟨hbr.1, hrest.1⟩, ⟨hbr.2, hrest.2⟩⟩
          · rw [r_ReplaceChars_other c rest h1 h2]
            simp only [List.mem_cons, not_or]
            exact ⟨⟨fun e => h1 e.symm, hrest.1⟩, ⟨fun e => h2 e.symm, hrest.2⟩⟩
  exact key cs.length cs (Nat.le_refl _)

theorem r_ReplaceChars_id (cs : List Char) (h1 : '\r' ∉ cs) (h2 : '\n' ∉ cs) :
    r_ReplaceChars cs = cs := by
  induction cs with
  | nil => simp [r_ReplaceChars]
  | cons c rest ih =>
    simp only [List.mem_cons, not_or] at h1 h2
    rw [r_ReplaceChars_other c rest (fun e => h1.1 e.symm) (fun e => h2.1 e.symm),
      ih h1.2 h2.2]

theorem foldl_max_ge (l : List Nat) (init : Nat) :
    init ≤ l.foldl max init ∧ ∀ x ∈ l, x ≤ l.foldl max init := by
  induction l generalizing init with
  | nil => simp
  | cons y ys ih =>
    have h := ih (max init y)
    simp only [List.foldl, List.mem_cons]
    refine ⟨Nat.le_trans (Nat.le_max_left _ _) h.1, ?_⟩
    rintro x (rfl | hx)
    · exact Nat.le_trans (Nat.le_max_right _ _) h.1
    · exact h.2 x hx

theorem foldl_max_mem (l : List Nat) (init : Nat) :
    l.foldl max init = init ∨ l.foldl max init ∈ l := by
  induction l generalizing init with
  | nil => simp
  | cons y ys ih =>
    simp only [List.foldl, List.mem_cons]
    rcases ih (max init y) with h | h
    · rw [h]
      rcases Nat.le_total init y with hle | hle
      · right; left; exact Nat.max_eq_right hle
      · left; exact Nat.max_eq_left hle
    · right; right; exact h

theorem zipWith_const_right {α β γ : Type} (f : α → γ) (l1 : List α) (l2 : List β)
    (h : l1.length = l2.length) : List.zipWith (fun a _ => f a) l1 l2 = l1.map f := by
  induction l1 generalizing l2 with
  | nil => simp
  | cons a l1 ih =>
    cases l2 with
    | nil => simp at h
    | cons b l2 => simp [ih l2 (by simpa using h)]

/-- C12: for a rectangular matrix with `n` columns and at least two rows,
`adjustTable` rewrites row 1 to the row whose cell in column `j` is exactly
`width[j]` dash characters, where `width[j]` is the maximum over all input rows
(the header and the original separator row included) of the display width of the
cell in column `j` with its line breaks replaced by `<br>`: it bounds the width
of every row's cell and is the width of some row's cell. -/
theorem adjustTable_separator_row (rw : Char → Nat) (data : List (List String)) (n : Nat)
    (hrect : ∀ row ∈ data, row.length = n) (hrows : 2 ≤ data.length) :
    ∃ out, adjustTable rw data = some out ∧
      out[1]? = some ((List.range n).map (fun j => RepeatDash (columnMax rw data j))) ∧
      (∀ j, (RepeatDash (columnMax rw data j)).data = List.replicate (columnMax rw data j) '-') ∧
      (∀ j, ∀ row ∈ data, StringWidth rw (r_Replace (row.getD j "")) ≤ columnMax rw data j) ∧
      (∀ j, ∃ row ∈ data, columnMax rw data j = StringWidth rw (r_Replace (row.getD j ""))) := by
  have hne : data ≠ [] := by
    intro h; rw [h] at hrows; simp at hrows
  refine ⟨_, adjustTable_eq rw data n hne hrect, ?_, fun _ => rfl, ?_, ?_⟩
  · obtain ⟨row, hrow⟩ : ∃ row, data[1]? = some row :=
      ⟨data[1], List.getElem?_eq_getElem (by omega)⟩
    have hlen : row.length = n := hrect row (List.getElem?_mem hrow)
    simp only [List.getElem?_mapIdx, hrow, Option.map_some', if_true]
    rw [zipWith_const_right RepeatDash _ row (by simp [hlen]), List.map_map]
    rfl
  · intro j row hrow
    exact (foldl_max_ge _ 0).2 _ (List.mem_map_of_mem _ hrow)
  · intro j
    rcases foldl_max_mem (data.map (fun row => StringWidth rw (r_Replace (row.getD j "")))) 0
      with h | h
    · obtain ⟨row, hrow⟩ := List.exists_mem_of_ne_nil data hne
      refine ⟨row, hrow, ?_⟩
      have hle := (foldl_max_ge (data.map (fun row => StringWidth rw (r_Replace (row.getD j ""))))
        0).2 _ (List.mem_map_of_mem (fun row => StringWidth rw (r_Replace (row.getD j ""))) hrow)
      rw [h] at hle
      show (data.map (fun row => StringWidth rw (r_Replace (row.getD j "")))).foldl max 0 = _
      rw [h]; omega
    · obtain ⟨row, hrow, heq⟩ := List.mem_map.1 h
      exact ⟨row, hrow, heq.symm⟩

/-- The separator row of the aligned example matrix is 6 and 11 dashes: the
widths of `a<br>b` and `x<br>y<br>z`. -/
theorem adjustTable_separator_row_witness :
    ∃ out, adjustTable RuneWidth exampleMatrix = some out ∧
      out[1]? = some ["------", "-----------"] := by
  obtain ⟨out, h1, h2, -⟩ := adjustTable_separator_row RuneWidth exampleMatrix 2
    (by decide) (by decide)
  exact ⟨out, h1, h2.trans (by decide)⟩

theorem aligned_cell (rw : Char → Nat) (data : List (List String)) (n : Nat)
    (hrect : ∀ row ∈ data, row.length = n) (i j : Nat) (row : List String) (cell : String)
    (hi : data[i]? = some row) (hj : row[j]? = some cell) :
    ∃ row', (data.mapIdx (fun i row =>
        List.zipWith
          (fun wj cell => if i = 1 then RepeatDash wj else SprintfLeft wj (r_Replace cell))
          ((List.range n).map (columnMax rw data)) row))[i]? = some row' ∧
      row'.length = row.length ∧
      row'[j]? = some (if i = 1 then RepeatDash (columnMax rw data j)
        else SprintfLeft (columnMax rw data j) (r_Replace cell)) := by
  have hlen : row.length = n := hrect row (List.getElem?_mem hi)
  have hjn : j < n := by
    have := (List.getElem?_eq_some_iff.1 hj).1
    omega
  refine ⟨List.zipWith
      (fun wj cell => if i = 1 then RepeatDash wj else SprintfLeft wj (r_Replace cell))
      ((List.range n).map (columnMax rw data)) row,
    by simp only [List.getElem?_mapIdx, hi, Option.map_some'], by simp [hlen], ?_⟩
  simp [List.getElem?_zipWith, hj, hjn]

/-- C13 (as the code has it): for a rectangular matrix with at least two rows
`adjustTable` returns a matrix with the same number of rows and the same number
of cells in each row, and every cell outside row 1 is the input cell at the same
position with its line breaks replaced by `<br>`, followed by spaces up to the
column's width in runes (none when the cell is longer); a cell without carriage
return and line feed is the input cell itself followed by these spaces. -/
theorem adjustTable_shape_and_padding (rw : Char → Nat) (data : List (List String)) (n : Nat)
    (hrect : ∀ row ∈ data, row.length = n) (hrows : 2 ≤ data.length) :
    ∃ out, adjustTable rw data = some out ∧ out.length = data.length ∧
      (∀ (i : Nat) (row : List String), data[i]? = some row →
        ∃ row' : List String, out[i]? = some row' ∧ row'.length = row.length) ∧
      (∀ (i j : Nat) (row : List String) (cell : String), i ≠ 1 → data[i]? = some row →
        row[j]? = some cell →
        ∃ row' : List String, out[i]? = some row' ∧
          row'[j]? = some (r_Replace cell ++
            String.mk (List.replicate (columnMax rw data j - (r_Replace cell).length) ' '))) ∧
      (∀ cell : String, '\r' ∉ cell.data → '\n' ∉ cell.data → r_Replace cell = cell) := by
  have hne : data ≠ [] := by
    intro h; rw [h] at hrows; simp at hrows
  refine ⟨_, adjustTable_eq rw data n hne hrect, by simp, ?_, ?_, ?_⟩
  · intro i row hi
    refine ⟨List.zipWith
        (fun wj cell => if i = 1 then RepeatDash wj else SprintfLeft wj (r_Replace cell))
        ((List.range n).map (columnMax rw data)) row,
      by simp only [List.getElem?_mapIdx, hi, Option.map_some'], ?_⟩
    simp [hrect row (List.getElem?_mem hi)]
  · intro i j row cell hne1 hi hj
    obtain ⟨row', h1, -, h3⟩ := aligned_cell rw data n hrect i j row cell hi hj
    refine ⟨row', h1, ?_⟩
    rw [h3, if_neg hne1]
    rfl
  · intro cell h1 h2
    exact String.ext (r_ReplaceChars_id cell.data h1 h2)

/-- In the aligned example matrix the cell `a\r\nb` of row 2 is `a<br>b` (no
padding: it is the widest of its column). -/
theorem adjustTable_shape_and_padding_witness :
    ∃ out row', adjustTable RuneWidth exampleMatrix = some out ∧ out.length = 3 ∧
      out[2]? = some row' ∧ row'[0]? = some "a<br>b" := by
  obtain ⟨out, h1, h2, -, h4, -⟩ := adjustTable_shape_and_padding RuneWidth exampleMatrix 2
    (by decide) (by decide)
  obtain ⟨row', h5, h6⟩ := h4 2 0 ["a\r\nb", "x\ny\rz"] "a\r\nb" (by decide) rfl rfl
  exact ⟨out, row', h1, h2, h5, h6.trans (by decide)⟩

/-- C13, counterexample: the one-column matrix with the cell `a\nb` over the
separator `-` is aligned to the cell `a<br>b`, which is not `a\nb` followed by
spaces. -/
theorem adjustTable_rewrites_line_breaks :
    adjustTable RuneWidth [["a\nb"], ["-"]] = some [["a<br>b"], ["------"]] ∧
    ¬ ∃ k : Nat, "a<br>b" = "a\nb" ++ String.mk (List.replicate k ' ') := by
  refine ⟨by decide, ?_⟩
  rintro ⟨k, hk⟩
  have := congrArg String.data hk
  simp [String.data_append] at this

theorem adjustRow_no_break (i : Nat) (w : List Nat) (row : List String)
    (h : w.length = row.length) :
    ∀ cell ∈ adjustRow i w row, '\r' ∉ cell.data ∧ '\n' ∉ cell.data := by
  induction w generalizing row with
  | nil =>
    cases row with
    | nil => simp [adjustRow]
    | cons _ _ => simp at h
  | cons wj w ih =>
    cases row with
    | nil => simp at h
    | cons c row =>
      intro cell hcell
      simp only [adjustRow, List.mem_cons] at hcell
      rcases hcell with rfl | hcell
      · by_cases hi : i = 1
        · simp only [hi, if_true, RepeatDash, List.mem_replicate, not_and]
          exact ⟨fun _ => by decide, fun _ => by decide⟩
        · simp only [hi, if_false, SprintfLeft, String.data_append, List.mem_append,
            List.mem_replicate, not_or, not_and, r_Replace]
          have := r_ReplaceChars_no_break c.data
          exact ⟨⟨this.1, fun _ => by decide⟩, ⟨this.2, fun _ => by decide⟩⟩
      · exact ih row (by simpa using h) cell hcell

/-- C18: for a rectangular matrix with at least two rows no cell `adjustTable`
returns contains a carriage return or a line feed; a cell outside row 1 is the
input cell passed through the replacer and then padded to the column's width,
and the replacer turns `\r\n` into one `<br>`, every other `\n` or `\r` into one
`<br>`, and leaves every other rune as it is. -/
theorem adjustTable_no_line_breaks (rw : Char → Nat) (data : List (List String)) (n : Nat)
    (hrect : ∀ row ∈ data, row.length = n) (hrows : 2 ≤ data.length) :
    ∃ out, adjustTable rw data = some out ∧
      (∀ row ∈ out, ∀ cell ∈ row, '\r' ∉ cell.data ∧ '\n' ∉ cell.data) ∧
      (∀ (i j : Nat) (row : List String) (cell : String), i ≠ 1 → data[i]? = some row →
        row[j]? = some cell →
        ∃ row' : List String, out[i]? = some row' ∧
          row'[j]? = some (SprintfLeft (columnMax rw data j) (String.mk (r_ReplaceChars cell.data)))) ∧
      (∀ rest, r_ReplaceChars ('\r' :: '\n' :: rest) = "<br>".data ++ r_ReplaceChars rest) ∧
      (∀ rest, r_ReplaceChars ('\n' :: rest) = "<br>".data ++ r_ReplaceChars rest) ∧
      (∀ rest, rest.head? ≠ some '\n' →
        r_ReplaceChars ('\r' :: rest) = "<br>".data ++ r_ReplaceChars rest) ∧
      (∀ c rest, c ≠ '\r' → c ≠ '\n' → r_ReplaceChars (c :: rest) = c :: r_ReplaceChars rest) := by
  have hne : data ≠ [] := by
    intro h; rw [h] at hrows; simp at hrows
  obtain ⟨w, hw, -, hout⟩ := adjustTable_some rw data n hne hrect
  refine ⟨_, hout, ?_, ?_, r_ReplaceChars_crlf, r_ReplaceChars_lf, r_ReplaceChars_cr,
    r_ReplaceChars_other⟩
  · intro row hrow cell hcell
    obtain ⟨i, hi, rfl⟩ := List.mem_mapIdx.1 hrow
    exact adjustRow_no_break i w _ (by rw [hw, hrect _ (List.getElem_mem _)]) cell hcell
  · intro i j row cell hne1 hi hj
    have heq := adjustTable_eq rw data n hne hrect
    rw [hout] at heq
    rw [Option.some.inj heq]
    obtain ⟨row', h1, -, h3⟩ := aligned_cell rw data n hrect i j row cell hi hj
    refine ⟨row', h1, ?_⟩
    rw [h3, if_neg hne1]
    rfl

/-- No cell of the aligned example matrix has a line break, and the cell
`x\ny\rz` of row 2 is `x<br>y<br>z`. -/
theorem adjustTable_no_line_breaks_witness :
    ∃ out row', adjustTable RuneWidth exampleMatrix = some out ∧
      (∀ row ∈ out, ∀ cell ∈ row, '\r' ∉ cell.data ∧ '\n' ∉ cell.data) ∧
      out[2]? = some row' ∧ row'[1]? = some "x<br>y<br>z" := by
  obtain ⟨out, h1, h2, h3, -⟩ := adjustTable_no_line_breaks RuneWidth exampleMatrix 2
    (by decide) (by decide)
  obtain ⟨row', h5, h6⟩ := h3 2 1 ["a\r\nb", "x\ny\rz"] "x\ny\rz" (by decide) rfl rfl
  exact ⟨out, row', h1, h2, h5, h6.trans (by decide)⟩

/-- C20: `adjustTable` applied to the matrix with header `日` (one wide rune)
over the separator `-` pads the header to two runes, `日` and a space, of
display width 3; applied again it finds the width 3 and pads to three runes: the
second result differs from the first. -/
theorem adjustTable_not_idempotent_on_wide_cell :
    adjustTable RuneWidth [["日"], ["-"]] = some [["日 "], ["--"]] ∧
    adjustTable RuneWidth [["日 "], ["--"]] = some [["日  "], ["---"]] ∧
    adjustTable RuneWidth [["日 "], ["--"]] ≠ adjustTable RuneWidth [["日"], ["-"]] := by
  decide

/-! ## The matrices of the template data -/

theorem tablesData_eq (m : Md) (s : Schema) :
    tablesData m s =
      [m.config.MergedDict.Lookup "Name", m.config.MergedDict.Lookup "Columns",
        m.config.MergedDict.Lookup "Comment", m.config.MergedDict.Lookup "Type"] ::
      ["----", "-------", "-------", "----"] ::
      s.Tables.map (fun t =>
        [link m.config.BaseUrl t.Name, toString t.Columns.length, t.Comment, t.Type_]) := by
  simp [tablesData, foldl_append_singleton]

theorem hasComment_foldl (comments : List String) (flag : Bool) :
    comments.foldl (fun flag comment => if comment != "" then true else flag) flag =
      (flag || comments.any (fun comment => comment != "")) := by
  induction comments generalizing flag with
  | nil => simp
  | cons c cs ih =>
    rw [List.foldl_cons, ih, List.any_cons]
    cases h : (c != "")
    · simp
    · simp

theorem any_map_eq {α β : Type} (f : α → β) (p : β → Bool) (l : List α) :
    (l.map f).any p = l.any (fun x => p (f x)) := by
  induction l with
  | nil => rfl
  | cons x xs ih => simp only [List.map_cons, List.any_cons, ih]

theorem hasComment_eq_any (comments : List String) :
    hasComment comments = comments.any (fun comment => comment != "") := by
  unfold hasComment
  rw [hasComment_foldl, Bool.false_or]

theorem commentedMatrix_eq_any (m : Md) (header seps : List String)
    (rows : List (List String × String)) :
    commentedMatrix m header seps rows =
      (if rows.any (fun r => r.2 != "") then
        (header ++ [m.config.MergedDict.Lookup "Comment"]) :: (seps ++ ["-------"]) ::
          rows.map (fun r => r.1 ++ [r.2])
      else header :: seps :: rows.map (fun r => r.1)) := by
  have hany : hasComment (rows.map (fun r => r.2)) = rows.any (fun r => r.2 != "") := by
    rw [hasComment_eq_any, any_map_eq]
  rw [commentedMatrix_eq, hany]
  cases rows.any (fun r => r.2 != "")
  · simp only [Bool.false_eq_true, if_false]; rfl
  · simp only [if_true]; rfl

theorem referencedTables_eq (m : Md) (t : Table) :
    referencedTables m t = t.ReferencedTables.map (fun rt =>
      if rt.External then rt.Name else link m.config.BaseUrl rt.Name) := by
  have h : (fun (referencedTables : List String) (rt : TableRef) =>
      if rt.External then referencedTables ++ [rt.Name]
      else referencedTables ++ [link m.config.BaseUrl rt.Name]) =
      (fun referencedTables rt => referencedTables ++
        [if rt.External then rt.Name else link m.config.BaseUrl rt.Name]) := by
    funext acc rt; split <;> rfl
  simp only [referencedTables, h, foldl_append_singleton, List.nil_append]

/-- The template data of a table, alignment on or off: each matrix is its
unaligned form, with `adjustRow` mapped over the rows when alignment is on. -/
theorem makeTableTemplateData_fields (rw : Char → Nat) (m : Md) (t : Table) (adjust : Bool) :
    ∃ td, ∃ wc wk wi wt : List Nat, m.makeTableTemplateData rw t adjust = some td ∧
      td.Columns = (if adjust then (columnsData m t).mapIdx (fun i row => adjustRow i wc row)
        else columnsData m t) ∧
      td.Constraints = (if adjust then
        (constraintsData m t).mapIdx (fun i row => adjustRow i wk row) else constraintsData m t) ∧
      td.Indexes = (if adjust then (indexesData m t).mapIdx (fun i row => adjustRow i wi row)
        else indexesData m t) ∧
      td.Triggers = (if adjust then (triggersData m t).mapIdx (fun i row => adjustRow i wt row)
        else triggersData m t) ∧
      td.ReferencedTables = referencedTables m t := by
  obtain ⟨wc, wk, wi, wt, -, -, -, -, -, htd⟩ := makeTableTemplateData_adjust rw m t
  cases adjust with
  | false =>
    exact ⟨_, wc, wk, wi, wt, by simp only [Md.makeTableTemplateData]; rfl, rfl, rfl, rfl, rfl, rfl⟩
  | true => exact ⟨_, wc, wk, wi, wt, htd, rfl, rfl, rfl, rfl, rfl⟩

theorem constraintsData_eq (m : Md) (t : Table) :
    constraintsData m t =
      (if t.Constraints.any (fun c => c.Comment != "") then
        [m.config.MergedDict.Lookup "Name", m.config.MergedDict.Lookup "Type",
          m.config.MergedDict.Lookup "Definition", m.config.MergedDict.Lookup "Comment"] ::
        ["----", "----", "----------", "-------"] ::
        t.Constraints.map (fun c => [c.Name, c.Type_, c.Def, c.Comment])
      else
        [m.config.MergedDict.Lookup "Name", m.config.MergedDict.Lookup "Type",
          m.config.MergedDict.Lookup "Definition"] ::
        ["----", "----", "----------"] ::
        t.Constraints.map (fun c => [c.Name, c.Type_, c.Def])) := by
  have hany : (t.Constraints.map (fun c => ([c.Name, c.Type_, c.Def], c.Comment))).any (fun r => r.2 != "") =
      t.Constraints.any (fun c => c.Comment != "") := by
    rw [any_map_eq]
  unfold constraintsData
  simp only []
  rw [commentedMatrix_eq_any, hany]
  cases t.Constraints.any (fun c => c.Comment != "")
  · simp only [Bool.false_eq_true, if_false, List.map_map]; rfl
  · simp only [if_true, List.map_map]; rfl

theorem indexesData_eq (m : Md) (t : Table) :
    indexesData m t =
      (if t.Indexes.any (fun i => i.Comment != "") then
        [m.config.MergedDict.Lookup "Name", m.config.MergedDict.Lookup "Definition",
          m.config.MergedDict.Lookup "Comment"] ::
        ["----", "----------", "-------"] ::
        t.Indexes.map (fun i => [i.Name, i.Def, i.Comment])
      else
        [m.config.MergedDict.Lookup "Name", m.config.MergedDict.Lookup "Definition"] ::
        ["----", "----------"] ::
        t.Indexes.map (fun i => [i.Name, i.Def])) := by
  have hany : (t.Indexes.map (fun i => ([i.Name, i.Def], i.Comment))).any (fun r => r.2 != "") =
      t.Indexes.any (fun i => i.Comment != "") := by
    rw [any_map_eq]
  unfold indexesData
  simp only []
  rw [commentedMatrix_eq_any, hany]
  cases t.Indexes.any (fun i => i.Comment != "")
  · simp only [Bool.false_eq_true, if_false, List.map_map]; rfl
  · simp only [if_true, List.map_map]; rfl

theorem triggersData_eq (m : Md) (t : Table) :
    triggersData m t =
      (if t.Triggers.any (fun tr => tr.Comment != "") then
        [m.config.MergedDict.Lookup "Name", m.config.MergedDict.Lookup "Definition",
          m.config.MergedDict.Lookup "Comment"] ::
        ["----", "----------", "-------"] ::
        t.Triggers.map (fun tr => [tr.Name, tr.Def, tr.Comment])
      else
        [m.config.MergedDict.Lookup "Name", m.config.MergedDict.Lookup "Definition"] ::
        ["----", "----------"] ::
        t.Triggers.map (fun tr => [tr.Name, tr.Def])) := by
  have hany : (t.Triggers.map (fun tr => ([tr.Name, tr.Def], tr.Comment))).any (fun r => r.2 != "") =
      t.Triggers.any (fun tr => tr.Comment != "") := by
    rw [any_map_eq]
  unfold triggersData
  simp only []
  rw [commentedMatrix_eq_any, hany]
  cases t.Triggers.any (fun tr => tr.Comment != "")
  · simp only [Bool.false_eq_true, if_false, List.map_map]; rfl
  · simp only [if_true, List.map_map]; rfl

theorem rows_length_adjust (data : List (List String)) (n : Nat) (w : List Nat) (adjust : Bool)
    (h : ∀ row ∈ data, row.length = n) :
    ∀ row ∈ (if adjust then data.mapIdx (fun i row => adjustRow i w row) else data),
      row.length = n := by
  intro row hrow
  cases adjust with
  | false => exact h row (by simpa using hrow)
  | true =>
    simp only [if_true] at hrow
    obtain ⟨i, hi, rfl⟩ := List.mem_mapIdx.1 hrow
    rw [adjustRow_length]
    exact h _ (List.getElem_mem _)

theorem constraintsData_rect (m : Md) (t : Table) :
    ∀ row ∈ constraintsData m t,
      row.length = if t.Constraints.any (fun c => c.Comment != "") then 4 else 3 := by
  intro row hrow
  rw [constraintsData_eq] at hrow
  cases h : t.Constraints.any (fun c => c.Comment != "") <;> simp [h] at hrow ⊢ <;>
    rcases hrow with rfl | rfl | ⟨c, _, rfl⟩ <;> rfl

theorem indexesData_rect (m : Md) (t : Table) :
    ∀ row ∈ indexesData m t,
      row.length = if t.Indexes.any (fun i => i.Comment != "") then 3 else 2 := by
  intro row hrow
  rw [indexesData_eq] at hrow
  cases h : t.Indexes.any (fun i => i.Comment != "") <;> simp [h] at hrow ⊢ <;>
    rcases hrow with rfl | rfl | ⟨c, _, rfl⟩ <;> rfl

theorem triggersData_rect (m : Md) (t : Table) :
    ∀ row ∈ triggersData m t,
      row.length = if t.Triggers.any (fun tr => tr.Comment != "") then 3 else 2 := by
  intro row hrow
  rw [triggersData_eq] at hrow
  cases h : t.Triggers.any (fun tr => tr.Comment != "") <;> simp [h] at hrow ⊢ <;>
    rcases hrow with rfl | rfl | ⟨c, _, rfl⟩ <;> rfl

/-- C14: the Constraints, Indexes and Triggers matrices `makeTableTemplateData`
builds have the trailing Comment column exactly when some entry of that kind has
a non-empty comment: the header then ends with the label of "Comment", the
separator with `-------` and every data row with the entry's comment (4, 3 and 3
cells); otherwise every row has the shorter shape (3, 2 and 2 cells).  The row
lengths are the same with alignment on. -/
theorem comment_column (rw : Char → Nat) (m : Md) (t : Table) :
    (∃ td, m.makeTableTemplateData rw t false = some td ∧
      td.Constraints =
        (if t.Constraints.any (fun c => c.Comment != "") then
          [m.config.MergedDict.Lookup "Name", m.config.MergedDict.Lookup "Type",
            m.config.MergedDict.Lookup "Definition", m.config.MergedDict.Lookup "Comment"] ::
          ["----", "----", "----------", "-------"] ::
          t.Constraints.map (fun c => [c.Name, c.Type_, c.Def, c.Comment])
        else
          [m.config.MergedDict.Lookup "Name", m.config.MergedDict.Lookup "Type",
            m.config.MergedDict.Lookup "Definition"] ::
          ["----", "----", "----------"] ::
          t.Constraints.map (fun c => [c.Name, c.Type_, c.Def])) ∧
      td.Indexes =
        (if t.Indexes.any (fun i => i.Comment != "") then
          [m.config.MergedDict.Lookup "Name", m.config.MergedDict.Lookup "Definition",
            m.config.MergedDict.Lookup "Comment"] ::
          ["----", "----------", "-------"] ::
          t.Indexes.map (fun i => [i.Name, i.Def, i.Comment])
        else
          [m.config.MergedDict.Lookup "Name", m.config.MergedDict.Lookup "Definition"] ::
          ["----", "----------"] ::
          t.Indexes.map (fun i => [i.Name, i.Def])) ∧
      td.Triggers =
        (if t.Triggers.any (fun tr => tr.Comment != "") then
          [m.config.MergedDict.Lookup "Name", m.config.MergedDict.Lookup "Definition",
            m.config.MergedDict.Lookup "Comment"] ::
          ["----", "----------", "-------"] ::
          t.Triggers.map (fun tr => [tr.Name, tr.Def, tr.Comment])
        else
          [m.config.MergedDict.Lookup "Name", m.config.MergedDict.Lookup "Definition"] ::
          ["----", "----------"] ::
          t.Triggers.map (fun tr => [tr.Name, tr.Def]))) ∧
    (∀ adjust, ∃ td, m.makeTableTemplateData rw t adjust = some td ∧
      (∀ row ∈ td.Constraints,
        row.length = if t.Constraints.any (fun c => c.Comment != "") then 4 else 3) ∧
      (∀ row ∈ td.Indexes,
        row.length = if t.Indexes.any (fun i => i.Comment != "") then 3 else 2) ∧
      (∀ row ∈ td.Triggers,
        row.length = if t.Triggers.any (fun tr => tr.Comment != "") then 3 else 2)) := by
  constructor
  · obtain ⟨td, wc, wk, wi, wt, hmk, -, hk, hi, ht, -⟩ := makeTableTemplateData_fields rw m t false
    refine ⟨td, hmk, ?_, ?_, ?_⟩
    · rw [hk]; exact constraintsData_eq m t
    · rw [hi]; exact indexesData_eq m t
    · rw [ht]; exact triggersData_eq m t
  · intro adjust
    obtain ⟨td, wc, wk, wi, wt, hmk, -, hk, hi, ht, -⟩ := makeTableTemplateData_fields rw m t adjust
    refine ⟨td, hmk, ?_, ?_, ?_⟩
    · rw [hk]; exact rows_length_adjust _ _ wk adjust (constraintsData_rect m t)
    · rw [hi]; exact rows_length_adjust _ _ wi adjust (indexesData_rect m t)
    · rw [ht]; exact rows_length_adjust _ _ wt adjust (triggersData_rect m t)

/-- A matrix that is a header, a separator of dash cells and one row per entity:
its length, its row at index 1 and its rows from index 2. -/
theorem header_separator_rows {α : Type} (M : List (List String)) (header seps : List String)
    (entities : List α) (rowOf : α → List String)
    (hM : M = header :: seps :: entities.map rowOf)
    (hs : ∀ cell ∈ seps, cell ≠ "" ∧ ∀ ch ∈ cell.data, ch = '-') :
    M.length = 2 + entities.length ∧
    (∃ row, M[1]? = some row ∧ ∀ cell ∈ row, cell ≠ "" ∧ ∀ ch ∈ cell.data, ch = '-') ∧
    ∀ i, M[i + 2]? = (entities[i]?).map rowOf := by
  subst hM
  refine ⟨?_, ⟨seps, by simp, hs⟩, fun i => ?_⟩
  · simp only [List.length_cons, List.length_map]; omega
  · simp only [List.getElem?_cons_succ, List.getElem?_map]

/-- C15: before alignment every matrix of the template data is the header row
of dictionary labels, then the separator row, then one data row per entity in
declaration order.  Tables: the labels of Name, Columns, Comment, Type, the
separator `----`, `-------`, `-------`, `----`, and for each table its link, its
number of columns, its comment and its type.  Columns: the labels of Name, Type,
Default, Nullable, (Extra Definition when a column has one,) Children, Parents,
Comment, the matching dashes, and for each column its cells.  Constraints,
Indexes, Triggers: the labels of Name, (Type,) Definition, (Comment when an
entry has one), the matching dashes, and for each entry its cells.  Each matrix
has 2 + n rows for n entities, its row at index 1 has only non-empty cells of
dashes, and its row at index i + 2 is the row of the i-th entity. -/
theorem matrices_header_separator_rows (rw : Char → Nat) (m : Md) (s : Schema) (t : Table) :
    (∃ td, m.makeSchemaTemplateData rw s false = some td ∧
      td.Tables =
        [m.config.MergedDict.Lookup "Name", m.config.MergedDict.Lookup "Columns",
          m.config.MergedDict.Lookup "Comment", m.config.MergedDict.Lookup "Type"] ::
        ["----", "-------", "-------", "----"] ::
        s.Tables.map (fun t =>
          [link m.config.BaseUrl t.Name, toString t.Columns.length, t.Comment, t.Type_]) ∧
      td.Tables.length = 2 + s.Tables.length ∧
      (∃ row, td.Tables[1]? = some row ∧ ∀ cell ∈ row, cell ≠ "" ∧ ∀ ch ∈ cell.data, ch = '-') ∧
      (∀ i, td.Tables[i + 2]? = (s.Tables[i]?).map (fun t =>
          [link m.config.BaseUrl t.Name, toString t.Columns.length, t.Comment, t.Type_]))) ∧
    (∃ td, m.makeTableTemplateData rw t false = some td ∧
      (td.Columns =
        (if t.HasColumnWithExtraDef then
          [m.config.MergedDict.Lookup "Name", m.config.MergedDict.Lookup "Type",
            m.config.MergedDict.Lookup "Default", m.config.MergedDict.Lookup "Nullable",
            m.config.MergedDict.Lookup "Extra Definition", m.config.MergedDict.Lookup "Children",
            m.config.MergedDict.Lookup "Parents", m.config.MergedDict.Lookup "Comment"]
        else
          [m.config.MergedDict.Lookup "Name", m.config.MergedDict.Lookup "Type",
            m.config.MergedDict.Lookup "Default", m.config.MergedDict.Lookup "Nullable",
            m.config.MergedDict.Lookup "Children", m.config.MergedDict.Lookup "Parents",
            m.config.MergedDict.Lookup "Comment"]) ::
        (if t.HasColumnWithExtraDef then
          ["----", "----", "-------", "--------", "---------------", "--------", "-------",
            "-------"]
        else ["----", "----", "-------", "--------", "--------", "-------", "-------"]) ::
        t.Columns.map (fun c =>
          if t.HasColumnWithExtraDef then
            [c.Name, c.Type_, c.Default, fmtBool c.Nullable, mdEscRep_Replace c.ExtraDef,
              JoinSpace (childRelations m c), JoinSpace (parentRelations m c), c.Comment]
          else
            [c.Name, c.Type_, c.Default, fmtBool c.Nullable,
              JoinSpace (childRelations m c), JoinSpace (parentRelations m c), c.Comment]) ∧
       td.Columns.length = 2 + t.Columns.length ∧
       (∃ row, td.Columns[1]? = some row ∧
          ∀ cell ∈ row, cell ≠ "" ∧ ∀ ch ∈ cell.data, ch = '-') ∧
       (∀ i, td.Columns[i + 2]? = (t.Columns[i]?).map (fun c =>
          if t.HasColumnWithExtraDef then
            [c.Name, c.Type_, c.Default, fmtBool c.Nullable, mdEscRep_Replace c.ExtraDef,
              JoinSpace (childRelations m c), JoinSpace (parentRelations m c), c.Comment]
          else
            [c.Name, c.Type_, c.Default, fmtBool c.Nullable,
              JoinSpace (childRelations m c), JoinSpace (parentRelations m c), c.Comment]))) ∧
      (td.Constraints =
        (if t.Constraints.any (fun c => c.Comment != "") then
          [m.config.MergedDict.Lookup "Name", m.config.MergedDict.Lookup "Type",
            m.config.MergedDict.Lookup "Definition", m.config.MergedDict.Lookup "Comment"]
        else
          [m.config.MergedDict.Lookup "Name", m.config.MergedDict.Lookup "Type",
            m.config.MergedDict.Lookup "Definition"]) ::
        (if t.Constraints.any (fun c => c.Comment != "") then
          ["----", "----", "----------", "-------"]
        else ["----", "----", "----------"]) ::
        t.Constraints.map (fun c =>
          if t.Constraints.any (fun c => c.Comment != "") then [c.Name, c.Type_, c.Def, c.Comment]
          else [c.Name, c.Type_, c.Def]) ∧
       td.Constraints.length = 2 + t.Constraints.length ∧
       (∃ row, td.Constraints[1]? = some row ∧
          ∀ cell ∈ row, cell ≠ "" ∧ ∀ ch ∈ cell.data, ch = '-') ∧
       (∀ i, td.Constraints[i + 2]? = (t.Constraints[i]?).map (fun c =>
          if t.Constraints.any (fun c => c.Comment != "") then [c.Name, c.Type_, c.Def, c.Comment]
          else [c.Name, c.Type_, c.Def]))) ∧
      (td.Indexes =
        (if t.Indexes.any (fun i => i.Comment != "") then
          [m.config.MergedDict.Lookup "Name", m.config.MergedDict.Lookup "Definition",
            m.config.MergedDict.Lookup "Comment"]
        else [m.config.MergedDict.Lookup "Name", m.config.MergedDict.Lookup "Definition"]) ::
        (if t.Indexes.any (fun i => i.Comment != "") then ["----", "----------", "-------"]
        else ["----", "----------"]) ::
        t.Indexes.map (fun x =>
          if t.Indexes.any (fun i => i.Comment != "") then [x.Name, x.Def, x.Comment]
          else [x.Name, x.Def]) ∧
       td.Indexes.length = 2 + t.Indexes.length ∧
       (∃ row, td.Indexes[1]? = some row ∧
          ∀ cell ∈ row, cell ≠ "" ∧ ∀ ch ∈ cell.data, ch = '-') ∧
       (∀ i, td.Indexes[i + 2]? = (t.Indexes[i]?).map (fun x =>
          if t.Indexes.any (fun i => i.Comment != "") then [x.Name, x.Def, x.Comment]
          else [x.Name, x.Def]))) ∧
      (td.Triggers =
        (if t.Triggers.any (fun tr => tr.Comment != "") then
          [m.config.MergedDict.Lookup "Name", m.config.MergedDict.Lookup "Definition",
            m.config.MergedDict.Lookup "Comment"]
        else [m.config.MergedDict.Lookup "Name", m.config.MergedDict.Lookup "Definition"]) ::
        (if t.Triggers.any (fun tr => tr.Comment != "") then ["----", "----------", "-------"]
        else ["----", "----------"]) ::
        t.Triggers.map (fun x =>
          if t.Triggers.any (fun tr => tr.Comment != "") then [x.Name, x.Def, x.Comment]
          else [x.Name, x.Def]) ∧
       td.Triggers.length = 2 + t.Triggers.length ∧
       (∃ row, td.Triggers[1]? = some row ∧
          ∀ cell ∈ row, cell ≠ "" ∧ ∀ ch ∈ cell.data, ch = '-') ∧
       (∀ i, td.Triggers[i + 2]? = (t.Triggers[i]?).map (fun x =>
          if t.Triggers.any (fun tr => tr.Comment != "") then [x.Name, x.Def, x.Comment]
          else [x.Name, x.Def])))) := by
  constructor
  · refine ⟨_, by simp only [Md.makeSchemaTemplateData]; rfl, ?_⟩
    have hM := tablesData_eq m s
    exact ⟨hM, header_separator_rows _ _ _ _ _ hM (by decide)⟩
  · obtain ⟨td, wc, wk, wi, wt, hmk, hc, hk, hi, ht, -⟩ := makeTableTemplateData_fields rw m t false
    simp only [Bool.false_eq_true, if_false] at hc hk hi ht
    refine ⟨td, hmk, ?_, ?_, ?_, ?_⟩
    · refine (and_iff_left_of_imp (fun hM =>
        header_separator_rows _ _ _ _ _ hM (by split <;> decide))).2 ?_
      rw [hc, columnsData_eq]
      cases t.HasColumnWithExtraDef
      · simp only [Bool.false_eq_true, if_false]; rfl
      · simp only [if_true]; rfl
    · refine (and_iff_left_of_imp (fun hM =>
        header_separator_rows _ _ _ _ _ hM (by split <;> decide))).2 ?_
      rw [hk, constraintsData_eq]
      cases t.Constraints.any (fun c => c.Comment != "")
      · simp only [Bool.false_eq_true, if_false]
      · simp only [if_true]
    · refine (and_iff_left_of_imp (fun hM =>
        header_separator_rows _ _ _ _ _ hM (by split <;> decide))).2 ?_
      rw [hi, indexesData_eq]
      cases t.Indexes.any (fun i => i.Comment != "")
      · simp only [Bool.false_eq_true, if_false]
      · simp only [if_true]
    · refine (and_iff_left_of_imp (fun hM =>
        header_separator_rows _ _ _ _ _ hM (by split <;> decide))).2 ?_
      rw [ht, triggersData_eq]
      cases t.Triggers.any (fun tr => tr.Comment != "")
      · simp only [Bool.false_eq_true, if_false]
      · simp only [if_true]

/-! ## Escaping and referenced tables -/

theorem mdEscRepChars_eq (cs : List Char) :
    mdEscRepChars cs =
      (cs.map (fun ch => if ch = Char.ofNat 96 then ['\\', Char.ofNat 96] else [ch])).flatten := by
  induction cs with
  | nil => rfl
  | cons c cs ih =>
    by_cases h : c = Char.ofNat 96
    · subst h; simp [mdEscRepChars, ih]
    · simp [mdEscRepChars, h, ih]

theorem mdEscRepChars_backslash (cs : List Char) (k : Nat)
    (h : (mdEscRepChars cs)[k]? = some (Char.ofNat 96)) :
    ∃ p, k = p + 1 ∧ (mdEscRepChars cs)[p]? = some '\\' := by
  induction cs generalizing k with
  | nil => simp [mdEscRepChars] at h
  | cons c cs ih =>
    by_cases hc : c = Char.ofNat 96
    · subst hc
      simp only [mdEscRepChars, if_true] at h ⊢
      match k, h with
      | 0, h =>
        simp only [List.getElem?_cons_zero, Option.some.injEq] at h
        exact absurd h (by decide)
      | 1, _ => exact ⟨0, rfl, rfl⟩
      | k + 2, h =>
        obtain ⟨p, hp, hq⟩ := ih k (by simpa using h)
        exact ⟨p + 2, by omega, by simpa using hq⟩
    · simp only [mdEscRepChars, hc, if_false] at h ⊢
      match k, h with
      | 0, h =>
        simp only [List.getElem?_cons_zero, Option.some.injEq] at h
        exact absurd h hc
      | k + 1, h =>
        obtain ⟨p, hp, hq⟩ := ih k (by simpa using h)
        exact ⟨p + 1, by omega, by simpa using hq⟩

/-- C16: for a table whose Columns matrix has the extra-definition column, the
cell at index 4 of a column's row (before alignment) is the column's `ExtraDef`
with every backtick (U+0060) replaced by a backslash and a backtick and every
other rune kept; every backtick of the cell is immediately preceded by a
backslash. -/
theorem extra_definition_cell (rw : Char → Nat) (m : Md) (t : Table) (i : Nat) (c : Column)
    (hx : t.Columns.any (fun c => c.ExtraDef != "") = true) (hc : t.Columns[i]? = some c) :
    ∃ td row cell, m.makeTableTemplateData rw t false = some td ∧
      td.Columns[i + 2]? = some row ∧ row.length = 8 ∧ row[4]? = some cell ∧
      cell.data = (c.ExtraDef.data.map
        (fun ch => if ch = Char.ofNat 96 then ['\\', Char.ofNat 96] else [ch])).flatten ∧
      (∀ k, cell.data[k]? = some (Char.ofNat 96) →
        ∃ p, k = p + 1 ∧ cell.data[p]? = some '\\') := by
  have hX : t.HasColumnWithExtraDef = true := hx
  have hrow := columnsData_row m t i
  rw [hc, hX] at hrow
  simp only [Option.map_some', if_true] at hrow
  refine ⟨_, [c.Name, c.Type_, c.Default, fmtBool c.Nullable, mdEscRep_Replace c.ExtraDef,
      JoinSpace (childRelations m c), JoinSpace (parentRelations m c), c.Comment],
    mdEscRep_Replace c.ExtraDef, by simp only [Md.makeTableTemplateData]; rfl,
    hrow, rfl, rfl, mdEscRepChars_eq _, fun k hk => mdEscRepChars_backslash _ k hk⟩

/-- The extra definition of the column `name` of the example table, DEFAULT
followed by x between backticks, is in its cell with a backslash before each
backtick. -/
theorem extra_definition_cell_witness :
    ∃ td row, (New (plainConfig (.ok "")) false).makeTableTemplateData RuneWidth exampleTable false
        = some td ∧
      td.Columns[3]? = some row ∧
      row[4]? = some ("DEFAULT " ++ String.mk ['\\', Char.ofNat 96, 'x', '\\', Char.ofNat 96]) := by
  obtain ⟨td, row, cell, h1, h2, -, h4, h5, -⟩ := extra_definition_cell RuneWidth
    (New (plainConfig (.ok "")) false) exampleTable 1
    (plainColumn "name" ("DEFAULT " ++ String.mk [Char.ofNat 96, 'x', Char.ofNat 96]) [] [])
    (by decide) rfl
  refine ⟨td, row, h1, h2, ?_⟩
  rw [h4]
  exact congrArg some (String.ext (h5.trans (by decide)))

/-- C17: the ReferencedTables list `makeTableTemplateData` returns (alignment on
or off) has one element per referenced table, in the same order: the table name
when the referenced table is external and the link `[name](baseUrl+name.md)`
otherwise. -/
theorem referenced_tables_list (rw : Char → Nat) (m : Md) (t : Table) (adjust : Bool) :
    ∃ td, m.makeTableTemplateData rw t adjust = some td ∧
      td.ReferencedTables = t.ReferencedTables.map (fun rt =>
        if rt.External then rt.Name
        else "[" ++ rt.Name ++ "](" ++ m.config.BaseUrl ++ rt.Name ++ ".md)") ∧
      td.ReferencedTables.length = t.ReferencedTables.length := by
  obtain ⟨td, wc, wk, wi, wt, hmk, -, -, -, -, hr⟩ := makeTableTemplateData_fields rw m t adjust
  refine ⟨td, hmk, ?_, ?_⟩
  · rw [hr, referencedTables_eq]; rfl
  · rw [hr, referencedTables_eq, List.length_map]

/-! ## Totality of alignment on the template matrices -/

theorem rectangular_of_rows (data : List (List String)) (n : Nat) (hne : data ≠ [])
    (h : ∀ row ∈ data, row.length = n) : Rectangular data := by
  refine ⟨hne, fun row hrow => ?_⟩
  cases data with
  | nil => exact absurd rfl hne
  | cons first rest =>
    rw [h row hrow]
    exact (h first (List.mem_cons_self _ _)).symm

theorem tablesData_rect (m : Md) (s : Schema) : ∀ row ∈ tablesData m s, row.length = 4 := by
  intro row hrow
  rw [tablesData_eq] at hrow
  simp only [List.mem_cons, List.mem_map] at hrow
  rcases hrow with rfl | rfl | ⟨t, _, rfl⟩ <;> rfl

theorem tablesData_ne_nil (m : Md) (s : Schema) : tablesData m s ≠ [] := by
  rw [tablesData_eq]; simp

/-- C19: the matrices `makeSchemaTemplateData` and `makeTableTemplateData` pass
to `adjustTable` (Tables, Columns, Constraints, Indexes, Triggers) are not empty
and all their rows have as many cells as the first row; on every such matrix
`adjustTable` returns a matrix (no index is out of range), so both functions
return with alignment on. -/
theorem adjustTable_total_on_template_matrices (rw : Char → Nat) (m : Md) (s : Schema)
    (t : Table) :
    Rectangular (tablesData m s) ∧ Rectangular (columnsData m t) ∧
    Rectangular (constraintsData m t) ∧ Rectangular (indexesData m t) ∧
    Rectangular (triggersData m t) ∧
    (∀ data, Rectangular data → ∃ out, adjustTable rw data = some out) ∧
    (∃ td, m.makeSchemaTemplateData rw s true = some td ∧
      adjustTable rw (tablesData m s) = some td.Tables) ∧
    (∃ td, m.makeTableTemplateData rw t true = some td ∧
      adjustTable rw (columnsData m t) = some td.Columns ∧
      adjustTable rw (constraintsData m t) = some td.Constraints ∧
      adjustTable rw (indexesData m t) = some td.Indexes ∧
      adjustTable rw (triggersData m t) = some td.Triggers) := by
  have htot : ∀ data, Rectangular data → ∃ out, adjustTable rw data = some out := by
    intro data hd
    obtain ⟨w, -, -, hout⟩ := adjustTable_some rw data _ hd.1 hd.2
    exact ⟨_, hout⟩
  refine ⟨rectangular_of_rows _ _ (tablesData_ne_nil m s) (tablesData_rect m s),
    rectangular_of_rows _ _ (columnsData_ne_nil m t) (columnsData_rect m t),
    rectangular_of_rows _ _ (commentedMatrix_ne_nil _ _ _ _) (constraintsData_rect m t),
    rectangular_of_rows _ _ (commentedMatrix_ne_nil _ _ _ _) (indexesData_rect m t),
    rectangular_of_rows _ _ (commentedMatrix_ne_nil _ _ _ _) (triggersData_rect m t),
    htot, ?_, ?_⟩
  · obtain ⟨out, hout⟩ := htot _
      (rectangular_of_rows _ _ (tablesData_ne_nil m s) (tablesData_rect m s))
    exact ⟨{ Schema := some s, Tables := out }, by simp [Md.makeSchemaTemplateData, hout], hout⟩
  · obtain ⟨wc, wk, wi, wt, -, hwc, hwk, hwi, hwt, htd⟩ := makeTableTemplateData_adjust rw m t
    refine ⟨_, htd, ?_, ?_, ?_, ?_⟩
    · simp [adjustTable, hwc]
    · simp [adjustTable, hwk]
    · simp [adjustTable, hwi]
    · simp [adjustTable, hwt]

/-! ## Output -/

theorem outputExistsTables_iff (env : Env) (path : String) (tables : List Table) :
    outputExistsTables env path tables = true ↔
      ∃ t ∈ tables, env.Lstat (env.Join path (t.Name ++ ".md")) = true := by
  induction tables with
  | nil => simp [outputExistsTables]
  | cons t ts ih =>
    by_cases h : env.Lstat (env.Join path (t.Name ++ ".md")) = true
    · simp [outputExistsTables, h]
    · simp [outputExistsTables, h, ih]

/-- C11: `outputExists` is true exactly when `Lstat` finds `README.md` or
`<name>.md` for some table of the schema in the target directory.  When it is
true, `Output` with `force = false` returns the error "output files already
exists" and leaves the world as it was (no operation that creates or modifies a
file or directory runs); so it does when the target path does not resolve.  With
`force = true`, or when `outputExists` is false, `Output` goes on to the write,
which starts with `os.MkdirAll`. -/
theorem Output_existence_check {σ : Type} (os : World σ) (w : σ) (s : Schema) (c : Config) :
    (∀ (env : Env) (path : String), outputExists env s path = true ↔
      (env.Lstat (env.Join path "README.md") = true ∨
        ∃ t ∈ s.Tables, env.Lstat (env.Join path (t.Name ++ ".md")) = true)) ∧
    (∀ fullPath, (os.env w).Abs c.DocPath = .ok fullPath →
      outputExists (os.env w) s fullPath = true →
      Output os w s c false = (w, some (.other "output files already exists"))) ∧
    (∀ err force, (os.env w).Abs c.DocPath = .error err → Output os w s c force = (w, some err)) ∧
    (∀ fullPath force, (os.env w).Abs c.DocPath = .ok fullPath →
      (force = true ∨ outputExists (os.env w) s fullPath = false) →
      Output os w s c force = outputWrite os w s c c.DocPath fullPath) ∧
    (∀ fullPath err w1, os.MkdirAll w fullPath = (w1, some err) →
      outputWrite os w s c c.DocPath fullPath = (w1, some err)) := by
  refine ⟨?_, ?_, ?_, ?_, ?_⟩
  · intro env path
    by_cases h : env.Lstat (env.Join path "README.md") = true
    · simp [outputExists, h]
    · simp [outputExists, h, outputExistsTables_iff]
  · intro fullPath hAbs hex
    simp [Output, hAbs, hex]
  · intro err force hAbs
    simp [Output, hAbs]
  · intro fullPath force hAbs h
    rcases h with h | h
    · simp [Output, hAbs, h]
    · simp [Output, hAbs, h]
  · intro fullPath err w1 h
    simp [outputWrite, h]

/-- With `README.md` in the target directory `Output` without force returns the
error and leaves the files as they are; with force it writes `README.md` and
`users.md`. -/
theorem Output_existence_check_witness :
    Output plainWorld [("/doc/README.md", "old")] exampleA (plainConfig (.ok "pg://first")) false =
      ([("/doc/README.md", "old")], some (.other "output files already exists")) ∧
    Output plainWorld [("/doc/README.md", "old")] exampleA (plainConfig (.ok "pg://first")) true =
      ([("/doc/users.md",
          "# users\n\n|Name|Type|Default|Nullable|Children|Parents|Comment|\n" ++
          "|----|----|-------|--------|--------|-------|-------|\n"),
        ("/doc/README.md",
          "# db\n|Name|Columns|Comment|Type|\n|----|-------|-------|----|\n" ++
          "|[users](users.md)|0||BASE TABLE|\n")], none) :=
  ⟨(Output_existence_check plainWorld [("/doc/README.md", "old")] exampleA
      (plainConfig (.ok "pg://first"))).2.1 "/doc" rfl rfl,
    ((Output_existence_check plainWorld [("/doc/README.md", "old")] exampleA
      (plainConfig (.ok "pg://first"))).2.2.2.1 "/doc" true rfl (Or.inl rfl)).trans rfl⟩

/-! ## Alignment of an aligned matrix -/

theorem r_Replace_SprintfLeft (w : Nat) (c : String) :
    r_Replace (SprintfLeft w (r_Replace c)) = SprintfLeft w (r_Replace c) := by
  apply String.ext
  show r_ReplaceChars (SprintfLeft w (r_Replace c)).data = _
  apply r_ReplaceChars_id
  · simp only [SprintfLeft, String.data_append, List.mem_append, List.mem_replicate, not_or,
      not_and, r_Replace]
    exact ⟨(r_ReplaceChars_no_break c.data).1, fun _ => by decide⟩
  · simp only [SprintfLeft, String.data_append, List.mem_append, List.mem_replicate, not_or,
      not_and, r_Replace]
    exact ⟨(r_ReplaceChars_no_break c.data).2, fun _ => by decide⟩

theorem SprintfLeft_length (w : Nat) (s : String) :
    (SprintfLeft w s).length = max s.length w := by
  simp only [SprintfLeft, String.length, String.data_append, List.length_append,
    List.length_replicate]
  omega

theorem SprintfLeft_of_le (w : Nat) (s : String) (h : w ≤ s.length) : SprintfLeft w s = s := by
  apply String.ext
  simp only [SprintfLeft, String.data_append]
  rw [Nat.sub_eq_zero_of_le h]
  simp

/-- A cell that `adjustTable` has padded to the width `w` is not changed by
padding it to `w` again. -/
theorem SprintfLeft_idem (w : Nat) (c : String) :
    SprintfLeft w (r_Replace (SprintfLeft w (r_Replace c))) = SprintfLeft w (r_Replace c) := by
  rw [r_Replace_SprintfLeft]
  apply SprintfLeft_of_le
  rw [SprintfLeft_length]
  exact Nat.le_max_right _ _

theorem StringWidth_narrow (rw : Char → Nat) (hrw : ∀ ch, rw ch = 1) (s : String) :
    StringWidth rw s = s.length := by
  have : ∀ l : List Char, (l.map rw).sum = l.length := by
    intro l
    induction l with
    | nil => rfl
    | cons c cs ih => simp [ih, hrw c]; omega
  exact this s.data

theorem foldl_max_const (l : List Nat) (v : Nat) (hne : l ≠ []) (h : ∀ x ∈ l, x = v) :
    l.foldl max 0 = v := by
  rcases foldl_max_mem l 0 with h0 | hmem
  · obtain ⟨x, hx⟩ := List.exists_mem_of_ne_nil l hne
    have := (foldl_max_ge l 0).2 x hx
    rw [h0, h x hx] at this
    rw [h0]; omega
  · exact h _ hmem

/-- When every rune has display width 1, aligning an aligned matrix changes
nothing. -/
theorem adjustTable_idempotent_narrow (rw : Char → Nat) (hrw : ∀ ch, rw ch = 1)
    (data : List (List String)) (n : Nat) (hne : data ≠ [])
    (hrect : ∀ row ∈ data, row.length = n) :
    ∃ out, adjustTable rw data = some out ∧ adjustTable rw out = some out := by
  refine ⟨_, adjustTable_eq rw data n hne hrect, ?_⟩
  have hne' : data.mapIdx (fun i row =>
      List.zipWith (fun wj cell => if i = 1 then RepeatDash wj else SprintfLeft wj (r_Replace cell))
        ((List.range n).map (columnMax rw data)) row) ≠ [] := by
    simpa [List.mapIdx_eq_nil_iff] using hne
  have hrect' : ∀ row ∈ data.mapIdx (fun i row =>
      List.zipWith (fun wj cell => if i = 1 then RepeatDash wj else SprintfLeft wj (r_Replace cell))
        ((List.range n).map (columnMax rw data)) row), row.length = n := by
    intro row hrow
    obtain ⟨i, hi, rfl⟩ := List.mem_mapIdx.1 hrow
    simp [hrect _ (List.getElem_mem _)]
  have hcellw : ∀ (i j : Nat) (wj : Nat) (cell : String),
      columnMax rw data j = wj → StringWidth rw (r_Replace cell) ≤ wj →
      StringWidth rw (r_Replace
        (if i = 1 then RepeatDash wj else SprintfLeft wj (r_Replace cell))) = wj := by
    intro i j wj cell _ hle
    by_cases hi : i = 1
    · simp only [hi, if_true]
      have hid : r_Replace (RepeatDash wj) = RepeatDash wj := by
        apply String.ext
        show r_ReplaceChars (RepeatDash wj).data = _
        apply r_ReplaceChars_id <;>
          simp only [RepeatDash, List.mem_replicate, not_and] <;> exact fun _ => by decide
      rw [hid, StringWidth_narrow rw hrw]
      simp [RepeatDash, String.length]
    · simp only [hi, if_false]
      rw [r_Replace_SprintfLeft, StringWidth_narrow rw hrw, SprintfLeft_length]
      rw [StringWidth_narrow rw hrw] at hle
      omega
  have hW : (List.range n).map (columnMax rw (data.mapIdx (fun i row =>
      List.zipWith (fun wj cell => if i = 1 then RepeatDash wj else SprintfLeft wj (r_Replace cell))
        ((List.range n).map (columnMax rw data)) row))) =
      (List.range n).map (columnMax rw data) := by
    apply List.map_congr_left
    intro j hj
    have hjn : j < n := List.mem_range.1 hj
    refine foldl_max_const ((data.mapIdx (fun i row =>
      List.zipWith (fun wj cell => if i = 1 then RepeatDash wj else SprintfLeft wj (r_Replace cell))
        ((List.range n).map (columnMax rw data)) row)).map
          (fun row => StringWidth rw (r_Replace (row.getD j "")))) _ ?_ ?_
    · simpa using hne
    · intro x hx
      obtain ⟨row', hrow', rfl⟩ := List.mem_map.1 hx
      obtain ⟨i, hi, rfl⟩ := List.mem_mapIdx.1 hrow'
      have hlen : (data[i]).length = n := hrect _ (List.getElem_mem _)
      have hget : (List.zipWith
          (fun wj cell => if i = 1 then RepeatDash wj else SprintfLeft wj (r_Replace cell))
          ((List.range n).map (columnMax rw data)) data[i]).getD j "" =
          (if i = 1 then RepeatDash (columnMax rw data j)
            else SprintfLeft (columnMax rw data j) (r_Replace ((data[i])[j]))) := by
        rw [List.getD_eq_getElem?_getD, List.getElem?_zipWith]
        simp [hjn, hlen]
      rw [hget]
      apply hcellw i j _ _ rfl
      have hle : StringWidth rw (r_Replace ((data[i]).getD j "")) ≤ columnMax rw data j :=
        (foldl_max_ge
          (data.map (fun row : List String => StringWidth rw (r_Replace (row.getD j "")))) 0).2 _
          (List.mem_map_of_mem
            (fun row : List String => StringWidth rw (r_Replace (row.getD j "")))
            (List.getElem_mem (l := data) hi))
      have hcell : (data[i]).getD j "" = (data[i])[j] := by
        rw [List.getD_eq_getElem?_getD, List.getElem?_eq_getElem (by omega)]; rfl
      rw [hcell] at hle
      exact hle
  rw [adjustTable_eq rw _ n hne' hrect', hW]
  congr 1
  apply List.ext_getElem?
  intro i
  simp only [List.getElem?_mapIdx]
  cases hi : data[i]? with
  | none => rfl
  | some row =>
    simp only [Option.map_some']
    congr 1
    have hlen : row.length = n := hrect row (List.getElem?_mem hi)
    apply List.ext_getElem?
    intro j
    simp only [List.getElem?_zipWith]
    by_cases hjn : j < n
    · simp only [List.getElem?_map, List.getElem?_range hjn, Option.map_some',
        List.getElem?_eq_getElem (show j < row.length by omega)]
      by_cases h1 : i = 1
      · simp [h1]
      · simp [h1, SprintfLeft_idem]
    · simp [List.getElem?_eq_none (show ((List.range n).map (columnMax rw data)).length ≤ j by
        simp; omega)]

end Tbls
